import Mathlib

/-!
# AGbeerbot: the order decision of `src/api/decision.js`

A shallow embedding of the decision core of `handler` (series extraction,
exponential statistics, lead-time estimation, order policy) and theorems
about it.

Values of the request.  A JavaScript value read from the request is a `JSVal`: a
finite number, one of the three non-finite numbers, or anything else (absent
field, `undefined`, `null`, a string, ...).  Every read site of the source guards
the value with `Number.isFinite` and substitutes `0`, so all arithmetic of the
core starts from finite numbers.

Arithmetic.  The source is embedded twice.

* Exactly, over `ℚ` (`ema`, `emaMad`, `estimateLeadTime`, `computeOrder`,
  `handler`): no rounding, no overflow.  The theorems stated on this embedding are
  those whose conclusion does not depend on the rounding: the shape of the reply,
  what a mode or a role reads of the history, the refinement of the reference
  recursion, the concrete scenario.
* In binary64, over `F64` (`emaF`, `emaMadF`, `estimateLeadTimeF`,
  `computeOrderStepsF`, `handlerF`): every operation returns its exact result
  rounded to the nearest binary64 number, ties to even, an overflow gives an
  infinity, and `NaN` arises and propagates as in IEEE 754.  The theorems whose
  conclusion depends on the arithmetic are stated on this embedding.

`Math.sqrt` is a builtin that is not part of the source: it is a parameter
`sqrt` of the definitions that use it, and every theorem holds for every such
function.
-/

namespace BeerBot

/-! ## Data model -/

/-- A JavaScript value as seen by `Number.isFinite`. -/
inductive JSVal where
  | num (q : ℚ)
  | nan
  | posInf
  | negInf
  | undef
  deriving DecidableEq

/-- The four role identifiers of `roles` (line 20). -/
inductive Role where
  | retailer
  | wholesaler
  | distributor
  | factory
  deriving DecidableEq

/-- The list `roles` the final loop iterates over. -/
def roles : List Role := [Role.retailer, Role.wholesaler, Role.distributor, Role.factory]

/-- One entry `w.roles[role]`: the observation of a role in one week. -/
structure RoleObs where
  incoming_orders : JSVal
  arriving_shipments : JSVal
  inventory : JSVal
  backlog : JSVal

/-- One element of `body.weeks`.  `roles` and `orders` may be absent (`none`),
and so may the entry of a role in `roles`. -/
structure WeekRecord where
  roles : Option (Role → Option RoleObs)
  orders : Option (Role → JSVal)

/-- The array `weeks`; an element may be `null`/`undefined` (`none`). -/
abbrev History := List (Option WeekRecord)

/-! ## Helpers (lines 23-27) -/

/-- `Number.isFinite(v) ? v : 0`, the guard of every read site. -/
def finiteOr0 : JSVal → ℚ
  | JSVal.num q => q
  | _ => 0

/-- `clamp = (x, lo, hi) => Math.max(lo, Math.min(hi, x))`. -/
def clamp (x lo hi : ℚ) : ℚ := max lo (min hi x)

/-- `iround`: `0` on a non-finite argument, else `Math.max(0, Math.floor(x + 0.5))`. -/
def iround : JSVal → ℚ
  | JSVal.num x => max 0 ((⌊x + 1 / 2⌋ : ℤ) : ℚ)
  | _ => 0

/-! ## Series extractor (lines 30-42) -/

/-- The expression `w?.roles?.[role]`. -/
def roleEntry (w : Option WeekRecord) (role : Role) : Option RoleObs :=
  match w with
  | none => none
  | some wr =>
    match wr.roles with
    | none => none
    | some f => f role

/-- The expression `w?.orders?.[role]`. -/
def orderEntry (w : Option WeekRecord) (role : Role) : JSVal :=
  match w with
  | none => JSVal.undef
  | some wr =>
    match wr.orders with
    | none => JSVal.undef
    | some f => f role

/-- The expression `r?.incoming_orders`. -/
def incomingOf (r : Option RoleObs) : JSVal :=
  match r with
  | none => JSVal.undef
  | some o => o.incoming_orders

/-- The expression `r?.arriving_shipments`. -/
def arrivingOf (r : Option RoleObs) : JSVal :=
  match r with
  | none => JSVal.undef
  | some o => o.arriving_shipments

/-- The three series `{ d, a, o }` returned by `seriesFor`. -/
structure RoleSeries where
  d : List ℚ
  a : List ℚ
  o : List ℚ

/-- `seriesFor(role)`: one push per week onto each of `d`, `a`, `o`. -/
def seriesFor (weeks : History) (role : Role) : RoleSeries :=
  { d := weeks.map (fun w => finiteOr0 (incomingOf (roleEntry w role)))
    a := weeks.map (fun w => finiteOr0 (arrivingOf (roleEntry w role)))
    o := weeks.map (fun w => finiteOr0 (orderEntry w role)) }

/-! ## Exponential statistics (lines 44-64) -/

/-- The loop of `ema` from index `i` on, with the current `m`. -/
def emaFrom (alpha : ℚ) : ℕ → ℚ → List ℚ → ℚ
  | _, m, [] => m
  | i, m, x :: xs => emaFrom alpha (i + 1) (if i = 0 then x else alpha * x + (1 - alpha) * m) xs

/-- `ema(values, alpha)`. -/
def ema (values : List ℚ) (alpha : ℚ) : ℚ := emaFrom alpha 0 0 values

/-- The result `{ m, mad }` of `emaMad`. -/
structure Stats where
  m : ℚ
  mad : ℚ
  deriving DecidableEq

/-- The loop of `emaMad` from index `i` on, with the current `m` and `mad`. -/
def emaMadFrom (alpha : ℚ) : ℕ → Stats → List ℚ → Stats
  | _, st, [] => st
  | i, st, x :: xs =>
    let m := if i = 0 then x else alpha * x + (1 - alpha) * st.m
    let dev := |x - m|
    let mad := if i = 0 then dev else alpha * dev + (1 - alpha) * st.mad
    emaMadFrom alpha (i + 1) { m := m, mad := mad } xs

/-- `emaMad(values, alpha)`. -/
def emaMad (values : List ℚ) (alpha : ℚ) : Stats :=
  emaMadFrom alpha 0 { m := 0, mad := 0 } values

/-! ## Lead-time estimator (lines 66-100) -/

/-- The accumulators `err` and `cnt` of the inner loop. -/
structure ErrCnt where
  err : ℚ
  cnt : ℕ

/-- One iteration of the inner loop at week `t` for the lag `L`: skipped
(`continue`) when `t - L < 0`. -/
def lagStep (arrivals orders : List ℚ) (L : ℕ) (acc : ErrCnt) (t : ℕ) : ErrCnt :=
  if t < L then acc
  else
    let pred := orders.getD (t - L) 0
    let y := arrivals.getD t 0
    let e := y - pred
    { err := acc.err + e * e, cnt := acc.cnt + 1 }

/-- The inner loop `for (t = start; t < n; t++)` with `start = Math.max(0, n - 12)`
(the truncated subtraction of `ℕ`). -/
def lagLoop (arrivals orders : List ℚ) (n L : ℕ) : ErrCnt :=
  let start := n - 12
  (List.range' start (n - start)).foldl (lagStep arrivals orders L) { err := 0, cnt := 0 }

/-- The variables `bestL` and `bestErr`; `⊤` is `Infinity`. -/
structure Best where
  bestL : ℕ
  bestErr : WithTop ℚ

/-- One iteration of the outer loop for the candidate `L`. -/
def candStep (arrivals orders : List ℚ) (n : ℕ) (b : Best) (L : ℕ) : Best :=
  let ec := lagLoop arrivals orders n L
  if 0 < ec.cnt then
    let mse := ec.err / (ec.cnt : ℚ)
    if ((mse : ℚ) : WithTop ℚ) < b.bestErr then { bestL := L, bestErr := ((mse : ℚ) : WithTop ℚ) }
    else b
  else b

/-- `estimateLeadTime(arrivals, orders)`. -/
def estimateLeadTime (arrivals orders : List ℚ) : ℕ :=
  let n := min arrivals.length orders.length
  if n < 6 then 2
  else ((List.range' 1 6).foldl (candStep arrivals orders n) { bestL := 2, bestErr := ⊤ }).bestL

/-- The evaluation window of the candidate lag `L`, in the words of the
specification: the weeks `t` with `max(L, n - 12) ≤ t < n`. -/
def window (n L : ℕ) : Finset ℕ := Finset.Ico (max L (n - 12)) n

/-- The mean squared error of the candidate lag `L`, in the words of the specification:
the mean over `window n L` of `(arrivals[t] - orders[t - L])^2`. -/
def windowMSE (arrivals orders : List ℚ) (n L : ℕ) : ℚ :=
  (∑ t ∈ window n L, (arrivals.getD t 0 - orders.getD (t - L) 0) ^ 2) /
    ((window n L).card : ℚ)

/-! ## Order policy (lines 102-143) -/

/-- The expression `last`: the last element of `weeks`, `null` when there is none. -/
def lastWeek (weeks : History) : Option WeekRecord :=
  match weeks.getLast? with
  | none => none
  | some w => w

/-- The expression `rNow.inventory` with `rNow = last?.roles?.[role] || {}`. -/
def inventoryOf (r : Option RoleObs) : JSVal :=
  match r with
  | none => JSVal.undef
  | some o => o.inventory

/-- The expression `rNow.backlog` with `rNow = last?.roles?.[role] || {}`. -/
def backlogOf (r : Option RoleObs) : JSVal :=
  match r with
  | none => JSVal.undef
  | some o => o.backlog

/-- The loop `for (k = 1; k <= L - 1; k++)` summing `o[n - k]` when `n - k >= 0`. -/
def outstandingOf (o : List ℚ) (L : ℕ) : ℚ :=
  (List.range' 1 (L - 1)).foldl
    (fun acc k => if k ≤ o.length then acc + o.getD (o.length - k) 0 else acc) 0

/-- The local variables of one call of `computeOrder`. -/
structure OrderSteps where
  forecast : ℚ
  mad : ℚ
  L : ℕ
  inventory : ℚ
  backlog : ℚ
  net : ℚ
  outstanding : ℚ
  IP : ℚ
  safety : ℚ
  S : ℚ
  desired : ℚ
  prevOrder : ℚ
  smoothed : ℚ
  up : ℚ
  down : ℚ
  limited : ℚ
  result : ℚ

/-- The body of `computeOrder(role, useGlobalForecast, globalForecast, globalMad)`,
keeping every local variable. -/
def computeOrderSteps (sqrt : ℚ → ℚ) (weeks : History) (role : Role)
    (useGlobalForecast : Bool) (globalForecast globalMad : ℚ) : OrderSteps :=
  let s := seriesFor weeks role
  let alpha : ℚ := 1 / 4
  let beta : ℚ := 1 / 2
  let z : ℚ := 1
  let stats := emaMad s.d alpha
  let forecast := if useGlobalForecast then globalForecast else stats.m
  let mad := if useGlobalForecast then globalMad else stats.mad
  let L := estimateLeadTime s.a s.o
  let rNow := roleEntry (lastWeek weeks) role
  let inventory := finiteOr0 (inventoryOf rNow)
  let backlog := finiteOr0 (backlogOf rNow)
  let net := inventory - backlog
  let outstanding := outstandingOf s.o L
  let IP := net + outstanding
  let safety := iround (JSVal.num (z * mad * sqrt ((L : ℚ) + 1)))
  let S := forecast * ((L : ℚ) + 1) + safety
  let desired := S - IP
  let n := s.o.length
  let prevOrder := if 1 ≤ n then s.o.getD (n - 1) 0 else 0
  let smoothed := beta * desired + (1 - beta) * prevOrder
  let up := iround (JSVal.num (1 / 2 * forecast + 2))
  let down := iround (JSVal.num (7 / 10 * forecast + 2))
  let limited := clamp smoothed (prevOrder - down) (prevOrder + up)
  { forecast := forecast, mad := mad, L := L, inventory := inventory, backlog := backlog,
    net := net, outstanding := outstanding, IP := IP, safety := safety, S := S,
    desired := desired, prevOrder := prevOrder, smoothed := smoothed, up := up, down := down,
    limited := limited, result := iround (JSVal.num limited) }

/-- `computeOrder(role, useGlobalForecast, globalForecast, globalMad)`. -/
def computeOrder (sqrt : ℚ → ℚ) (weeks : History) (role : Role)
    (useGlobalForecast : Bool) (globalForecast globalMad : ℚ) : ℚ :=
  (computeOrderSteps sqrt weeks role useGlobalForecast globalForecast globalMad).result

/-! ## The decision (lines 16-20 and 145-161) -/

/-- The variables `globalForecast` and `globalMad` after lines 146-153: the
statistics of the retailer's demand when `mode === "glassbox"`, else `0` and `0`. -/
def globalStats (mode : String) (weeks : History) : Stats :=
  if mode = "glassbox" then emaMad (seriesFor weeks Role.retailer).d (1 / 4)
  else { m := 0, mad := 0 }

/-- The entry `ordersOut[role]` of the reply of `handler` for the request
`{ mode, weeks }`. -/
def handler (sqrt : ℚ → ℚ) (mode : String) (weeks : History) (role : Role) : ℚ :=
  let g := globalStats mode weeks
  let useGlobal : Bool := decide (mode = "glassbox")
  computeOrder sqrt weeks role useGlobal g.m g.mad

/-- The local variables of the call of `computeOrder` that `handler` makes for `role`. -/
def handlerSteps (sqrt : ℚ → ℚ) (mode : String) (weeks : History) (role : Role) : OrderSteps :=
  computeOrderSteps sqrt weeks role (decide (mode = "glassbox"))
    (globalStats mode weeks).m (globalStats mode weeks).mad

/-! ## Comparing histories -/

/-- The week record with the `incoming_orders` of every role other than the retailer
blanked: two histories differ only in those values when they agree after blanking. -/
def eraseOtherDemand (w : Option WeekRecord) : Option WeekRecord :=
  match w with
  | none => none
  | some wr =>
    some { roles := wr.roles.map (fun f r =>
             if r = Role.retailer then f r
             else (f r).map (fun ob => { ob with incoming_orders := JSVal.undef })),
           orders := wr.orders }

/-- The week record with the `inventory` and `backlog` of `role` blanked: two week
records differ only in those two values when they agree after blanking. -/
def eraseStock (role : Role) (w : Option WeekRecord) : Option WeekRecord :=
  match w with
  | none => none
  | some wr =>
    some { roles := wr.roles.map (fun f r =>
             if r = role then
               (f r).map (fun ob => { ob with inventory := JSVal.undef, backlog := JSVal.undef })
             else f r),
           orders := wr.orders }

/-- What one week record says about one role: the four values of its observation and
the order it placed, each as read by the source (absent entries read as `undefined`). -/
structure OwnView where
  incoming : JSVal
  arriving : JSVal
  inventory : JSVal
  backlog : JSVal
  placed : JSVal

/-- The view of `role` in the week record `w`. -/
def ownView (role : Role) (w : Option WeekRecord) : OwnView :=
  { incoming := incomingOf (roleEntry w role)
    arriving := arrivingOf (roleEntry w role)
    inventory := inventoryOf (roleEntry w role)
    backlog := backlogOf (roleEntry w role)
    placed := orderEntry w role }

/-- The defaulting rule in the words of the specification: `x` is the value `v` when
`v` is present and a finite number, and `0` otherwise. -/
def DefaultsTo (v : JSVal) (x : ℚ) : Prop :=
  (∀ q, v = JSVal.num q → x = q) ∧ ((∀ q, v ≠ JSVal.num q) → x = 0)

/-- The reference exponential mean in the words of the specification:
`m[0] = x[0]` and `m[i] = alpha * x[i] + (1 - alpha) * m[i-1]`. -/
def emaRefAt (x : List ℚ) (alpha : ℚ) : ℕ → ℚ
  | 0 => x.getD 0 0
  | i + 1 => alpha * x.getD (i + 1) 0 + (1 - alpha) * emaRefAt x alpha i

/-- The result of the reference exponential mean: `m[n-1]`, or `0` when the sequence
is empty. -/
def emaRef (x : List ℚ) (alpha : ℚ) : ℚ :=
  if x.length = 0 then 0 else emaRefAt x alpha (x.length - 1)

/-! ## Concrete histories -/

/-- The observation `incoming_orders = 4, arriving_shipments = 4, inventory = 12, backlog = 0`. -/
def scenarioObs : RoleObs :=
  { incoming_orders := JSVal.num 4, arriving_shipments := JSVal.num 4,
    inventory := JSVal.num 12, backlog := JSVal.num 0 }

/-- The one-week history of the concrete scenario: the retailer observes `scenarioObs`
and placed the order `4`; nothing is recorded for the other roles. -/
def scenarioWeeks : History :=
  [some { roles := some (fun r => if r = Role.retailer then some scenarioObs else none),
          orders := some (fun r => if r = Role.retailer then JSVal.num 4 else JSVal.undef) }]

/-- The one-week history in which every role placed the order `-100` and no
observation is recorded. -/
def negativeOrderWeeks : History :=
  [some { roles := none, orders := some (fun _ => JSVal.num (-100)) }]

/-- A rational stand-in for `Math.sqrt`, used where the model is evaluated on a
concrete input: the integer square root taken at six decimal places. -/
def sqrtApprox (q : ℚ) : ℚ := (Nat.sqrt (⌊q * 1000000000000⌋.toNat) : ℚ) / 1000000

/-- The one-week history in which every role observes `scenarioObs` and placed the
order `4`. -/
def uniformWeeks : History :=
  [some { roles := some (fun _ => some scenarioObs), orders := some (fun _ => JSVal.num 4) }]

/-- The one-week history in which every role holds an inventory of 100 and the
wholesaler alone observes the demand `x` (the other roles observe 0); no order is recorded. -/
def stockedWeeks (x : ℚ) : History :=
  [some { roles := some (fun r => some
            { incoming_orders := if r = Role.wholesaler then JSVal.num x else JSVal.num 0,
              arriving_shipments := JSVal.num 0,
              inventory := JSVal.num 100,
              backlog := JSVal.num 0 }),
          orders := none }]

/-- A demand series that is not constant. -/
def sampleDemand : List ℚ := [1, 5, 2, 8]

/-- A constant demand series. -/
def constantDemand : List ℚ := [4, 4, 4]

/-- Twelve weeks in which every value is `0`. -/
def zeros12 : List ℚ := [0, 0, 0, 0, 0, 0, 0, 0, 0, 0, 0, 0]

/-- Twelve weeks of orders `1, 2, ..., 12`. -/
def rampOrders : List ℚ := [1, 2, 3, 4, 5, 6, 7, 8, 9, 10, 11, 12]

/-- The arrivals that follow `rampOrders` three weeks later (nothing arrives before). -/
def rampArrivals3 : List ℚ := [0, 0, 0, 1, 2, 3, 4, 5, 6, 7, 8, 9]

/-- Six weeks of orders. -/
def sixOrders : List ℚ := [1, 2, 3, 4, 5, 6]

/-- The arrivals that follow `sixOrders` two weeks later. -/
def sixArrivals2 : List ℚ := [0, 0, 1, 2, 3, 4]

/-! ## Binary64 numbers -/

/-- A JavaScript number (IEEE 754 binary64): a finite value, carried as the rational it
denotes, `+Infinity`, `-Infinity` or `NaN`.  The sign of zero is not represented: no
operation of the source observes it. -/
inductive F64 where
  | fin (q : ℚ)
  | pinf
  | ninf
  | nan
  deriving DecidableEq

/-- The exponent of the last place at `q`: `⌊log2 |q|⌋ - 52`, and `-1074` in the subnormal
range. -/
def expo (q : ℚ) : ℤ := max (Int.log 2 |q|) (-1022) - 52

/-- Rounding to the nearest integer, a tie going to the even one. -/
def rne (x : ℚ) : ℤ :=
  if x - (⌊x⌋ : ℚ) < 1 / 2 then ⌊x⌋
  else if 1 / 2 < x - (⌊x⌋ : ℚ) then ⌊x⌋ + 1
  else if ⌊x⌋ % 2 = 0 then ⌊x⌋ else ⌊x⌋ + 1

/-- Rounding of the rational `q` to 53 significant bits (round to nearest, ties to even),
before the overflow test. -/
def rndQ (q : ℚ) : ℚ := (rne (q / (2 : ℚ) ^ expo q) : ℚ) * (2 : ℚ) ^ expo q

/-- The number `2^1024`: a rounded magnitude that reaches it is out of the binary64 range. -/
@[irreducible]
def big : ℚ := (2 : ℚ) ^ (1024 : ℕ)

/-- The binary64 result of an operation whose exact result is `q`: `q` rounded to nearest,
ties to even, or an infinity on overflow. -/
def rnd (q : ℚ) : F64 :=
  if big ≤ rndQ q then F64.pinf
  else if rndQ q ≤ -big then F64.ninf
  else F64.fin (rndQ q)

/-- The order `x ≤ y` on binary64 values; it never holds when a side is `NaN`. -/
def fle (x y : F64) : Prop :=
  match x, y with
  | F64.fin a, F64.fin b => a ≤ b
  | F64.fin _, F64.pinf => True
  | F64.ninf, F64.fin _ => True
  | F64.ninf, F64.ninf => True
  | F64.ninf, F64.pinf => True
  | F64.pinf, F64.pinf => True
  | _, _ => False

/-! ## Binary64 operations -/

/-- `x + y` on binary64 values. -/
def fadd (x y : F64) : F64 :=
  match x, y with
  | F64.fin a, F64.fin b => rnd (a + b)
  | F64.fin _, F64.pinf => F64.pinf
  | F64.fin _, F64.ninf => F64.ninf
  | F64.pinf, F64.fin _ => F64.pinf
  | F64.pinf, F64.pinf => F64.pinf
  | F64.ninf, F64.fin _ => F64.ninf
  | F64.ninf, F64.ninf => F64.ninf
  | _, _ => F64.nan

/-- `x - y` on binary64 values. -/
def fsub (x y : F64) : F64 :=
  match x, y with
  | F64.fin a, F64.fin b => rnd (a - b)
  | F64.fin _, F64.pinf => F64.ninf
  | F64.fin _, F64.ninf => F64.pinf
  | F64.pinf, F64.fin _ => F64.pinf
  | F64.pinf, F64.ninf => F64.pinf
  | F64.ninf, F64.fin _ => F64.ninf
  | F64.ninf, F64.pinf => F64.ninf
  | _, _ => F64.nan

/-- The product of a finite value `a` and an infinity of sign `s` (`true` for `+Infinity`). -/
def mulInf (a : ℚ) (s : Bool) : F64 :=
  if a = 0 then F64.nan
  else if decide (0 < a) = s then F64.pinf
  else F64.ninf

/-- `x * y` on binary64 values. -/
def fmul (x y : F64) : F64 :=
  match x, y with
  | F64.fin a, F64.fin b => rnd (a * b)
  | F64.fin a, F64.pinf => mulInf a true
  | F64.fin a, F64.ninf => mulInf a false
  | F64.pinf, F64.fin b => mulInf b true
  | F64.ninf, F64.fin b => mulInf b false
  | F64.pinf, F64.pinf => F64.pinf
  | F64.pinf, F64.ninf => F64.ninf
  | F64.ninf, F64.pinf => F64.ninf
  | F64.ninf, F64.ninf => F64.pinf
  | _, _ => F64.nan

/-- `x / cnt` for a count `cnt > 0` (a small integer, exact as a binary64 value). -/
def fdivCnt (x : F64) (cnt : ℕ) : F64 :=
  match x with
  | F64.fin a => rnd (a / (cnt : ℚ))
  | F64.pinf => F64.pinf
  | F64.ninf => F64.ninf
  | F64.nan => F64.nan

/-- `Math.abs(x)`. -/
def fabs (x : F64) : F64 :=
  match x with
  | F64.fin a => F64.fin |a|
  | F64.pinf => F64.pinf
  | F64.ninf => F64.pinf
  | F64.nan => F64.nan

/-- `Math.floor(x)`. -/
def ffloor (x : F64) : F64 :=
  match x with
  | F64.fin a => F64.fin ((⌊a⌋ : ℤ) : ℚ)
  | F64.pinf => F64.pinf
  | F64.ninf => F64.ninf
  | F64.nan => F64.nan

/-- The comparison `x < y` of JavaScript: false when either side is `NaN`. -/
def flt (x y : F64) : Bool :=
  match x, y with
  | F64.fin a, F64.fin b => decide (a < b)
  | F64.fin _, F64.pinf => true
  | F64.ninf, F64.fin _ => true
  | F64.ninf, F64.pinf => true
  | _, _ => false

/-- `Math.max(x, y)`: `NaN` when either argument is `NaN`. -/
def fmax (x y : F64) : F64 :=
  if x = F64.nan ∨ y = F64.nan then F64.nan
  else if flt x y then y else x

/-- `Math.min(x, y)`: `NaN` when either argument is `NaN`. -/
def fmin (x y : F64) : F64 :=
  if x = F64.nan ∨ y = F64.nan then F64.nan
  else if flt y x then y else x

/-- `clamp` on binary64 values: `Math.max(lo, Math.min(hi, x))`. -/
def clampF (x lo hi : F64) : F64 := fmax lo (fmin hi x)

/-- `iround` on binary64 values: `0` on a non-finite argument, else
`Math.max(0, Math.floor(x + 0.5))`. -/
def iroundF (x : F64) : F64 :=
  match x with
  | F64.fin a => fmax (F64.fin 0) (ffloor (fadd (F64.fin a) (F64.fin (1 / 2))))
  | _ => F64.fin 0

/-! ## The source in binary64 -/

/-- The loop of `ema` in binary64 from index `i` on, with the current `m`. -/
def emaFromF (alpha : F64) : ℕ → F64 → List ℚ → F64
  | _, m, [] => m
  | i, m, x :: xs =>
    emaFromF alpha (i + 1)
      (if i = 0 then F64.fin x
       else fadd (fmul alpha (F64.fin x)) (fmul (fsub (F64.fin 1) alpha) m)) xs

/-- `ema(values, alpha)` in binary64. -/
def emaF (values : List ℚ) (alpha : F64) : F64 := emaFromF alpha 0 (F64.fin 0) values

/-- The result `{ m, mad }` of `emaMad` in binary64. -/
structure StatsF where
  m : F64
  mad : F64
  deriving DecidableEq

/-- The loop of `emaMad` in binary64 from index `i` on. -/
def emaMadFromF (alpha : F64) : ℕ → StatsF → List ℚ → StatsF
  | _, st, [] => st
  | i, st, x :: xs =>
    let m := if i = 0 then F64.fin x
      else fadd (fmul alpha (F64.fin x)) (fmul (fsub (F64.fin 1) alpha) st.m)
    let dev := fabs (fsub (F64.fin x) m)
    let mad := if i = 0 then dev
      else fadd (fmul alpha dev) (fmul (fsub (F64.fin 1) alpha) st.mad)
    emaMadFromF alpha (i + 1) { m := m, mad := mad } xs

/-- `emaMad(values, alpha)` in binary64. -/
def emaMadF (values : List ℚ) (alpha : F64) : StatsF :=
  emaMadFromF alpha 0 { m := F64.fin 0, mad := F64.fin 0 } values

/-- The accumulators `err` and `cnt` of the inner loop in binary64. -/
structure ErrCntF where
  err : F64
  cnt : ℕ

/-- One iteration of the inner loop in binary64. -/
def lagStepF (arrivals orders : List ℚ) (L : ℕ) (acc : ErrCntF) (t : ℕ) : ErrCntF :=
  if t < L then acc
  else
    let pred := F64.fin (orders.getD (t - L) 0)
    let y := F64.fin (arrivals.getD t 0)
    let e := fsub y pred
    { err := fadd acc.err (fmul e e), cnt := acc.cnt + 1 }

/-- The inner loop in binary64. -/
def lagLoopF (arrivals orders : List ℚ) (n L : ℕ) : ErrCntF :=
  let start := n - 12
  (List.range' start (n - start)).foldl (lagStepF arrivals orders L)
    { err := F64.fin 0, cnt := 0 }

/-- The value `mse = err / cnt` of the candidate `L` in binary64. -/
def mseF (arrivals orders : List ℚ) (n L : ℕ) : F64 :=
  fdivCnt (lagLoopF arrivals orders n L).err (lagLoopF arrivals orders n L).cnt

/-- The variables `bestL` and `bestErr` in binary64. -/
structure BestF where
  bestL : ℕ
  bestErr : F64

/-- One iteration of the outer loop in binary64. -/
def candStepF (arrivals orders : List ℚ) (n : ℕ) (b : BestF) (L : ℕ) : BestF :=
  let ec := lagLoopF arrivals orders n L
  if 0 < ec.cnt then
    let mse := fdivCnt ec.err ec.cnt
    if flt mse b.bestErr then { bestL := L, bestErr := mse }
    else b
  else b

/-- The state of `bestL`, `bestErr` when the outer loop ends. -/
def searchF (arrivals orders : List ℚ) (n : ℕ) : BestF :=
  (List.range' 1 6).foldl (candStepF arrivals orders n) { bestL := 2, bestErr := F64.pinf }

/-- `estimateLeadTime(arrivals, orders)` in binary64. -/
def estimateLeadTimeF (arrivals orders : List ℚ) : ℕ :=
  let n := min arrivals.length orders.length
  if n < 6 then 2
  else (searchF arrivals orders n).bestL

/-- The loop summing the outstanding orders in binary64. -/
def outstandingF (o : List ℚ) (L : ℕ) : F64 :=
  (List.range' 1 (L - 1)).foldl
    (fun acc k => if k ≤ o.length then fadd acc (F64.fin (o.getD (o.length - k) 0)) else acc)
    (F64.fin 0)

/-- The constant `0.7` as a binary64 value. -/
def c07 : ℚ := 3152519739159347 / 4503599627370496

/-- The local variables of one call of `computeOrder` in binary64. -/
structure OrderStepsF where
  forecast : F64
  mad : F64
  L : ℕ
  inventory : F64
  backlog : F64
  net : F64
  outstanding : F64
  IP : F64
  safety : F64
  S : F64
  desired : F64
  prevOrder : F64
  smoothed : F64
  up : F64
  down : F64
  limited : F64
  result : F64

/-- The body of `computeOrder` in binary64, keeping every local variable. -/
def computeOrderStepsF (sqrt : F64 → F64) (weeks : History) (role : Role)
    (useGlobalForecast : Bool) (globalForecast globalMad : F64) : OrderStepsF :=
  let s := seriesFor weeks role
  let alpha := F64.fin (1 / 4)
  let beta := F64.fin (1 / 2)
  let z := F64.fin 1
  let stats := emaMadF s.d alpha
  let forecast := if useGlobalForecast then globalForecast else stats.m
  let mad := if useGlobalForecast then globalMad else stats.mad
  let L := estimateLeadTimeF s.a s.o
  let rNow := roleEntry (lastWeek weeks) role
  let inventory := F64.fin (finiteOr0 (inventoryOf rNow))
  let backlog := F64.fin (finiteOr0 (backlogOf rNow))
  let net := fsub inventory backlog
  let outstanding := outstandingF s.o L
  let IP := fadd net outstanding
  let safety := iroundF (fmul (fmul z mad) (sqrt (F64.fin ((L : ℚ) + 1))))
  let S := fadd (fmul forecast (F64.fin ((L : ℚ) + 1))) safety
  let desired := fsub S IP
  let n := s.o.length
  let prevOrder := if 1 ≤ n then F64.fin (s.o.getD (n - 1) 0) else F64.fin 0
  let smoothed := fadd (fmul beta desired) (fmul (fsub (F64.fin 1) beta) prevOrder)
  let up := iroundF (fadd (fmul (F64.fin (1 / 2)) forecast) (F64.fin 2))
  let down := iroundF (fadd (fmul (F64.fin c07) forecast) (F64.fin 2))
  let limited := clampF smoothed (fsub prevOrder down) (fadd prevOrder up)
  { forecast := forecast, mad := mad, L := L, inventory := inventory, backlog := backlog,
    net := net, outstanding := outstanding, IP := IP, safety := safety, S := S,
    desired := desired, prevOrder := prevOrder, smoothed := smoothed, up := up, down := down,
    limited := limited, result := iroundF limited }

/-- The variables `globalForecast` and `globalMad` in binary64. -/
def globalStatsF (mode : String) (weeks : History) : StatsF :=
  if mode = "glassbox" then emaMadF (seriesFor weeks Role.retailer).d (F64.fin (1 / 4))
  else { m := F64.fin 0, mad := F64.fin 0 }

/-- The local variables of the call of `computeOrder` that `handler` makes for `role`,
in binary64. -/
def handlerStepsF (sqrt : F64 → F64) (mode : String) (weeks : History) (role : Role) :
    OrderStepsF :=
  computeOrderStepsF sqrt weeks role (decide (mode = "glassbox"))
    (globalStatsF mode weeks).m (globalStatsF mode weeks).mad

/-- The entry `ordersOut[role]` of the reply of `handler`, in binary64. -/
def handlerF (sqrt : F64 → F64) (mode : String) (weeks : History) (role : Role) : F64 :=
  (handlerStepsF sqrt mode weeks role).result

/-- A stand-in for `Math.sqrt` on binary64 values, used where the model is evaluated on a
concrete input. -/
def sqrtApproxF (x : F64) : F64 :=
  match x with
  | F64.fin a => if a < 0 then F64.nan else rnd (sqrtApprox a)
  | F64.pinf => F64.pinf
  | _ => F64.nan

/-- A binary64 value that is a finite number `≥ 0` or `+Infinity`. -/
def NonNegF (x : F64) : Prop := x = F64.pinf ∨ ∃ r : ℚ, 0 ≤ r ∧ x = F64.fin r

/-- The invariant of the outer loop in binary64 before the candidate `k` is tried: either
`bestL`, `bestErr` are still the initial `2` and `Infinity` and every candidate below `k`
with a non-empty window had the computed error `Infinity`, or `bestL` is the first candidate
below `k` of least computed error, which is below `Infinity`. -/
def BestInvF (arrivals orders : List ℚ) (n k : ℕ) (b : BestF) : Prop :=
  (b.bestL = 2 ∧ b.bestErr = F64.pinf ∧
    ∀ L, 1 ≤ L → L < k → 0 < (window n L).card → mseF arrivals orders n L = F64.pinf) ∨
  (1 ≤ b.bestL ∧ b.bestL < k ∧ 0 < (window n b.bestL).card ∧
    b.bestErr = mseF arrivals orders n b.bestL ∧ b.bestErr ≠ F64.pinf ∧
    (∀ L, 1 ≤ L → L < k → 0 < (window n L).card →
      flt (mseF arrivals orders n L) b.bestErr = false) ∧
    (∀ L, 1 ≤ L → L < b.bestL → 0 < (window n L).card →
      flt b.bestErr (mseF arrivals orders n L) = true))

/-- The number `2^600`, whose square is beyond the binary64 range. -/
@[irreducible]
def huge : ℚ := (2 : ℚ) ^ (600 : ℕ)

/-- Six weeks of arrivals `2^600`. -/
def hugeArrivals : List ℚ := [huge, huge, huge, huge, huge, huge]

/-- Six weeks of orders `0`. -/
def zeros6 : List ℚ := [0, 0, 0, 0, 0, 0]

/-- A binary64 value that is a finite number `≥ 1` or `+Infinity`. -/
def GeOneF (x : F64) : Prop := x = F64.pinf ∨ ∃ r : ℚ, 1 ≤ r ∧ x = F64.fin r

/-- The binary64 number written `0.1`. -/
def tenth : ℚ := 3602879701896397 / 36028797018963968

/-- The binary64 number written `0.3`. -/
def threeTenths : ℚ := 5404319552844595 / 18014398509481984

/-- Two weeks of the constant demand `0.1`. -/
def tenthDemand : List ℚ := [tenth, tenth]

/-- A value that a binary64 operation can return: `NaN`, an infinity, or a finite number
that rounding leaves unchanged. -/
def IsOut (x : F64) : Prop := ∀ a : ℚ, x = F64.fin a → rnd a = F64.fin a

/-- The week record in which the retailer observes the demand `d`, no arrival, the
inventory `inv` and the backlog `back`, and placed the order `o`; nothing is recorded for
the other roles. -/
def retailerWeek (d inv back o : ℚ) : Option WeekRecord :=
  some { roles := some (fun r =>
           if r = Role.retailer then
             some { incoming_orders := JSVal.num d, arriving_shipments := JSVal.num 0,
                    inventory := JSVal.num inv, backlog := JSVal.num back }
           else none),
         orders := some (fun r => if r = Role.retailer then JSVal.num o else JSVal.undef) }

/-- The number `2^1023`, a binary64 number whose double is beyond the binary64 range. -/
@[irreducible]
def halfBig : ℚ := (2 : ℚ) ^ (1023 : ℕ)

/-- The binary64 number written `9.8`. -/
def nineEight : ℚ := 2758454771764429 / 281474976710656

/-- The binary64 number written `6.3`. -/
def sixThree : ℚ := 7093169413108531 / 1125899906842624

/-- The one-week history in which the retailer observes the demand `3.5`, the inventory
`9.8` and the backlog `6.3`, and placed the order `o`. -/
def roundingWeeks (o : ℚ) : History := [retailerWeek (7 / 2) nineEight sixThree o]

/-- The week record of the overflow example: the retailer observes the demand `-2^1023`,
the inventory `-2^1023` and the backlog `2^1023`, and placed the order `5`. -/
def overflowWeek : Option WeekRecord := retailerWeek (-halfBig) (-halfBig) halfBig 5

/-- The week record of the overflow example with the inventory `0` and the backlog `0`. -/
def overflowWeekFlat : Option WeekRecord := retailerWeek (-halfBig) 0 0 5

/-- A number of the grid of the multiples of `2^-20` of magnitude at most `2^28`: the few
sums, differences and halvings of the order policy are exact in binary64 on such numbers. -/
def OnGrid (v : ℚ) : Prop :=
  ∃ m : ℤ, v * (2 : ℚ) ^ (20 : ℕ) = (m : ℚ) ∧ -(2 : ℤ) ^ (48 : ℕ) ≤ m ∧ m ≤ (2 : ℤ) ^ (48 : ℕ)

/-! ## Basic facts -/

theorem iround_eq_natCast (v : JSVal) : ∃ k : ℕ, iround v = (k : ℚ) := by
  cases v with
  | num x =>
    refine ⟨(max 0 ⌊x + 1 / 2⌋).toNat, ?_⟩
    have h : ((max 0 ⌊x + 1 / 2⌋).toNat : ℤ) = max 0 ⌊x + 1 / 2⌋ :=
      Int.toNat_of_nonneg (le_max_left _ _)
    have h2 : (((max 0 ⌊x + 1 / 2⌋).toNat : ℤ) : ℚ) = ((max 0 ⌊x + 1 / 2⌋ : ℤ) : ℚ) := by
      rw [h]
    simp only [iround]
    rw [Int.cast_natCast] at h2
    rw [h2]
    push_cast
    rfl
  | nan => exact ⟨0, by simp [iround]⟩
  | posInf => exact ⟨0, by simp [iround]⟩
  | negInf => exact ⟨0, by simp [iround]⟩
  | undef => exact ⟨0, by simp [iround]⟩

theorem handler_eq_steps (sqrt : ℚ → ℚ) (mode : String) (weeks : History) (role : Role) :
    handler sqrt mode weeks role = (handlerSteps sqrt mode weeks role).result := rfl

/-! ## What glassbox reads -/

theorem roleEntry_eraseOtherDemand (w : Option WeekRecord) (role : Role) :
    roleEntry (eraseOtherDemand w) role =
      if role = Role.retailer then roleEntry w role
      else (roleEntry w role).map (fun ob => { ob with incoming_orders := JSVal.undef }) := by
  cases w with
  | none => simp [eraseOtherDemand, roleEntry]
  | some wr =>
    cases hr : wr.roles with
    | none => simp [eraseOtherDemand, roleEntry, hr]
    | some f => simp [eraseOtherDemand, roleEntry, hr]

theorem orderEntry_eraseOtherDemand (w : Option WeekRecord) (role : Role) :
    orderEntry (eraseOtherDemand w) role = orderEntry w role := by
  cases w with
  | none => rfl
  | some wr => rfl

theorem arrivingOf_eraseOtherDemand (w : Option WeekRecord) (role : Role) :
    arrivingOf (roleEntry (eraseOtherDemand w) role) = arrivingOf (roleEntry w role) := by
  rw [roleEntry_eraseOtherDemand]
  by_cases h : role = Role.retailer
  · rw [if_pos h]
  · rw [if_neg h]
    cases roleEntry w role <;> rfl

theorem inventoryOf_eraseOtherDemand (w : Option WeekRecord) (role : Role) :
    inventoryOf (roleEntry (eraseOtherDemand w) role) = inventoryOf (roleEntry w role) := by
  rw [roleEntry_eraseOtherDemand]
  by_cases h : role = Role.retailer
  · rw [if_pos h]
  · rw [if_neg h]
    cases roleEntry w role <;> rfl

theorem backlogOf_eraseOtherDemand (w : Option WeekRecord) (role : Role) :
    backlogOf (roleEntry (eraseOtherDemand w) role) = backlogOf (roleEntry w role) := by
  rw [roleEntry_eraseOtherDemand]
  by_cases h : role = Role.retailer
  · rw [if_pos h]
  · rw [if_neg h]
    cases roleEntry w role <;> rfl

theorem lastWeek_map_eraseOtherDemand (weeks : History) :
    lastWeek (weeks.map eraseOtherDemand) = eraseOtherDemand (lastWeek weeks) := by
  unfold lastWeek
  rw [List.getLast?_map]
  cases weeks.getLast? <;> rfl

/-- In glassbox mode the order does not read the demand of the roles other than the
retailer: blanking it leaves every order unchanged. -/
theorem handler_glassbox_eraseOtherDemand (sqrt : ℚ → ℚ) (weeks : History) (role : Role) :
    handler sqrt "glassbox" (weeks.map eraseOtherDemand) role =
      handler sqrt "glassbox" weeks role := by
  have ha : (seriesFor (weeks.map eraseOtherDemand) role).a = (seriesFor weeks role).a := by
    simp [seriesFor, List.map_map, Function.comp_def, arrivingOf_eraseOtherDemand]
  have ho : (seriesFor (weeks.map eraseOtherDemand) role).o = (seriesFor weeks role).o := by
    simp [seriesFor, List.map_map, Function.comp_def, orderEntry_eraseOtherDemand]
  have hd : (seriesFor (weeks.map eraseOtherDemand) Role.retailer).d =
      (seriesFor weeks Role.retailer).d := by
    simp [seriesFor, List.map_map, Function.comp_def, roleEntry_eraseOtherDemand]
  simp only [handler, computeOrder, computeOrderSteps, globalStats, ha, ho, hd,
    lastWeek_map_eraseOtherDemand, inventoryOf_eraseOtherDemand, backlogOf_eraseOtherDemand,
    decide_True, if_true]

/-! ## What a role reads of the history -/

theorem seriesFor_eq_ownView (weeks : History) (role : Role) :
    seriesFor weeks role =
      { d := (weeks.map (ownView role)).map (fun v => finiteOr0 v.incoming)
        a := (weeks.map (ownView role)).map (fun v => finiteOr0 v.arriving)
        o := (weeks.map (ownView role)).map (fun v => finiteOr0 v.placed) } := by
  simp [seriesFor, ownView, List.map_map, Function.comp_def]

theorem inventory_last_eq_ownView (weeks : History) (role : Role) :
    inventoryOf (roleEntry (lastWeek weeks) role) =
      match (weeks.map (ownView role)).getLast? with
      | none => JSVal.undef
      | some v => v.inventory := by
  unfold lastWeek
  rw [List.getLast?_map]
  cases weeks.getLast? <;> rfl

theorem backlog_last_eq_ownView (weeks : History) (role : Role) :
    backlogOf (roleEntry (lastWeek weeks) role) =
      match (weeks.map (ownView role)).getLast? with
      | none => JSVal.undef
      | some v => v.backlog := by
  unfold lastWeek
  rw [List.getLast?_map]
  cases weeks.getLast? <;> rfl

theorem defaultsTo_finiteOr0 (v : JSVal) : DefaultsTo v (finiteOr0 v) := by
  constructor
  · intro q hq
    rw [hq]
    rfl
  · intro hne
    cases v with
    | num q => exact absurd rfl (hne q)
    | nan => rfl
    | posInf => rfl
    | negInf => rfl
    | undef => rfl

/-! ## The exponential statistics -/

theorem emaMadFrom_m (alpha : ℚ) (xs : List ℚ) (i : ℕ) (st : Stats) :
    (emaMadFrom alpha i st xs).m = emaFrom alpha i st.m xs := by
  induction xs generalizing i st with
  | nil => rfl
  | cons x xs ih =>
    simp only [emaMadFrom, emaFrom]
    rw [ih]

theorem emaMad_m_eq_ema (x : List ℚ) (alpha : ℚ) : (emaMad x alpha).m = ema x alpha :=
  emaMadFrom_m alpha x 0 { m := 0, mad := 0 }

theorem emaMadFrom_mad_nonneg (alpha : ℚ) (h0 : 0 ≤ alpha) (h1 : alpha ≤ 1) (xs : List ℚ)
    (i : ℕ) (st : Stats) (hst : 0 ≤ st.mad) : 0 ≤ (emaMadFrom alpha i st xs).mad := by
  induction xs generalizing i st with
  | nil => exact hst
  | cons x xs ih =>
    simp only [emaMadFrom]
    apply ih
    by_cases hi : i = 0
    · simp only [if_pos hi]
      exact abs_nonneg _
    · simp only [if_neg hi]
      have hdev : 0 ≤ |x - (alpha * x + (1 - alpha) * st.m)| := abs_nonneg _
      have h1a : 0 ≤ 1 - alpha := by linarith
      exact add_nonneg (mul_nonneg h0 hdev) (mul_nonneg h1a hst)

theorem emaFrom_eq_emaRefAt (alpha : ℚ) (xs pre : List ℚ) (hpre : pre ≠ []) :
    emaFrom alpha pre.length (emaRefAt (pre ++ xs) alpha (pre.length - 1)) xs =
      emaRefAt (pre ++ xs) alpha ((pre ++ xs).length - 1) := by
  induction xs generalizing pre with
  | nil => simp [emaFrom]
  | cons x xs ih =>
    have hlen : pre.length ≠ 0 := fun h => hpre (List.length_eq_zero.mp h)
    obtain ⟨k, hk⟩ := Nat.exists_eq_succ_of_ne_zero hlen
    have hget : (pre ++ x :: xs).getD pre.length 0 = x := by
      rw [List.getD_eq_getElem?_getD, List.getElem?_append_right (le_refl _)]
      simp
    have hstep : alpha * x + (1 - alpha) * emaRefAt (pre ++ x :: xs) alpha (pre.length - 1) =
        emaRefAt (pre ++ x :: xs) alpha pre.length := by
      rw [hk, Nat.succ_sub_one]
      show _ = alpha * (pre ++ x :: xs).getD (k + 1) 0 + _
      rw [← Nat.succ_eq_add_one, ← hk, hget]
    simp only [emaFrom, if_neg hlen]
    rw [hstep]
    have h := ih (pre ++ [x]) (by simp)
    simp only [List.length_append, List.length_singleton, Nat.add_sub_cancel,
      List.append_assoc, List.singleton_append, List.length_cons] at h
    simp only [List.length_append, List.length_cons]
    exact h

theorem ema_eq_emaRef (x : List ℚ) (alpha : ℚ) : ema x alpha = emaRef x alpha := by
  cases x with
  | nil => rfl
  | cons v xs =>
    have h := emaFrom_eq_emaRefAt alpha xs [v] (by simp)
    change emaFrom alpha 1 v xs = emaRefAt (v :: xs) alpha ((v :: xs).length - 1) at h
    rw [emaRef, if_neg (by simp)]
    exact h

/-! ## What blanking the stock leaves unchanged -/

theorem roleEntry_eraseStock (role : Role) (w : Option WeekRecord) (r : Role) :
    roleEntry (eraseStock role w) r =
      if r = role then
        (roleEntry w r).map
          (fun ob => { ob with inventory := JSVal.undef, backlog := JSVal.undef })
      else roleEntry w r := by
  cases w with
  | none => simp [eraseStock, roleEntry]
  | some wr =>
    cases hr : wr.roles with
    | none => simp [eraseStock, roleEntry, hr]
    | some f => simp [eraseStock, roleEntry, hr]

theorem incomingOf_eraseStock (role : Role) (w : Option WeekRecord) (r : Role) :
    incomingOf (roleEntry (eraseStock role w) r) = incomingOf (roleEntry w r) := by
  rw [roleEntry_eraseStock]
  by_cases h : r = role
  · rw [if_pos h]
    cases roleEntry w r <;> rfl
  · rw [if_neg h]

theorem arrivingOf_eraseStock (role : Role) (w : Option WeekRecord) (r : Role) :
    arrivingOf (roleEntry (eraseStock role w) r) = arrivingOf (roleEntry w r) := by
  rw [roleEntry_eraseStock]
  by_cases h : r = role
  · rw [if_pos h]
    cases roleEntry w r <;> rfl
  · rw [if_neg h]

theorem orderEntry_eraseStock (role : Role) (w : Option WeekRecord) (r : Role) :
    orderEntry (eraseStock role w) r = orderEntry w r := by
  cases w with
  | none => rfl
  | some wr => rfl

theorem seriesFor_append_of_eraseStock (role : Role) (pre : History) (w1 w2 : Option WeekRecord)
    (h : eraseStock role w1 = eraseStock role w2) (r : Role) :
    seriesFor (pre ++ [w1]) r = seriesFor (pre ++ [w2]) r := by
  have hi : incomingOf (roleEntry w1 r) = incomingOf (roleEntry w2 r) := by
    rw [← incomingOf_eraseStock role w1 r, h, incomingOf_eraseStock]
  have ha : arrivingOf (roleEntry w1 r) = arrivingOf (roleEntry w2 r) := by
    rw [← arrivingOf_eraseStock role w1 r, h, arrivingOf_eraseStock]
  have ho : orderEntry w1 r = orderEntry w2 r := by
    rw [← orderEntry_eraseStock role w1 r, h, orderEntry_eraseStock]
  simp [seriesFor, hi, ha, ho]

theorem lastWeek_append_singleton (pre : History) (w : Option WeekRecord) :
    lastWeek (pre ++ [w]) = w := by
  simp [lastWeek]

/-! ## The lead-time search -/

theorem card_window (n L : ℕ) : (window n L).card = n - max L (n - 12) := by
  simp [window]

/-! ## The rounding -/

theorem rne_intCast (n : ℤ) : rne (n : ℚ) = n := by
  simp [rne]

theorem floor_le_rne (x : ℚ) : ⌊x⌋ ≤ rne x := by
  unfold rne
  split_ifs <;> omega

theorem rne_le_floor_add_one (x : ℚ) : rne x ≤ ⌊x⌋ + 1 := by
  unfold rne
  split_ifs <;> omega

theorem rne_mono {x y : ℚ} (h : x ≤ y) : rne x ≤ rne y := by
  have hf : ⌊x⌋ ≤ ⌊y⌋ := Int.floor_mono h
  rcases lt_or_eq_of_le hf with hlt | heq
  · have h1 := rne_le_floor_add_one x
    have h2 := floor_le_rne y
    omega
  · unfold rne
    rw [heq]
    have hxy : x - (⌊y⌋ : ℚ) ≤ y - (⌊y⌋ : ℚ) := by linarith
    split_ifs <;> first | omega | (exfalso; linarith)

theorem two_zpow_pos (e : ℤ) : (0 : ℚ) < (2 : ℚ) ^ e := zpow_pos (by norm_num) e

theorem rndQ_zero : rndQ 0 = 0 := by
  simp [rndQ, rne]

/-- With `E = expo q + 52`: `|q| < 2^(E+1)`. -/
theorem abs_lt_top (q : ℚ) : |q| < (2 : ℚ) ^ (expo q + 53) := by
  have h := Int.lt_zpow_succ_log_self (R := ℚ) (b := 2) (by norm_num) |q|
  have hle : Int.log 2 |q| + 1 ≤ expo q + 53 := by
    unfold expo
    have := le_max_left (Int.log 2 |q|) (-1022)
    omega
  have h2 : ((2 : ℕ) : ℚ) ^ (Int.log 2 |q| + 1) ≤ (2 : ℚ) ^ (expo q + 53) := by
    rw [Nat.cast_ofNat]
    exact zpow_le_zpow_right₀ (by norm_num) hle
  exact lt_of_lt_of_le h h2

/-- For a normal `q` (`-1022 ≤ log |q|`): `2^E ≤ |q|`. -/
theorem bot_le_abs (q : ℚ) (hq : q ≠ 0) (hn : -1022 ≤ Int.log 2 |q|) :
    (2 : ℚ) ^ (expo q + 52) ≤ |q| := by
  have h := Int.zpow_log_le_self (R := ℚ) (b := 2) (by norm_num) (abs_pos.mpr hq)
  have he : expo q + 52 = Int.log 2 |q| := by
    unfold expo
    rw [max_eq_left hn]
    omega
  rw [he]
  rw [Nat.cast_ofNat] at h
  exact h

theorem zpow_split (e : ℤ) (k : ℤ) : (2 : ℚ) ^ (e + k) = (2 : ℚ) ^ k * (2 : ℚ) ^ e := by
  rw [zpow_add₀ (by norm_num : (2 : ℚ) ≠ 0)]
  ring

/-- The scaled value lies strictly between `-2^53` and `2^53`. -/
theorem abs_scaled_lt (q : ℚ) : |q / (2 : ℚ) ^ expo q| < (2 : ℚ) ^ (53 : ℤ) := by
  have h := abs_lt_top q
  rw [zpow_split] at h
  rw [abs_div, abs_of_pos (two_zpow_pos _), div_lt_iff₀ (two_zpow_pos _)]
  exact h

theorem le_abs_scaled (q : ℚ) (hq : q ≠ 0) (hn : -1022 ≤ Int.log 2 |q|) :
    (2 : ℚ) ^ (52 : ℤ) ≤ |q / (2 : ℚ) ^ expo q| := by
  have h := bot_le_abs q hq hn
  rw [zpow_split] at h
  rw [abs_div, abs_of_pos (two_zpow_pos _), le_div_iff₀ (two_zpow_pos _)]
  exact h

theorem rne_le_of_le_int {x : ℚ} {n : ℤ} (h : x ≤ (n : ℚ)) : rne x ≤ n := by
  have := rne_mono h
  rwa [rne_intCast] at this

theorem int_le_rne {x : ℚ} {n : ℤ} (h : (n : ℚ) ≤ x) : n ≤ rne x := by
  have := rne_mono h
  rwa [rne_intCast] at this

theorem rndQ_nonneg {q : ℚ} (hq : 0 ≤ q) : 0 ≤ rndQ q := by
  unfold rndQ
  have hx : ((0 : ℤ) : ℚ) ≤ q / (2 : ℚ) ^ expo q := by
    rw [Int.cast_zero]
    exact div_nonneg hq (le_of_lt (two_zpow_pos _))
  have h0 : (0 : ℤ) ≤ rne (q / (2 : ℚ) ^ expo q) := int_le_rne hx
  exact mul_nonneg (by exact_mod_cast h0) (le_of_lt (two_zpow_pos _))

theorem rndQ_nonpos {q : ℚ} (hq : q ≤ 0) : rndQ q ≤ 0 := by
  unfold rndQ
  have hx : q / (2 : ℚ) ^ expo q ≤ ((0 : ℤ) : ℚ) := by
    rw [Int.cast_zero]
    exact div_nonpos_of_nonpos_of_nonneg hq (le_of_lt (two_zpow_pos _))
  have h0 : rne (q / (2 : ℚ) ^ expo q) ≤ (0 : ℤ) := rne_le_of_le_int hx
  exact mul_nonpos_of_nonpos_of_nonneg (by exact_mod_cast h0) (le_of_lt (two_zpow_pos _))

theorem rndQ_le_top (q : ℚ) : rndQ q ≤ (2 : ℚ) ^ (expo q + 53) := by
  have h := abs_scaled_lt q
  have hx : q / (2 : ℚ) ^ expo q ≤ (((2 : ℤ) ^ (53 : ℕ) : ℤ) : ℚ) := by
    have h1 := le_abs_self (q / (2 : ℚ) ^ expo q)
    have h2 : (2 : ℚ) ^ (53 : ℤ) = (((2 : ℤ) ^ (53 : ℕ) : ℤ) : ℚ) := by norm_num
    rw [← h2]
    linarith
  have hr : rne (q / (2 : ℚ) ^ expo q) ≤ (2 : ℤ) ^ (53 : ℕ) := rne_le_of_le_int hx
  have hrq : (rne (q / (2 : ℚ) ^ expo q) : ℚ) ≤ (2 : ℚ) ^ (53 : ℤ) := by
    have : (rne (q / (2 : ℚ) ^ expo q) : ℚ) ≤ (((2 : ℤ) ^ (53 : ℕ) : ℤ) : ℚ) := by
      exact_mod_cast hr
    have h2 : (2 : ℚ) ^ (53 : ℤ) = (((2 : ℤ) ^ (53 : ℕ) : ℤ) : ℚ) := by norm_num
    rw [h2]
    exact this
  unfold rndQ
  rw [zpow_split]
  exact mul_le_mul_of_nonneg_right hrq (le_of_lt (two_zpow_pos _))

theorem neg_top_le_rndQ (q : ℚ) : -(2 : ℚ) ^ (expo q + 53) ≤ rndQ q := by
  have h := abs_scaled_lt q
  have h2 : (2 : ℚ) ^ (53 : ℤ) = (((2 : ℤ) ^ (53 : ℕ) : ℤ) : ℚ) := by norm_num
  have hx : ((-(2 : ℤ) ^ (53 : ℕ) : ℤ) : ℚ) ≤ q / (2 : ℚ) ^ expo q := by
    have h1 := neg_abs_le (q / (2 : ℚ) ^ expo q)
    push_cast
    rw [h2] at h
    push_cast at h
    linarith
  have hr : -(2 : ℤ) ^ (53 : ℕ) ≤ rne (q / (2 : ℚ) ^ expo q) := int_le_rne hx
  have hrq : -(2 : ℚ) ^ (53 : ℤ) ≤ (rne (q / (2 : ℚ) ^ expo q) : ℚ) := by
    have : ((-(2 : ℤ) ^ (53 : ℕ) : ℤ) : ℚ) ≤ (rne (q / (2 : ℚ) ^ expo q) : ℚ) := by
      exact_mod_cast hr
    rw [h2]
    push_cast at this ⊢
    exact this
  unfold rndQ
  rw [zpow_split, ← neg_mul]
  exact mul_le_mul_of_nonneg_right hrq (le_of_lt (two_zpow_pos _))

theorem bot_le_rndQ {q : ℚ} (hq : 0 < q) (hn : -1022 ≤ Int.log 2 |q|) :
    (2 : ℚ) ^ (expo q + 52) ≤ rndQ q := by
  have h := le_abs_scaled q (ne_of_gt hq) hn
  have h2 : (2 : ℚ) ^ (52 : ℤ) = (((2 : ℤ) ^ (52 : ℕ) : ℤ) : ℚ) := by norm_num
  have hpos : 0 < q / (2 : ℚ) ^ expo q := div_pos hq (two_zpow_pos _)
  rw [abs_of_pos hpos, h2] at h
  have hr : (2 : ℤ) ^ (52 : ℕ) ≤ rne (q / (2 : ℚ) ^ expo q) := int_le_rne h
  have hrq : (2 : ℚ) ^ (52 : ℤ) ≤ (rne (q / (2 : ℚ) ^ expo q) : ℚ) := by
    rw [h2]
    exact_mod_cast hr
  unfold rndQ
  rw [zpow_split]
  exact mul_le_mul_of_nonneg_right hrq (le_of_lt (two_zpow_pos _))

theorem rndQ_le_neg_bot {q : ℚ} (hq : q < 0) (hn : -1022 ≤ Int.log 2 |q|) :
    rndQ q ≤ -(2 : ℚ) ^ (expo q + 52) := by
  have h := le_abs_scaled q (ne_of_lt hq) hn
  have h2 : (2 : ℚ) ^ (52 : ℤ) = (((2 : ℤ) ^ (52 : ℕ) : ℤ) : ℚ) := by norm_num
  have hneg : q / (2 : ℚ) ^ expo q < 0 := div_neg_of_neg_of_pos hq (two_zpow_pos _)
  rw [abs_of_neg hneg, h2] at h
  have hx : q / (2 : ℚ) ^ expo q ≤ ((-(2 : ℤ) ^ (52 : ℕ) : ℤ) : ℚ) := by
    push_cast
    push_cast at h
    linarith
  have hr : rne (q / (2 : ℚ) ^ expo q) ≤ -(2 : ℤ) ^ (52 : ℕ) := rne_le_of_le_int hx
  have hrq : (rne (q / (2 : ℚ) ^ expo q) : ℚ) ≤ -(2 : ℚ) ^ (52 : ℤ) := by
    have : (rne (q / (2 : ℚ) ^ expo q) : ℚ) ≤ ((-(2 : ℤ) ^ (52 : ℕ) : ℤ) : ℚ) := by
      exact_mod_cast hr
    rw [h2]
    push_cast at this ⊢
    exact this
  unfold rndQ
  rw [zpow_split, ← neg_mul]
  exact mul_le_mul_of_nonneg_right hrq (le_of_lt (two_zpow_pos _))

theorem expo_mono_abs {q q' : ℚ} (hq : q ≠ 0) (h : |q| ≤ |q'|) : expo q ≤ expo q' := by
  have hl := Int.log_mono_right (b := 2) (abs_pos.mpr hq) h
  unfold expo
  have := max_le_max hl (le_refl (-1022 : ℤ))
  omega

theorem normal_of_expo_lt {q q' : ℚ} (h : expo q < expo q') : -1022 ≤ Int.log 2 |q'| := by
  unfold expo at h
  have h1 := le_max_right (Int.log 2 |q|) (-1022)
  by_contra hcon
  rw [max_eq_right (by omega : Int.log 2 |q'| ≤ -1022)] at h
  omega

theorem rndQ_mono {q q' : ℚ} (h : q ≤ q') : rndQ q ≤ rndQ q' := by
  rcases lt_trichotomy q 0 with hq | hq | hq
  · rcases lt_or_le q' 0 with hq' | hq'
    · -- both negative
      have habs : |q'| ≤ |q| := by
        rw [abs_of_neg hq, abs_of_neg hq']
        linarith
      have he := expo_mono_abs (ne_of_lt hq') habs
      rcases lt_or_eq_of_le he with hlt | heq
      · have hn := normal_of_expo_lt hlt
        have h1 := rndQ_le_neg_bot hq hn
        have h2 := neg_top_le_rndQ q'
        have h3 : (2 : ℚ) ^ (expo q' + 53) ≤ (2 : ℚ) ^ (expo q + 52) :=
          zpow_le_zpow_right₀ (by norm_num) (by omega)
        linarith
      · unfold rndQ
        rw [heq]
        have hx : q / (2 : ℚ) ^ expo q ≤ q' / (2 : ℚ) ^ expo q :=
          div_le_div_of_nonneg_right h (le_of_lt (two_zpow_pos _))
        have := rne_mono hx
        exact mul_le_mul_of_nonneg_right (by exact_mod_cast this) (le_of_lt (two_zpow_pos _))
    · exact le_trans (rndQ_nonpos (le_of_lt hq)) (rndQ_nonneg hq')
  · rw [hq, rndQ_zero]
    exact rndQ_nonneg (by linarith)
  · have hq' : 0 < q' := lt_of_lt_of_le hq h
    have habs : |q| ≤ |q'| := by
      rw [abs_of_pos hq, abs_of_pos hq']
      exact h
    have he := expo_mono_abs (ne_of_gt hq) habs
    rcases lt_or_eq_of_le he with hlt | heq
    · have hn := normal_of_expo_lt hlt
      have h1 := rndQ_le_top q
      have h2 := bot_le_rndQ hq' hn
      have h3 : (2 : ℚ) ^ (expo q + 53) ≤ (2 : ℚ) ^ (expo q' + 52) :=
        zpow_le_zpow_right₀ (by norm_num) (by omega)
      linarith
    · unfold rndQ
      rw [heq]
      have hx : q / (2 : ℚ) ^ expo q' ≤ q' / (2 : ℚ) ^ expo q' :=
        div_le_div_of_nonneg_right h (le_of_lt (two_zpow_pos _))
      have := rne_mono hx
      exact mul_le_mul_of_nonneg_right (by exact_mod_cast this) (le_of_lt (two_zpow_pos _))

theorem log_lt_of_abs_lt {q : ℚ} (hq : q ≠ 0) {x : ℤ} (h : |q| < (2 : ℚ) ^ x) :
    Int.log 2 |q| < x := by
  have := (Int.lt_zpow_iff_log_lt (R := ℚ) (b := 2) (by norm_num) (abs_pos.mpr hq) (x := x)).mp
    (by rw [Nat.cast_ofNat]; exact h)
  exact this

theorem le_log_of_le_abs {q : ℚ} (hq : q ≠ 0) {x : ℤ} (h : (2 : ℚ) ^ x ≤ |q|) :
    x ≤ Int.log 2 |q| := by
  have := (Int.zpow_le_iff_le_log (R := ℚ) (b := 2) (by norm_num) (abs_pos.mpr hq) (x := x)).mp
    (by rw [Nat.cast_ofNat]; exact h)
  exact this

/-- A multiple `m * 2^e` of a power of two with `|m| < 2^53` and `-1074 ≤ e` is a fixed
point of the rounding. -/
theorem rndQ_repr (m e : ℤ) (hm : |m| < (2 : ℤ) ^ (53 : ℕ)) (he : -1074 ≤ e) :
    rndQ ((m : ℚ) * (2 : ℚ) ^ e) = (m : ℚ) * (2 : ℚ) ^ e := by
  by_cases hm0 : m = 0
  · rw [hm0]
    simp [rndQ_zero]
  · have hq : (m : ℚ) * (2 : ℚ) ^ e ≠ 0 :=
      mul_ne_zero (by exact_mod_cast hm0) (ne_of_gt (two_zpow_pos e))
    have habs : |(m : ℚ) * (2 : ℚ) ^ e| < (2 : ℚ) ^ (e + 53) := by
      rw [abs_mul, abs_of_pos (two_zpow_pos e), zpow_split]
      have hmq : |(m : ℚ)| < (2 : ℚ) ^ (53 : ℤ) := by
        have h2 : (2 : ℚ) ^ (53 : ℤ) = (((2 : ℤ) ^ (53 : ℕ) : ℤ) : ℚ) := by norm_num
        rw [h2, ← Int.cast_abs]
        exact_mod_cast hm
      exact mul_lt_mul_of_pos_right hmq (two_zpow_pos e)
    have hlog := log_lt_of_abs_lt hq habs
    have hex : expo ((m : ℚ) * (2 : ℚ) ^ e) ≤ e := by
      unfold expo
      have := max_le (show Int.log 2 |(m : ℚ) * (2 : ℚ) ^ e| ≤ e + 52 by omega)
        (show (-1022 : ℤ) ≤ e + 52 by omega)
      omega
    unfold rndQ
    generalize expo ((m : ℚ) * (2 : ℚ) ^ e) = ex at hex ⊢
    obtain ⟨k, hk⟩ := Int.eq_ofNat_of_zero_le (sub_nonneg.mpr hex)
    have hek : e = ex + (k : ℤ) := by omega
    subst hek
    have hsc : (m : ℚ) * (2 : ℚ) ^ (ex + (k : ℤ)) / (2 : ℚ) ^ ex =
        ((m * (2 : ℤ) ^ k : ℤ) : ℚ) := by
      rw [div_eq_iff (ne_of_gt (two_zpow_pos _)), zpow_split, zpow_natCast]
      push_cast
      ring
    rw [hsc, rne_intCast, zpow_split, zpow_natCast]
    push_cast
    ring

theorem rne_of_near {x : ℚ} {n : ℤ} (h : |x - (n : ℚ)| < 1 / 2) : rne x = n := by
  rw [abs_lt] at h
  obtain ⟨h1, h2⟩ := h
  rcases le_or_lt (n : ℚ) x with hx | hx
  · have hf : ⌊x⌋ = n := by
      rw [Int.floor_eq_iff]
      constructor
      · exact hx
      · linarith
    unfold rne
    rw [hf, if_pos (by linarith)]
  · have hf : ⌊x⌋ = n - 1 := by
      rw [Int.floor_eq_iff]
      push_cast
      constructor <;> linarith
    unfold rne
    rw [hf]
    push_cast
    rw [if_neg (by linarith), if_pos (by linarith)]
    omega

theorem rnd_ne_nan (q : ℚ) : rnd q ≠ F64.nan := by
  unfold rnd
  split_ifs <;> simp

theorem rnd_mono {q q' : ℚ} (h : q ≤ q') : fle (rnd q) (rnd q') := by
  have hm := rndQ_mono h
  unfold rnd
  have hb : (0 : ℚ) < big := by unfold big; positivity
  by_cases h1 : big ≤ rndQ q
  · have h1' : big ≤ rndQ q' := le_trans h1 hm
    rw [if_pos h1, if_pos h1']
    exact True.intro
  · rw [if_neg h1]
    by_cases h2 : rndQ q ≤ -big
    · rw [if_pos h2]
      by_cases h3 : big ≤ rndQ q'
      · rw [if_pos h3]
        exact True.intro
      · rw [if_neg h3]
        by_cases h4 : rndQ q' ≤ -big
        · rw [if_pos h4]
          exact True.intro
        · rw [if_neg h4]
          exact True.intro
    · rw [if_neg h2]
      by_cases h3 : big ≤ rndQ q'
      · rw [if_pos h3]
        exact True.intro
      · rw [if_neg h3]
        have h4 : ¬ rndQ q' ≤ -big := by
          intro h4
          exact h2 (le_trans hm h4)
        rw [if_neg h4]
        exact hm

theorem rnd_repr (m e : ℤ) (hm : |m| < (2 : ℤ) ^ (53 : ℕ)) (he : -1074 ≤ e)
    (hlt : |(m : ℚ) * (2 : ℚ) ^ e| < big) :
    rnd ((m : ℚ) * (2 : ℚ) ^ e) = F64.fin ((m : ℚ) * (2 : ℚ) ^ e) := by
  unfold rnd
  rw [rndQ_repr m e hm he]
  rw [abs_lt] at hlt
  rw [if_neg (by linarith), if_neg (by linarith)]

theorem rnd_int (n : ℤ) (hn : |n| < (2 : ℤ) ^ (53 : ℕ)) : rnd (n : ℚ) = F64.fin (n : ℚ) := by
  have h := rnd_repr n 0 hn (by norm_num) (by
    rw [zpow_zero, mul_one, ← Int.cast_abs]
    have : ((|n| : ℤ) : ℚ) < (((2 : ℤ) ^ (53 : ℕ) : ℤ) : ℚ) := by exact_mod_cast hn
    refine lt_trans this ?_
    unfold big
    norm_num)
  simpa using h

theorem rnd_zero : rnd 0 = F64.fin 0 := by
  have := rnd_int 0 (by norm_num)
  simpa using this

theorem rnd_nonneg {q : ℚ} (hq : 0 ≤ q) : rnd q = F64.pinf ∨ ∃ r, 0 ≤ r ∧ rnd q = F64.fin r := by
  have h := rndQ_nonneg hq
  unfold rnd
  split_ifs with h1 h2
  · left; rfl
  · exfalso
    have : (0 : ℚ) < big := by unfold big; positivity
    linarith
  · right
    exact ⟨_, h, rfl⟩

/-! ## Binary64 operations on finite arguments -/

theorem fadd_fin (a b : ℚ) : fadd (F64.fin a) (F64.fin b) = rnd (a + b) := rfl

theorem fsub_fin (a b : ℚ) : fsub (F64.fin a) (F64.fin b) = rnd (a - b) := rfl

theorem fmul_fin (a b : ℚ) : fmul (F64.fin a) (F64.fin b) = rnd (a * b) := rfl

theorem fdivCnt_fin (a : ℚ) (c : ℕ) : fdivCnt (F64.fin a) c = rnd (a / (c : ℚ)) := rfl

/-! ## Signs and comparisons in binary64 -/

theorem nonNegF_ne_nan {x : F64} (h : NonNegF x) : x ≠ F64.nan := by
  rcases h with h | ⟨r, _, h⟩ <;> rw [h] <;> simp

theorem nonNegF_rnd {q : ℚ} (hq : 0 ≤ q) : NonNegF (rnd q) := by
  rcases rnd_nonneg hq with h | ⟨r, hr, h⟩
  · exact Or.inl h
  · exact Or.inr ⟨r, hr, h⟩

theorem nonNegF_zero : NonNegF (F64.fin 0) := Or.inr ⟨0, le_refl 0, rfl⟩

theorem nonNegF_fadd {x y : F64} (hx : NonNegF x) (hy : NonNegF y) : NonNegF (fadd x y) := by
  rcases hx with hx | ⟨a, ha, hx⟩ <;> rcases hy with hy | ⟨b, hb, hy⟩ <;> rw [hx, hy]
  · exact Or.inl rfl
  · exact Or.inl rfl
  · exact Or.inl rfl
  · exact nonNegF_rnd (add_nonneg ha hb)

theorem nonNegF_fmul_self (e : F64) (he : e ≠ F64.nan) : NonNegF (fmul e e) := by
  cases e with
  | fin a => exact nonNegF_rnd (mul_self_nonneg a)
  | pinf => exact Or.inl rfl
  | ninf => exact Or.inl rfl
  | nan => exact absurd rfl he

theorem nonNegF_fdivCnt {x : F64} (hx : NonNegF x) (c : ℕ) : NonNegF (fdivCnt x c) := by
  rcases hx with hx | ⟨a, ha, hx⟩ <;> rw [hx]
  · exact Or.inl rfl
  · exact nonNegF_rnd (div_nonneg ha (Nat.cast_nonneg c))

theorem fsub_fin_ne_nan (a b : ℚ) : fsub (F64.fin a) (F64.fin b) ≠ F64.nan := rnd_ne_nan _

theorem flt_irrefl (x : F64) : flt x x = false := by
  cases x <;> simp [flt]

theorem flt_pinf_left (x : F64) : flt F64.pinf x = false := by
  cases x <;> simp [flt]

theorem flt_trans {x y z : F64} (h1 : flt x y = true) (h2 : flt y z = true) :
    flt x z = true := by
  cases x <;> cases y <;> cases z <;> simp [flt] at h1 h2 ⊢
  exact lt_trans h1 h2

theorem flt_of_flt_of_not_flt {k b l : F64} (h1 : flt k b = true) (h2 : flt l b = false)
    (hl : l ≠ F64.nan) : flt k l = true := by
  cases k <;> cases b <;> cases l <;> simp [flt] at h1 h2 hl ⊢
  exact lt_of_lt_of_le h1 h2

theorem flt_pinf_right {x : F64} (hx : x ≠ F64.nan) :
    flt x F64.pinf = true ↔ x ≠ F64.pinf := by
  cases x <;> simp [flt] at hx ⊢

/-! ## The lead-time search in binary64 -/

theorem foldl_lagStepF_cnt (a o : List ℚ) (L : ℕ) (l : List ℕ) (acc : ErrCntF) :
    (l.foldl (lagStepF a o L) acc).cnt =
      acc.cnt + (l.filter (fun t => decide (L ≤ t))).length := by
  induction l generalizing acc with
  | nil => simp
  | cons t l ih =>
    rw [List.foldl_cons, ih]
    by_cases h : t < L
    · have h2 : ¬ L ≤ t := not_le.mpr h
      simp [lagStepF, h, h2]
    · have h2 : L ≤ t := not_lt.mp h
      simp [lagStepF, h, h2]
      omega

theorem foldl_lagStepF_nonNeg (a o : List ℚ) (L : ℕ) (l : List ℕ) (acc : ErrCntF)
    (hacc : NonNegF acc.err) : NonNegF (l.foldl (lagStepF a o L) acc).err := by
  induction l generalizing acc with
  | nil => exact hacc
  | cons t l ih =>
    rw [List.foldl_cons]
    apply ih
    by_cases h : t < L
    · simp only [lagStepF, if_pos h]
      exact hacc
    · simp only [lagStepF, if_neg h]
      exact nonNegF_fadd hacc (nonNegF_fmul_self _ (fsub_fin_ne_nan _ _))

theorem foldl_lagStepF_fit (a o : List ℚ) (L : ℕ) (l : List ℕ) (acc : ErrCntF)
    (hacc : acc.err = F64.fin 0)
    (hfit : ∀ t ∈ l, L ≤ t → a.getD t 0 = o.getD (t - L) 0) :
    (l.foldl (lagStepF a o L) acc).err = F64.fin 0 := by
  induction l generalizing acc with
  | nil => exact hacc
  | cons t l ih =>
    rw [List.foldl_cons]
    apply ih
    · by_cases h : t < L
      · simp only [lagStepF, if_pos h]
        exact hacc
      · simp only [lagStepF, if_neg h]
        rw [hacc, hfit t (List.mem_cons_self t l) (not_lt.mp h)]
        simp only [fsub_fin, sub_self, rnd_zero, fmul_fin, mul_zero, fadd_fin, add_zero]
    · intro t' ht'
      exact hfit t' (List.mem_cons_of_mem t ht')

theorem lagLoopF_cnt (a o : List ℚ) (n L : ℕ) : (lagLoopF a o n L).cnt = (window n L).card := by
  have hnd : ((List.range' (n - 12) (n - (n - 12))).filter (fun t => decide (L ≤ t))).Nodup :=
    (List.nodup_range' (n - 12) (n - (n - 12))).filter _
  have hfs : ((List.range' (n - 12) (n - (n - 12))).filter
      (fun t => decide (L ≤ t))).toFinset = window n L := by
    ext t
    simp only [window, List.mem_toFinset, List.mem_filter, List.mem_range'_1, decide_eq_true_eq,
      Finset.mem_Ico]
    omega
  unfold lagLoopF
  simp only [foldl_lagStepF_cnt, zero_add]
  rw [← hfs, List.toFinset_card_of_nodup hnd]

theorem mseF_nonNeg (a o : List ℚ) (n L : ℕ) : NonNegF (mseF a o n L) := by
  unfold mseF
  apply nonNegF_fdivCnt
  unfold lagLoopF
  exact foldl_lagStepF_nonNeg a o L _ _ nonNegF_zero

theorem mseF_fit (a o : List ℚ) (n L : ℕ)
    (hfit : ∀ t ∈ window n L, a.getD t 0 = o.getD (t - L) 0) :
    mseF a o n L = F64.fin 0 := by
  have herr : (lagLoopF a o n L).err = F64.fin 0 := by
    unfold lagLoopF
    apply foldl_lagStepF_fit a o L _ _ rfl
    intro t ht hLt
    apply hfit
    simp only [List.mem_range'_1] at ht
    simp only [window, Finset.mem_Ico]
    omega
  unfold mseF
  rw [herr]
  simp only [fdivCnt_fin, zero_div, rnd_zero]

theorem candStepF_eq (a o : List ℚ) (n : ℕ) (b : BestF) (L : ℕ) :
    candStepF a o n b L =
      if 0 < (window n L).card then
        if flt (mseF a o n L) b.bestErr = true then
          { bestL := L, bestErr := mseF a o n L }
        else b
      else b := by
  simp only [candStepF, mseF, lagLoopF_cnt]

theorem bestInvF_step (a o : List ℚ) (n k : ℕ) (b : BestF) (hk : 1 ≤ k)
    (h : BestInvF a o n k b) : BestInvF a o n (k + 1) (candStepF a o n b k) := by
  rw [candStepF_eq]
  have hnan : ∀ L, mseF a o n L ≠ F64.nan := fun L => nonNegF_ne_nan (mseF_nonNeg a o n L)
  by_cases hv : 0 < (window n k).card
  · rw [if_pos hv]
    by_cases hlt : flt (mseF a o n k) b.bestErr = true
    · rw [if_pos hlt]
      right
      rcases h with ⟨_, htop, hall⟩ | ⟨_, _, _, hbe, _, hmin, _⟩
      · rw [htop] at hlt
        have hne : mseF a o n k ≠ F64.pinf := (flt_pinf_right (hnan k)).mp hlt
        refine ⟨hk, Nat.lt_succ_self k, hv, rfl, hne, ?_, ?_⟩
        · intro L hL1 hLk hLv
          rcases Nat.lt_succ_iff_lt_or_eq.mp hLk with hlt2 | heq
          · rw [hall L hL1 hlt2 hLv]
            exact flt_pinf_left _
          · rw [heq]
            exact flt_irrefl _
        · intro L hL1 hLk hLv
          rw [hall L hL1 hLk hLv]
          exact (flt_pinf_right (hnan k)).mpr hne
      · have hne : mseF a o n k ≠ F64.pinf := by
          intro hcon
          rw [hcon, flt_pinf_left] at hlt
          exact absurd hlt (by simp)
        refine ⟨hk, Nat.lt_succ_self k, hv, rfl, hne, ?_, ?_⟩
        · intro L hL1 hLk hLv
          rcases Nat.lt_succ_iff_lt_or_eq.mp hLk with hlt2 | heq
          · by_contra hcon
            have hcon' : flt (mseF a o n L) (mseF a o n k) = true := by
              cases hx : flt (mseF a o n L) (mseF a o n k)
              · exact absurd hx hcon
              · rfl
            have := flt_trans hcon' hlt
            rw [hmin L hL1 hlt2 hLv] at this
            exact absurd this (by simp)
          · rw [heq]
            exact flt_irrefl _
        · intro L hL1 hLk hLv
          exact flt_of_flt_of_not_flt hlt (hmin L hL1 hLk hLv) (hnan L)
    · rw [if_neg hlt]
      have hlt' : flt (mseF a o n k) b.bestErr = false := by
        cases hx : flt (mseF a o n k) b.bestErr
        · rfl
        · exact absurd hx hlt
      rcases h with ⟨h2, htop, hall⟩ | ⟨hb1, hbk, hbv, hbe, hbne, hmin, hfirst⟩
      · left
        refine ⟨h2, htop, ?_⟩
        intro L hL1 hLk hLv
        rcases Nat.lt_succ_iff_lt_or_eq.mp hLk with hlt2 | heq
        · exact hall L hL1 hlt2 hLv
        · rw [heq]
          rw [htop] at hlt
          by_contra hcon
          exact hlt ((flt_pinf_right (hnan k)).mpr hcon)
      · right
        refine ⟨hb1, Nat.lt_succ_of_lt hbk, hbv, hbe, hbne, ?_, hfirst⟩
        intro L hL1 hLk hLv
        rcases Nat.lt_succ_iff_lt_or_eq.mp hLk with hlt2 | heq
        · exact hmin L hL1 hlt2 hLv
        · rw [heq]
          exact hlt'
  · rw [if_neg hv]
    rcases h with ⟨h2, htop, hall⟩ | ⟨hb1, hbk, hbv, hbe, hbne, hmin, hfirst⟩
    · left
      refine ⟨h2, htop, ?_⟩
      intro L hL1 hLk hLv
      rcases Nat.lt_succ_iff_lt_or_eq.mp hLk with hlt2 | heq
      · exact hall L hL1 hlt2 hLv
      · rw [heq] at hLv
        exact absurd hLv hv
    · right
      refine ⟨hb1, Nat.lt_succ_of_lt hbk, hbv, hbe, hbne, ?_, hfirst⟩
      intro L hL1 hLk hLv
      rcases Nat.lt_succ_iff_lt_or_eq.mp hLk with hlt2 | heq
      · exact hmin L hL1 hlt2 hLv
      · rw [heq] at hLv
        exact absurd hLv hv

theorem bestInvF_search (a o : List ℚ) (n : ℕ) : BestInvF a o n 7 (searchF a o n) := by
  have h0 : BestInvF a o n 1 { bestL := 2, bestErr := F64.pinf } := by
    left
    refine ⟨rfl, rfl, ?_⟩
    intro L h1 h2
    omega
  unfold searchF
  simp only [List.range', List.foldl]
  exact bestInvF_step a o _ 6 _ (by decide) (bestInvF_step a o _ 5 _ (by decide)
    (bestInvF_step a o _ 4 _ (by decide) (bestInvF_step a o _ 3 _ (by decide)
    (bestInvF_step a o _ 2 _ (by decide) (bestInvF_step a o _ 1 _ (by decide) h0)))))

theorem estimateLeadTimeF_eq_search (a o : List ℚ) (hn : 6 ≤ min a.length o.length) :
    estimateLeadTimeF a o = (searchF a o (min a.length o.length)).bestL := by
  have hnot : ¬ min a.length o.length < 6 := not_lt.mpr hn
  simp only [estimateLeadTimeF, if_neg hnot]

theorem big_pos : (0 : ℚ) < big := by
  unfold big
  positivity

theorem rndQ_big : rndQ big = big := by
  have h := rndQ_repr 1 1024 (by norm_num) (by norm_num)
  have hb : big = ((1 : ℤ) : ℚ) * (2 : ℚ) ^ (1024 : ℤ) := by
    unfold big
    norm_num
  rw [hb]
  exact h

theorem rnd_pinf_of_ge {q : ℚ} (h : big ≤ q) : rnd q = F64.pinf := by
  have hm := rndQ_mono h
  rw [rndQ_big] at hm
  unfold rnd
  rw [if_pos hm]

theorem rnd_ninf_of_le {q : ℚ} (h : q ≤ -big) : rnd q = F64.ninf := by
  have hm := rndQ_mono h
  have hneg : rndQ (-big) = -big := by
    have h2 := rndQ_repr (-1) 1024 (by norm_num) (by norm_num)
    have hb : -big = ((-1 : ℤ) : ℚ) * (2 : ℚ) ^ (1024 : ℤ) := by
      unfold big
      norm_num
    rw [hb]
    exact h2
  rw [hneg] at hm
  have hb := big_pos
  unfold rnd
  rw [if_neg (by linarith), if_pos hm]

theorem foldl_lagStepF_pinf (a o : List ℚ) (L : ℕ) (l : List ℕ) (acc : ErrCntF)
    (hacc : NonNegF acc.err)
    (hsq : ∀ t ∈ l, L ≤ t →
      fmul (fsub (F64.fin (a.getD t 0)) (F64.fin (o.getD (t - L) 0)))
        (fsub (F64.fin (a.getD t 0)) (F64.fin (o.getD (t - L) 0))) = F64.pinf)
    (hsome : (∃ t ∈ l, L ≤ t) ∨ acc.err = F64.pinf) :
    (l.foldl (lagStepF a o L) acc).err = F64.pinf := by
  induction l generalizing acc with
  | nil =>
    rcases hsome with ⟨t, ht, _⟩ | h
    · exact absurd ht (List.not_mem_nil t)
    · exact h
  | cons t l ih =>
    rw [List.foldl_cons]
    by_cases h : t < L
    · have hstep : lagStepF a o L acc t = acc := by simp only [lagStepF, if_pos h]
      rw [hstep]
      apply ih acc hacc (fun t' ht' => hsq t' (List.mem_cons_of_mem t ht'))
      rcases hsome with ⟨t', ht', hLt'⟩ | hp
      · rcases List.mem_cons.mp ht' with heq | hmem
        · rw [heq] at hLt'
          omega
        · exact Or.inl ⟨t', hmem, hLt'⟩
      · exact Or.inr hp
    · have hterm := hsq t (List.mem_cons_self t l) (not_lt.mp h)
      have herr : (lagStepF a o L acc t).err = F64.pinf := by
        simp only [lagStepF, if_neg h]
        rw [hterm]
        rcases hacc with hp | ⟨r, _, hr⟩ <;> rw [‹acc.err = _›] <;> rfl
      apply ih
      · rw [herr]
        exact Or.inl rfl
      · intro t' ht'
        exact hsq t' (List.mem_cons_of_mem t ht')
      · exact Or.inr herr

theorem rnd_huge : rnd huge = F64.fin huge := by
  have h := rnd_repr 1 600 (by norm_num) (by norm_num) (by
    unfold big
    norm_num)
  have hb : huge = ((1 : ℤ) : ℚ) * (2 : ℚ) ^ (600 : ℤ) := by
    unfold huge
    norm_num
  rw [hb]
  exact h

theorem huge_sq_ge : big ≤ huge * huge := by
  unfold big huge
  norm_num

theorem hugeArrivals_getD (t : ℕ) (ht : t < 6) : hugeArrivals.getD t 0 = huge := by
  interval_cases t <;> rfl

theorem zeros6_getD (t : ℕ) : zeros6.getD t 0 = 0 := by
  by_cases ht : t < 6
  · interval_cases t <;> rfl
  · have hlen : zeros6.length ≤ t := by
      have : zeros6.length = 6 := rfl
      omega
    simp [List.getD_eq_getElem?_getD, List.getElem?_eq_none hlen]

theorem mseF_huge (L : ℕ) (hv : 0 < (window 6 L).card) :
    mseF hugeArrivals zeros6 6 L = F64.pinf := by
  have herr : (lagLoopF hugeArrivals zeros6 6 L).err = F64.pinf := by
    unfold lagLoopF
    apply foldl_lagStepF_pinf _ _ _ _ _ nonNegF_zero
    · intro t ht _
      simp only [List.mem_range'_1] at ht
      rw [hugeArrivals_getD t (by omega), zeros6_getD]
      simp only [fsub_fin, sub_zero, rnd_huge, fmul_fin]
      exact rnd_pinf_of_ge huge_sq_ge
    · left
      obtain ⟨t, ht⟩ := Finset.card_pos.mp hv
      simp only [window, Finset.mem_Ico] at ht
      refine ⟨t, ?_, ?_⟩
      · simp only [List.mem_range'_1]
        omega
      · exact le_trans (le_max_left _ _) ht.1
  unfold mseF
  rw [herr]
  simp only [fdivCnt]

theorem search_huge : (searchF hugeArrivals zeros6 6).bestL = 2 ∧
    (searchF hugeArrivals zeros6 6).bestErr = F64.pinf := by
  rcases bestInvF_search hugeArrivals zeros6 6 with ⟨h2, htop, _⟩ | ⟨_, _, hv, hbe, hne, _, _⟩
  · exact ⟨h2, htop⟩
  · rw [hbe, mseF_huge _ hv] at hne
    exact absurd rfl hne

theorem rndQ_one : rndQ 1 = 1 := by
  have h := rndQ_repr 1 0 (by norm_num) (by norm_num)
  simpa using h

theorem geOneF_rnd {q : ℚ} (hq : 1 ≤ q) : GeOneF (rnd q) := by
  have hm := rndQ_mono hq
  rw [rndQ_one] at hm
  have hb := big_pos
  unfold rnd
  split_ifs with h1 h2
  · exact Or.inl rfl
  · exfalso
    linarith
  · exact Or.inr ⟨_, hm, rfl⟩

theorem geOneF_fadd_right {x y : F64} (hx : NonNegF x) (hy : GeOneF y) : GeOneF (fadd x y) := by
  rcases hx with hx | ⟨a, ha, hx⟩ <;> rcases hy with hy | ⟨b, hb, hy⟩ <;> rw [hx, hy]
  · exact Or.inl rfl
  · exact Or.inl rfl
  · exact Or.inl rfl
  · exact geOneF_rnd (by linarith)

theorem geOneF_fadd_left {x y : F64} (hx : GeOneF x) (hy : NonNegF y) : GeOneF (fadd x y) := by
  rcases hx with hx | ⟨a, ha, hx⟩ <;> rcases hy with hy | ⟨b, hb, hy⟩ <;> rw [hx, hy]
  · exact Or.inl rfl
  · exact Or.inl rfl
  · exact Or.inl rfl
  · exact geOneF_rnd (by linarith)

/-- The square of the binary64 difference of two numbers at least 1 apart is at least 1. -/
theorem geOneF_sq_of_apart (y p : ℚ) (h : 1 ≤ |y - p|) :
    GeOneF (fmul (fsub (F64.fin y) (F64.fin p)) (fsub (F64.fin y) (F64.fin p))) := by
  rw [fsub_fin]
  rcases le_abs'.mp h with hneg | hpos
  · -- y - p ≤ -1
    have hm := rndQ_mono hneg
    have hm1 : rndQ (-1) = -1 := by
      have h2 := rndQ_repr (-1) 0 (by norm_num) (by norm_num)
      simpa using h2
    rw [hm1] at hm
    have hb := big_pos
    unfold rnd
    split_ifs with h1 h2
    · exfalso
      linarith
    · exact Or.inl rfl
    · rw [fmul_fin]
      apply geOneF_rnd
      nlinarith
  · have hm := rndQ_mono hpos
    rw [rndQ_one] at hm
    have hb := big_pos
    unfold rnd
    split_ifs with h1 h2
    · exact Or.inl rfl
    · exfalso
      linarith
    · rw [fmul_fin]
      apply geOneF_rnd
      nlinarith

theorem foldl_lagStepF_geOne (a o : List ℚ) (L : ℕ) (l : List ℕ) (acc : ErrCntF)
    (hacc : NonNegF acc.err)
    (hsome : (∃ t ∈ l, L ≤ t ∧ 1 ≤ |a.getD t 0 - o.getD (t - L) 0|) ∨ GeOneF acc.err) :
    GeOneF (l.foldl (lagStepF a o L) acc).err := by
  induction l generalizing acc with
  | nil =>
    rcases hsome with ⟨t, ht, _⟩ | h
    · exact absurd ht (List.not_mem_nil t)
    · exact h
  | cons t l ih =>
    rw [List.foldl_cons]
    by_cases h : t < L
    · have hstep : lagStepF a o L acc t = acc := by simp only [lagStepF, if_pos h]
      rw [hstep]
      apply ih acc hacc
      rcases hsome with ⟨t', ht', hLt', hap⟩ | hp
      · rcases List.mem_cons.mp ht' with heq | hmem
        · rw [heq] at hLt'
          omega
        · exact Or.inl ⟨t', hmem, hLt', hap⟩
      · exact Or.inr hp
    · have hsq := nonNegF_fmul_self (fsub (F64.fin (a.getD t 0)) (F64.fin (o.getD (t - L) 0)))
        (fsub_fin_ne_nan _ _)
      have herr : (lagStepF a o L acc t).err =
          fadd acc.err (fmul (fsub (F64.fin (a.getD t 0)) (F64.fin (o.getD (t - L) 0)))
            (fsub (F64.fin (a.getD t 0)) (F64.fin (o.getD (t - L) 0)))) := by
        simp only [lagStepF, if_neg h]
      apply ih
      · rw [herr]
        exact nonNegF_fadd hacc hsq
      · rcases hsome with ⟨t', ht', hLt', hap⟩ | hp
        · rcases List.mem_cons.mp ht' with heq | hmem
          · right
            rw [herr]
            rw [heq] at hap
            exact geOneF_fadd_right hacc (geOneF_sq_of_apart _ _ hap)
          · exact Or.inl ⟨t', hmem, hLt', hap⟩
        · right
          rw [herr]
          exact geOneF_fadd_left hp hsq

/-- When some week of the window misfits by at least 1, the computed error is not 0. -/
theorem mseF_ne_zero_of_apart (a o : List ℚ) (n L : ℕ)
    (h : ∃ t ∈ window n L, 1 ≤ |a.getD t 0 - o.getD (t - L) 0|) :
    mseF a o n L ≠ F64.fin 0 := by
  have hge : GeOneF (lagLoopF a o n L).err := by
    unfold lagLoopF
    apply foldl_lagStepF_geOne a o L _ _ nonNegF_zero
    left
    obtain ⟨t, ht, hap⟩ := h
    simp only [window, Finset.mem_Ico] at ht
    refine ⟨t, ?_, le_trans (le_max_left _ _) ht.1, hap⟩
    simp only [List.mem_range'_1]
    have := le_trans (le_max_right _ _) ht.1
    omega
  have hcnt : (lagLoopF a o n L).cnt ≤ 12 := by
    rw [lagLoopF_cnt, card_window]
    omega
  have hpos : 0 < (lagLoopF a o n L).cnt := by
    rw [lagLoopF_cnt]
    obtain ⟨t, ht, _⟩ := h
    exact Finset.card_pos.mpr ⟨t, ht⟩
  unfold mseF
  rcases hge with hp | ⟨r, hr, hfin⟩
  · rw [hp]
    simp [fdivCnt]
  · rw [hfin, fdivCnt_fin]
    have hc : ((lagLoopF a o n L).cnt : ℚ) ≤ 12 := by exact_mod_cast hcnt
    have hc0 : (0 : ℚ) < ((lagLoopF a o n L).cnt : ℚ) := by exact_mod_cast hpos
    have hq : (1 : ℚ) / 16 ≤ r / ((lagLoopF a o n L).cnt : ℚ) := by
      rw [le_div_iff₀ hc0]
      linarith
    have hm := rndQ_mono hq
    have h16 : rndQ (1 / 16) = 1 / 16 := by
      have h2 := rndQ_repr 1 (-4) (by norm_num) (by norm_num)
      norm_num at h2 ⊢
      exact h2
    rw [h16] at hm
    have hb := big_pos
    unfold rnd
    split_ifs with h1 h2
    · simp
    · simp
    · intro hcon
      have := F64.fin.inj hcon
      linarith

/-- Two distinct integers are at least 1 apart. -/
theorem one_le_abs_sub_of_int {x y : ℚ} (hx : ∃ z : ℤ, x = z) (hy : ∃ z : ℤ, y = z)
    (hne : x ≠ y) : 1 ≤ |x - y| := by
  obtain ⟨zx, hzx⟩ := hx
  obtain ⟨zy, hzy⟩ := hy
  rw [hzx, hzy] at hne ⊢
  have hz : zx - zy ≠ 0 := by
    intro h
    apply hne
    have : zx = zy := by omega
    rw [this]
  have h1 : 1 ≤ |zx - zy| := Int.one_le_abs hz
  have : ((1 : ℤ) : ℚ) ≤ ((|zx - zy| : ℤ) : ℚ) := by exact_mod_cast h1
  rw [Int.cast_abs] at this
  push_cast at this
  exact this

/-! ## Evaluating the rounding -/

theorem rne_of_tie_even {x : ℚ} {n : ℤ} (hx : x = (n : ℚ) + 1 / 2) (hn : n % 2 = 0) :
    rne x = n := by
  have hf : ⌊x⌋ = n := by
    rw [Int.floor_eq_iff, hx]
    constructor <;> linarith
  unfold rne
  rw [hf, hx]
  rw [if_neg (by linarith), if_neg (by linarith), if_pos hn]

/-- Evaluation of the rounding at a number `q` of the normal range, `2^L ≤ |q| < 2^(L+1)`,
from the rounded integer `n` of `q / 2^(L-52)`. -/
theorem rnd_eval (q r : ℚ) (L n : ℤ) (hq1 : (2 : ℚ) ^ L ≤ |q|) (hq2 : |q| < (2 : ℚ) ^ (L + 1))
    (hL : -1022 ≤ L) (hrne : rne (q / (2 : ℚ) ^ (L - 52)) = n)
    (hr : r = (n : ℚ) * (2 : ℚ) ^ (L - 52)) (hlo : -big < r) (hhi : r < big) :
    rnd q = F64.fin r := by
  have hq : q ≠ 0 := by
    intro h
    rw [h, abs_zero] at hq1
    have := two_zpow_pos L
    linarith
  have hlog : Int.log 2 |q| = L := by
    have h1 := le_log_of_le_abs hq hq1
    have h2 := log_lt_of_abs_lt hq hq2
    omega
  have hex : expo q = L - 52 := by
    unfold expo
    rw [hlog, max_eq_left hL]
  have hrq : rndQ q = r := by
    unfold rndQ
    rw [hex, hrne, hr]
  unfold rnd
  rw [hrq, if_neg (by linarith), if_neg (by linarith)]

/-- A number `m * 2^e` with `|m| < 2^53`, `-1074 ≤ e` and magnitude below `2^1024` is a
binary64 number: the rounding returns it. -/
theorem rnd_exact (q : ℚ) (m e : ℤ) (hq : q = (m : ℚ) * (2 : ℚ) ^ e)
    (hm : |m| < (2 : ℤ) ^ (53 : ℕ)) (he : -1074 ≤ e) (hlo : -big < q) (hhi : q < big) :
    rnd q = F64.fin q := by
  have h := rnd_repr m e hm he (by rw [← hq, abs_lt]; exact ⟨hlo, hhi⟩)
  rw [← hq] at h
  exact h

/-- The rounding of a number of `[0, 1]` is a finite number of `[0, 1]`. -/
theorem rnd_unit {q : ℚ} (h0 : 0 ≤ q) (h1 : q ≤ 1) : ∃ s, 0 ≤ s ∧ s ≤ 1 ∧ rnd q = F64.fin s := by
  have hm := rndQ_mono h1
  rw [rndQ_one] at hm
  have hn := rndQ_nonneg h0
  have hb : (1 : ℚ) < big := by
    unfold big
    norm_num
  refine ⟨rndQ q, hn, hm, ?_⟩
  unfold rnd
  rw [if_neg (by linarith), if_neg (by linarith)]

/-! ## The exponential statistics in binary64 -/

theorem fabs_fin (a : ℚ) : fabs (F64.fin a) = F64.fin |a| := rfl

theorem emaMadFromF_m (alpha : F64) (xs : List ℚ) (i : ℕ) (st : StatsF) :
    (emaMadFromF alpha i st xs).m = emaFromF alpha i st.m xs := by
  induction xs generalizing i st with
  | nil => rfl
  | cons x xs ih =>
    simp only [emaMadFromF, emaFromF]
    rw [ih]

theorem emaMadF_m_eq_emaF (x : List ℚ) (alpha : F64) : (emaMadF x alpha).m = emaF x alpha :=
  emaMadFromF_m alpha x 0 { m := F64.fin 0, mad := F64.fin 0 }

theorem emaMadFromF_const (alpha c : ℚ) (h0 : 0 ≤ alpha) (h1 : alpha ≤ 1)
    (hfix : fadd (fmul (F64.fin alpha) (F64.fin c))
      (fmul (fsub (F64.fin 1) (F64.fin alpha)) (F64.fin c)) = F64.fin c)
    (xs : List ℚ) (i : ℕ) (st : StatsF) (hc : ∀ v ∈ xs, v = c)
    (hst : i ≠ 0 → st.m = F64.fin c ∧ st.mad = F64.fin 0) (hne : i = 0 → xs ≠ []) :
    emaMadFromF (F64.fin alpha) i st xs = { m := F64.fin c, mad := F64.fin 0 } := by
  induction xs generalizing i st with
  | nil =>
    have hi : i ≠ 0 := fun h => hne h rfl
    obtain ⟨hm, hmad⟩ := hst hi
    cases st
    simp only [emaMadFromF]
    simp only at hm hmad
    rw [hm, hmad]
  | cons x xs ih =>
    have hx : x = c := hc x (List.mem_cons_self x xs)
    simp only [emaMadFromF]
    apply ih
    · intro v hv
      exact hc v (List.mem_cons_of_mem x hv)
    · intro _
      by_cases hi : i = 0
      · simp only [if_pos hi, hx, fsub_fin, sub_self, rnd_zero, fabs_fin, abs_zero, and_self]
      · obtain ⟨hm, hmad⟩ := hst hi
        obtain ⟨s, _, _, hs⟩ := rnd_unit (sub_nonneg.mpr h1) (by linarith : 1 - alpha ≤ 1)
        have hsub : fsub (F64.fin 1) (F64.fin alpha) = F64.fin s := by
          rw [fsub_fin]
          exact hs
        rw [hsub] at hfix
        simp only [if_neg hi, hx, hm, hmad, hsub, hfix]
        simp only [fsub_fin, sub_self, rnd_zero, fabs_fin, abs_zero, fmul_fin, mul_zero,
          fadd_fin, add_zero, and_self]
    · intro h
      exact absurd h (Nat.succ_ne_zero i)

theorem emaFromF_nonNeg (alpha : ℚ) (h0 : 0 ≤ alpha) (h1 : alpha ≤ 1 - 1 / 2 ^ (53 : ℕ))
    (xs : List ℚ) (i : ℕ) (m : F64) (hx : ∀ v ∈ xs, 0 ≤ v) (hm : NonNegF m) :
    NonNegF (emaFromF (F64.fin alpha) i m xs) := by
  have hs : ∃ s, 0 < s ∧ fsub (F64.fin 1) (F64.fin alpha) = F64.fin s := by
    have hq : (1 : ℚ) / 2 ^ (53 : ℕ) ≤ 1 - alpha := by linarith
    have hmono := rndQ_mono hq
    have h53 : rndQ (1 / 2 ^ (53 : ℕ)) = 1 / 2 ^ (53 : ℕ) := by
      have h2 := rndQ_repr 1 (-53) (by norm_num) (by norm_num)
      norm_num at h2 ⊢
      exact h2
    rw [h53] at hmono
    obtain ⟨s, _, _, hs⟩ := rnd_unit (by linarith : (0 : ℚ) ≤ 1 - alpha)
      (by linarith : 1 - alpha ≤ 1)
    refine ⟨s, ?_, by rw [fsub_fin]; exact hs⟩
    have hrs : rndQ (1 - alpha) = s := by
      unfold rnd at hs
      split_ifs at hs
      exact F64.fin.inj hs
    rw [hrs] at hmono
    have : (0 : ℚ) < 1 / 2 ^ (53 : ℕ) := by positivity
    linarith
  obtain ⟨s, hspos, hsub⟩ := hs
  induction xs generalizing i m with
  | nil => exact hm
  | cons x xs ih =>
    have hx0 : 0 ≤ x := hx x (List.mem_cons_self x xs)
    simp only [emaFromF]
    apply ih
    · intro v hv
      exact hx v (List.mem_cons_of_mem x hv)
    · by_cases hi : i = 0
      · rw [if_pos hi]
        exact Or.inr ⟨x, hx0, rfl⟩
      · rw [if_neg hi, hsub]
        apply nonNegF_fadd
        · rw [fmul_fin]
          exact nonNegF_rnd (mul_nonneg h0 hx0)
        · rcases hm with hp | ⟨r, hr, hfin⟩
          · rw [hp]
            left
            simp only [fmul, mulInf, ne_of_gt hspos, if_false, hspos, decide_True, if_true]
          · rw [hfin, fmul_fin]
            exact nonNegF_rnd (mul_nonneg (le_of_lt hspos) hr)

/-- One update of the mean at the constant `0.1` with alpha `0.3` in binary64:
`0.3*0.1 + (1 - 0.3)*0.1` is `0.09999999999999999`. -/
theorem tenth_update :
    fadd (fmul (F64.fin threeTenths) (F64.fin tenth))
      (fmul (fsub (F64.fin 1) (F64.fin threeTenths)) (F64.fin tenth)) =
    F64.fin (7205759403792793 / 72057594037927936) := by
  have hb : big = (2 : ℚ) ^ (1024 : ℕ) := by unfold big; rfl
  have hp1 : rnd (threeTenths * tenth) = F64.fin (1080863910568919 / 36028797018963968) := by
    apply rnd_eval _ _ (-6) 8646911284551352
    · rw [abs_of_pos (by unfold threeTenths tenth; norm_num)]
      unfold threeTenths tenth
      norm_num
    · rw [abs_of_pos (by unfold threeTenths tenth; norm_num)]
      unfold threeTenths tenth
      norm_num
    · norm_num
    · apply rne_of_near
      unfold threeTenths tenth
      rw [abs_lt]
      constructor <;> norm_num
    · norm_num
    · rw [hb]
      norm_num
    · rw [hb]
      norm_num
  have hs : rnd (1 - threeTenths) = F64.fin (3152519739159347 / 4503599627370496) := by
    apply rnd_eval _ _ (-1) 6305039478318694
    · rw [abs_of_pos (by unfold threeTenths; norm_num)]
      unfold threeTenths
      norm_num
    · rw [abs_of_pos (by unfold threeTenths; norm_num)]
      unfold threeTenths
      norm_num
    · norm_num
    · apply rne_of_tie_even
      · unfold threeTenths
        norm_num
      · norm_num
    · norm_num
    · rw [hb]
      norm_num
    · rw [hb]
      norm_num
  have hp2 : rnd (3152519739159347 / 4503599627370496 * tenth) =
      F64.fin (5044031582654955 / 72057594037927936) := by
    apply rnd_eval _ _ (-4) 5044031582654955
    · rw [abs_of_pos (by unfold tenth; norm_num)]
      unfold tenth
      norm_num
    · rw [abs_of_pos (by unfold tenth; norm_num)]
      unfold tenth
      norm_num
    · norm_num
    · apply rne_of_near
      unfold tenth
      rw [abs_lt]
      constructor <;> norm_num
    · norm_num
    · rw [hb]
      norm_num
    · rw [hb]
      norm_num
  have hm : rnd (1080863910568919 / 36028797018963968 + 5044031582654955 / 72057594037927936) =
      F64.fin (7205759403792793 / 72057594037927936) := by
    have h := rnd_exact (7205759403792793 / 72057594037927936) 7205759403792793 (-56)
      (by norm_num) (by norm_num) (by norm_num) (by rw [hb]; norm_num) (by rw [hb]; norm_num)
    have hsum : (1080863910568919 / 36028797018963968 + 5044031582654955 / 72057594037927936 : ℚ)
        = 7205759403792793 / 72057594037927936 := by norm_num
    rw [hsum]
    exact h
  rw [fmul_fin, hp1, fsub_fin, hs, fmul_fin, hp2, fadd_fin, hm]

/-! ## Order of binary64 values -/

theorem rnd_eq_fin {q r : ℚ} (h : rnd q = F64.fin r) : r = rndQ q ∧ -big < r ∧ r < big := by
  unfold rnd at h
  split_ifs at h with h1 h2
  have := F64.fin.inj h
  rw [← this]
  exact ⟨rfl, by linarith, by linarith⟩

theorem rnd_cases (q : ℚ) : rnd q = F64.pinf ∨ rnd q = F64.ninf ∨ rnd q = F64.fin (rndQ q) := by
  unfold rnd
  split_ifs
  · exact Or.inl rfl
  · exact Or.inr (Or.inl rfl)
  · exact Or.inr (Or.inr rfl)

theorem rnd_le_fin {q b : ℚ} (hq : q ≤ b) (hb : rndQ b = b) (hbig : b < big) :
    rnd q = F64.ninf ∨ ∃ r, r ≤ b ∧ rnd q = F64.fin r := by
  have hm := rndQ_mono hq
  rw [hb] at hm
  rcases rnd_cases q with h | h | h
  · exfalso
    unfold rnd at h
    split_ifs at h with h1
    linarith
  · exact Or.inl h
  · exact Or.inr ⟨_, hm, h⟩

theorem rnd_ge_fin {q b : ℚ} (hq : b ≤ q) (hb : rndQ b = b) (hbig : -big < b) :
    rnd q = F64.pinf ∨ ∃ r, b ≤ r ∧ rnd q = F64.fin r := by
  have hm := rndQ_mono hq
  rw [hb] at hm
  rcases rnd_cases q with h | h | h
  · exact Or.inl h
  · exfalso
    unfold rnd at h
    split_ifs at h with h1 h2
    linarith
  · exact Or.inr ⟨_, hm, h⟩

theorem rndQ_int (n : ℤ) (hn : |n| < (2 : ℤ) ^ (53 : ℕ)) : rndQ (n : ℚ) = (n : ℚ) := by
  have h := rndQ_repr n 0 hn (by norm_num)
  simpa using h

theorem rndQ_half_int (n : ℤ) (hn : |2 * n + 1| < (2 : ℤ) ^ (53 : ℕ)) :
    rndQ ((n : ℚ) + 1 / 2) = (n : ℚ) + 1 / 2 := by
  have h := rndQ_repr (2 * n + 1) (-1) hn (by norm_num)
  have he : (((2 * n + 1 : ℤ) : ℚ)) * (2 : ℚ) ^ (-1 : ℤ) = (n : ℚ) + 1 / 2 := by
    push_cast
    rw [zpow_neg_one]
    ring
  rw [he] at h
  exact h

theorem big_gt_two_pow_53 : (2 : ℚ) ^ (53 : ℕ) < big := by
  unfold big
  norm_num

/-! ## The largest binary64 number -/

theorem rndQ_le_maxF {p : ℚ} (h : rndQ p < big) :
    rndQ p ≤ big - (2 : ℚ) ^ (971 : ℕ) := by
  have hb : big = (2 : ℚ) ^ (1024 : ℕ) := by unfold big; rfl
  by_cases hex : expo p ≤ 970
  · have h1 := rndQ_le_top p
    have h2 : (2 : ℚ) ^ (expo p + 53) ≤ (2 : ℚ) ^ (1023 : ℤ) :=
      zpow_le_zpow_right₀ (by norm_num) (by omega)
    have h3 : (2 : ℚ) ^ (1023 : ℤ) ≤ big - (2 : ℚ) ^ (971 : ℕ) := by
      rw [hb]
      norm_num
    linarith
  · obtain ⟨j, hj⟩ := Int.eq_ofNat_of_zero_le (show 0 ≤ expo p - 971 by omega)
    have hexp : expo p = 971 + (j : ℤ) := by omega
    have hform : rndQ p = ((rne (p / (2 : ℚ) ^ expo p) * (2 : ℤ) ^ j : ℤ) : ℚ) *
        (2 : ℚ) ^ (971 : ℕ) := by
      unfold rndQ
      rw [hexp, zpow_split, zpow_natCast]
      push_cast
      have : (2 : ℚ) ^ (971 : ℤ) = (2 : ℚ) ^ (971 : ℕ) := by norm_num
      rw [this]
      ring
    rw [hform] at h ⊢
    generalize rne (p / (2 : ℚ) ^ expo p) * (2 : ℤ) ^ j = M at h ⊢
    have hp971 : (0 : ℚ) < (2 : ℚ) ^ (971 : ℕ) := by positivity
    have hMlt : (M : ℚ) < (2 : ℚ) ^ (53 : ℕ) := by
      have hb2 : big = (2 : ℚ) ^ (53 : ℕ) * (2 : ℚ) ^ (971 : ℕ) := by
        rw [hb, ← pow_add]
      rw [hb2] at h
      exact lt_of_mul_lt_mul_right h (le_of_lt hp971)
    have hMz : M < (2 : ℤ) ^ (53 : ℕ) := by exact_mod_cast hMlt
    have hMle : M ≤ (2 : ℤ) ^ (53 : ℕ) - 1 := by omega
    have hMq : (M : ℚ) ≤ (2 : ℚ) ^ (53 : ℕ) - 1 := by exact_mod_cast hMle
    have hb2 : big = (2 : ℚ) ^ (53 : ℕ) * (2 : ℚ) ^ (971 : ℕ) := by
      rw [hb, ← pow_add]
    rw [hb2]
    nlinarith

theorem rndQ_maxF_half :
    rndQ (big - (2 : ℚ) ^ (971 : ℕ) + 1 / 2) = big - (2 : ℚ) ^ (971 : ℕ) := by
  have hb : big = (2 : ℚ) ^ (1024 : ℕ) := by unfold big; rfl
  have hpos : (0 : ℚ) < big - (2 : ℚ) ^ (971 : ℕ) + 1 / 2 := by
    rw [hb]
    norm_num
  have hq : big - (2 : ℚ) ^ (971 : ℕ) + 1 / 2 ≠ 0 := ne_of_gt hpos
  have hlog : Int.log 2 |big - (2 : ℚ) ^ (971 : ℕ) + 1 / 2| = 1023 := by
    have h1 := le_log_of_le_abs hq (x := 1023) (by
      rw [abs_of_pos hpos, hb]
      norm_num)
    have h2 := log_lt_of_abs_lt hq (x := 1024) (by
      rw [abs_of_pos hpos, hb]
      norm_num)
    omega
  have hex : expo (big - (2 : ℚ) ^ (971 : ℕ) + 1 / 2) = 971 := by
    unfold expo
    rw [hlog]
    norm_num
  have hrne : rne ((big - (2 : ℚ) ^ (971 : ℕ) + 1 / 2) / (2 : ℚ) ^ (971 : ℤ)) =
      (2 : ℤ) ^ (53 : ℕ) - 1 := by
    apply rne_of_near
    rw [hb, abs_lt]
    constructor <;> norm_num
  unfold rndQ
  rw [hex, hrne, hb]
  norm_num

/-! ## Values returned by binary64 operations -/

theorem rne_scaled_abs_le (q : ℚ) : |rne (q / (2 : ℚ) ^ expo q)| ≤ (2 : ℤ) ^ (53 : ℕ) := by
  have h := abs_scaled_lt q
  rw [abs_lt] at h
  have h53 : ((2 : ℚ) ^ (53 : ℤ)) = (((2 : ℤ) ^ (53 : ℕ) : ℤ) : ℚ) := by norm_num
  rw [abs_le]
  constructor
  · apply int_le_rne
    push_cast
    rw [h53] at h
    push_cast at h
    linarith [h.1]
  · apply rne_le_of_le_int
    rw [h53] at h
    linarith [h.2]

theorem rndQ_idem (q : ℚ) : rndQ (rndQ q) = rndQ q := by
  have hle := rne_scaled_abs_le q
  have hex : -1074 ≤ expo q := by
    unfold expo
    omega
  rcases lt_or_eq_of_le hle with hlt | heq
  · exact rndQ_repr _ _ hlt hex
  · have hform : rndQ q = (((rne (q / (2 : ℚ) ^ expo q)) / (2 : ℤ) ^ (53 : ℕ) : ℤ) : ℚ) *
        (2 : ℚ) ^ (expo q + 53) := by
      unfold rndQ
      rw [zpow_split]
      rcases abs_eq (show (0 : ℤ) ≤ (2 : ℤ) ^ (53 : ℕ) by positivity) |>.mp heq with h | h
      · rw [h]
        norm_num
      · rw [h]
        norm_num
    rw [hform]
    apply rndQ_repr
    · rcases abs_eq (show (0 : ℤ) ≤ (2 : ℤ) ^ (53 : ℕ) by positivity) |>.mp heq with h | h
      · rw [h]
        norm_num
      · rw [h]
        norm_num
    · omega

theorem isOut_rnd (p : ℚ) : IsOut (rnd p) := by
  intro a ha
  obtain ⟨h1, h2, h3⟩ := rnd_eq_fin ha
  unfold rnd
  have hid : rndQ a = a := by rw [h1, rndQ_idem]
  rw [hid, if_neg (not_le.mpr h3), if_neg (by linarith)]

theorem isOut_nan : IsOut F64.nan := by
  intro a ha
  cases ha

theorem isOut_pinf : IsOut F64.pinf := by
  intro a ha
  cases ha

theorem isOut_ninf : IsOut F64.ninf := by
  intro a ha
  cases ha

theorem isOut_fadd (x y : F64) : IsOut (fadd x y) := by
  cases x <;> cases y <;>
    first
    | exact isOut_rnd _
    | exact isOut_nan
    | exact isOut_pinf
    | exact isOut_ninf

theorem isOut_fsub (x y : F64) : IsOut (fsub x y) := by
  cases x <;> cases y <;>
    first
    | exact isOut_rnd _
    | exact isOut_nan
    | exact isOut_pinf
    | exact isOut_ninf

theorem isOut_fmax {x y : F64} (hx : IsOut x) (hy : IsOut y) : IsOut (fmax x y) := by
  unfold fmax
  split_ifs
  · exact isOut_nan
  · exact hy
  · exact hx

theorem isOut_fmin {x y : F64} (hx : IsOut x) (hy : IsOut y) : IsOut (fmin x y) := by
  unfold fmin
  split_ifs
  · exact isOut_nan
  · exact hy
  · exact hx

theorem isOut_clampF {x lo hi : F64} (hx : IsOut x) (hlo : IsOut lo) (hhi : IsOut hi) :
    IsOut (clampF x lo hi) :=
  isOut_fmax hlo (isOut_fmin hhi hx)

/-! ## The helpers `Math.max`, `Math.min`, `iround` in binary64 -/

theorem fmax_fin_fin (a b : ℚ) : fmax (F64.fin a) (F64.fin b) = F64.fin (max a b) := by
  unfold fmax
  rw [if_neg (by simp)]
  by_cases h : a < b
  · simp only [flt, h, decide_True, if_true, max_eq_right (le_of_lt h)]
  · simp only [flt, h, decide_False, Bool.false_eq_true, if_false, max_eq_left (not_lt.mp h)]

theorem fmin_fin_fin (a b : ℚ) : fmin (F64.fin a) (F64.fin b) = F64.fin (min a b) := by
  unfold fmin
  rw [if_neg (by simp)]
  by_cases h : b < a
  · simp only [flt, h, decide_True, if_true, min_eq_right (le_of_lt h)]
  · simp only [flt, h, decide_False, Bool.false_eq_true, if_false, min_eq_left (not_lt.mp h)]

theorem iroundF_fin (a : ℚ) :
    iroundF (F64.fin a) = fmax (F64.fin 0) (ffloor (rnd (a + 1 / 2))) := rfl

theorem rnd_half_fin {a : ℚ} (h : rnd a = F64.fin a) :
    rnd (a + 1 / 2) = F64.fin (rndQ (a + 1 / 2)) := by
  obtain ⟨h1, h2, h3⟩ := rnd_eq_fin h
  have hmax : a ≤ big - (2 : ℚ) ^ (971 : ℕ) := by
    rw [h1]
    apply rndQ_le_maxF
    rw [← h1]
    exact h3
  have hup : rndQ (a + 1 / 2) ≤ big - (2 : ℚ) ^ (971 : ℕ) := by
    have := rndQ_mono (show a + 1 / 2 ≤ big - (2 : ℚ) ^ (971 : ℕ) + 1 / 2 by linarith)
    rw [rndQ_maxF_half] at this
    exact this
  have hlo : a ≤ rndQ (a + 1 / 2) := by
    have := rndQ_mono (show a ≤ a + 1 / 2 by linarith)
    rw [← h1] at this
    exact this
  have hp : (0 : ℚ) < (2 : ℚ) ^ (971 : ℕ) := by positivity
  unfold rnd
  rw [if_neg (by linarith), if_neg (by linarith)]

theorem iroundF_nat {x : F64} (hx : IsOut x) : ∃ n : ℕ, iroundF x = F64.fin (n : ℚ) := by
  cases x with
  | fin a =>
    rw [iroundF_fin, rnd_half_fin (hx a rfl)]
    simp only [ffloor]
    rw [fmax_fin_fin]
    refine ⟨(⌊rndQ (a + 1 / 2)⌋).toNat, ?_⟩
    congr 1
    rcases le_total 0 ⌊rndQ (a + 1 / 2)⌋ with h | h
    · rw [max_eq_right (by exact_mod_cast h)]
      have := Int.toNat_of_nonneg h
      exact_mod_cast this.symm
    · rw [max_eq_left (by exact_mod_cast h), Int.toNat_of_nonpos h]
      simp
  | pinf => exact ⟨0, by simp [iroundF]⟩
  | ninf => exact ⟨0, by simp [iroundF]⟩
  | nan => exact ⟨0, by simp [iroundF]⟩

theorem iroundF_fin_bounds (x : ℚ) (n : ℤ) (hn : |2 * n + 1| < (2 : ℤ) ^ (53 : ℕ))
    (hx : x ≤ (n : ℚ)) :
    ∃ o : ℕ, iroundF (F64.fin x) = F64.fin (o : ℚ) ∧ (o : ℤ) ≤ max 0 n ∧
      ∀ m : ℤ, |2 * m + 1| < (2 : ℤ) ^ (53 : ℕ) → (m : ℚ) ≤ x → m ≤ (o : ℤ) := by
  have hb53 := big_gt_two_pow_53
  have hnq : |(n : ℚ)| < (2 : ℚ) ^ (53 : ℕ) := by
    have : |n| < (2 : ℤ) ^ (53 : ℕ) := by
      rw [abs_lt] at hn ⊢
      constructor <;> omega
    exact_mod_cast this
  rw [abs_lt] at hnq
  have hup := rnd_le_fin (q := x + 1 / 2) (b := (n : ℚ) + 1 / 2) (by linarith)
    (rndQ_half_int n hn) (by
      have : (n : ℚ) + 1 / 2 < (2 : ℚ) ^ (53 : ℕ) + 1 := by linarith [hnq.2]
      have h2 : (2 : ℚ) ^ (53 : ℕ) + 1 ≤ big := by
        unfold big
        norm_num
      linarith)
  rw [iroundF_fin]
  rcases hup with hninf | ⟨r, hr, hfin⟩
  · refine ⟨0, ?_, ?_, ?_⟩
    · rw [hninf]
      simp [ffloor, fmax, flt]
    · simp
    · intro m hm hmx
      exfalso
      have hmq : |(m : ℚ)| < (2 : ℚ) ^ (53 : ℕ) := by
        have : |m| < (2 : ℤ) ^ (53 : ℕ) := by
          rw [abs_lt] at hm ⊢
          constructor <;> omega
        exact_mod_cast this
      rw [abs_lt] at hmq
      have hlo := rnd_ge_fin (q := x + 1 / 2) (b := (m : ℚ) + 1 / 2) (by linarith)
        (rndQ_half_int m hm) (by
          have h2 : -big < -((2 : ℚ) ^ (53 : ℕ)) := by linarith
          linarith [hmq.1])
      rw [hninf] at hlo
      rcases hlo with h | ⟨_, _, h⟩ <;> cases h
  · rw [hfin]
    simp only [ffloor]
    rw [fmax_fin_fin]
    have hfl : ⌊r⌋ ≤ n := by
      have : r < ((n + 1 : ℤ) : ℚ) := by
        push_cast
        linarith
      have := Int.floor_le r
      have h3 : ((⌊r⌋ : ℤ) : ℚ) < ((n + 1 : ℤ) : ℚ) := by linarith
      have h4 : ⌊r⌋ < n + 1 := by exact_mod_cast h3
      omega
    refine ⟨(⌊r⌋).toNat, ?_, ?_, ?_⟩
    · congr 1
      rcases le_total 0 ⌊r⌋ with h | h
      · rw [max_eq_right (by exact_mod_cast h)]
        have := Int.toNat_of_nonneg h
        exact_mod_cast this.symm
      · rw [max_eq_left (by exact_mod_cast h), Int.toNat_of_nonpos h]
        simp
    · rcases le_total 0 ⌊r⌋ with h | h
      · rw [Int.toNat_of_nonneg h]
        exact le_trans hfl (le_max_right _ _)
      · rw [Int.toNat_of_nonpos h]
        simp
    · intro m hm hmx
      have hmq : |(m : ℚ)| < (2 : ℚ) ^ (53 : ℕ) := by
        have : |m| < (2 : ℤ) ^ (53 : ℕ) := by
          rw [abs_lt] at hm ⊢
          constructor <;> omega
        exact_mod_cast this
      rw [abs_lt] at hmq
      have hlo := rnd_ge_fin (q := x + 1 / 2) (b := (m : ℚ) + 1 / 2) (by linarith)
        (rndQ_half_int m hm) (by
          have h2 : -big < -((2 : ℚ) ^ (53 : ℕ)) := by linarith
          linarith [hmq.1])
      rw [hfin] at hlo
      rcases hlo with h | ⟨r2, hr2, h⟩
      · cases h
      · have hrr : r = r2 := F64.fin.inj h
        rw [← hrr] at hr2
        have hmf : m ≤ ⌊r⌋ := by
          apply Int.le_floor.mpr
          linarith
        have := Int.self_le_toNat ⌊r⌋
        omega

/-! ## The rate-limit band in binary64 -/

theorem clampF_cases (s lo : F64) (h : ℚ) (hs : s ≠ F64.nan)
    (hlo : lo = F64.ninf ∨ ∃ l, l ≤ h ∧ lo = F64.fin l) :
    (clampF s lo (F64.fin h) = F64.ninf ∧ lo = F64.ninf) ∨
    ∃ x, clampF s lo (F64.fin h) = F64.fin x ∧ x ≤ h ∧ ∀ l, lo = F64.fin l → l ≤ x := by
  unfold clampF
  rcases hlo with hlo | ⟨l, hl, hlo⟩
  · subst hlo
    cases s with
    | fin q =>
      right
      refine ⟨min h q, ?_, min_le_left _ _, ?_⟩
      · rw [fmin_fin_fin]
        simp [fmax, flt]
      · intro l hl
        cases hl
    | pinf =>
      right
      refine ⟨h, ?_, le_refl _, ?_⟩
      · simp [fmin, fmax, flt]
      · intro l hl
        cases hl
    | ninf =>
      left
      simp [fmin, fmax, flt]
    | nan => exact absurd rfl hs
  · subst hlo
    right
    cases s with
    | fin q =>
      refine ⟨max l (min h q), ?_, max_le hl (min_le_left _ _), ?_⟩
      · rw [fmin_fin_fin, fmax_fin_fin]
      · intro l2 hl2
        cases hl2
        exact le_max_left _ _
    | pinf =>
      refine ⟨max l h, ?_, max_le hl (le_refl _), ?_⟩
      · have : fmin (F64.fin h) F64.pinf = F64.fin h := by simp [fmin, flt]
        rw [this, fmax_fin_fin]
      · intro l2 hl2
        cases hl2
        exact le_max_left _ _
    | ninf =>
      refine ⟨l, ?_, hl, ?_⟩
      · simp [fmin, fmax, flt]
      · intro l2 hl2
        cases hl2
        exact le_refl _
    | nan => exact absurd rfl hs

theorem iroundF_clampF_band (s : F64) (k u d : ℕ) (hs : s ≠ F64.nan)
    (hb : k + u < 2 ^ (52 : ℕ)) :
    ∃ o : ℕ, iroundF (clampF s (fsub (F64.fin (k : ℚ)) (F64.fin (d : ℚ)))
        (fadd (F64.fin (k : ℚ)) (F64.fin (u : ℚ)))) = F64.fin (o : ℚ) ∧
      (k : ℤ) - (d : ℤ) ≤ (o : ℤ) ∧ o ≤ k + u := by
  have hb53 := big_gt_two_pow_53
  have hbz : ((k : ℤ) + (u : ℤ)) < (2 : ℤ) ^ (52 : ℕ) := by exact_mod_cast hb
  have hhi : fadd (F64.fin (k : ℚ)) (F64.fin (u : ℚ)) = F64.fin (((k + u : ℕ) : ℚ)) := by
    rw [fadd_fin]
    have := rnd_int ((k : ℤ) + (u : ℤ)) (by
      rw [abs_lt]
      constructor <;> omega)
    push_cast at this ⊢
    exact this
  have hkuq : (((k + u : ℕ) : ℚ)) < (2 : ℚ) ^ (52 : ℕ) := by exact_mod_cast hb
  have hlo : fsub (F64.fin (k : ℚ)) (F64.fin (d : ℚ)) = F64.ninf ∨
      ∃ l, l ≤ (((k + u : ℕ) : ℚ)) ∧ fsub (F64.fin (k : ℚ)) (F64.fin (d : ℚ)) = F64.fin l := by
    rw [fsub_fin]
    apply rnd_le_fin
    · push_cast
      have hd : (0 : ℚ) ≤ (d : ℚ) := Nat.cast_nonneg d
      have hu : (0 : ℚ) ≤ (u : ℚ) := Nat.cast_nonneg u
      linarith
    · have := rndQ_int ((k : ℤ) + (u : ℤ)) (by
        rw [abs_lt]
        constructor <;> omega)
      push_cast at this ⊢
      exact this
    · have : (2 : ℚ) ^ (52 : ℕ) < (2 : ℚ) ^ (53 : ℕ) := by norm_num
      linarith
  rw [hhi]
  have hn : |2 * (((k + u : ℕ) : ℤ)) + 1| < (2 : ℤ) ^ (53 : ℕ) := by
    rw [abs_lt]
    push_cast
    constructor <;> omega
  rcases clampF_cases s _ _ hs hlo with ⟨hc, hlon⟩ | ⟨x, hc, hx, hxl⟩
  · rw [hc]
    refine ⟨0, by simp [iroundF], ?_, by omega⟩
    -- the lower bound is `-Infinity`, so `d > k`
    by_contra hcon
    have hdk : (d : ℤ) ≤ (k : ℤ) := by
      push_cast at hcon
      omega
    have hex := rnd_int ((k : ℤ) - (d : ℤ)) (by
      rw [abs_lt]
      constructor <;> omega)
    rw [fsub_fin] at hlon
    push_cast at hex
    rw [hex] at hlon
    cases hlon
  · rw [hc]
    obtain ⟨o, ho, hom, holo⟩ := iroundF_fin_bounds x (((k + u : ℕ) : ℤ)) hn (by exact_mod_cast hx)
    refine ⟨o, ho, ?_, ?_⟩
    · by_cases hdk : (d : ℤ) ≤ (k : ℤ)
      · have hex := rnd_int ((k : ℤ) - (d : ℤ)) (by
          rw [abs_lt]
          constructor <;> omega)
        push_cast at hex
        have hl := hxl ((k : ℚ) - (d : ℚ)) (by rw [fsub_fin, hex])
        apply holo
        · rw [abs_lt]
          constructor <;> omega
        · push_cast
          exact hl
      · have : (0 : ℤ) ≤ (o : ℤ) := Int.ofNat_nonneg o
        omega
    · have h0 : max (0 : ℤ) (((k + u : ℕ) : ℤ)) = ((k + u : ℕ) : ℤ) :=
        max_eq_right (Int.ofNat_nonneg _)
      rw [h0] at hom
      exact_mod_cast hom

theorem stepsF_result (sqrt : F64 → F64) (mode : String) (weeks : History) (role : Role) :
    (handlerStepsF sqrt mode weeks role).result =
      iroundF (clampF (handlerStepsF sqrt mode weeks role).smoothed
        (fsub (handlerStepsF sqrt mode weeks role).prevOrder
          (handlerStepsF sqrt mode weeks role).down)
        (fadd (handlerStepsF sqrt mode weeks role).prevOrder
          (handlerStepsF sqrt mode weeks role).up)) := rfl

theorem stepsF_limited (sqrt : F64 → F64) (mode : String) (weeks : History) (role : Role) :
    (handlerStepsF sqrt mode weeks role).limited =
      clampF (handlerStepsF sqrt mode weeks role).smoothed
        (fsub (handlerStepsF sqrt mode weeks role).prevOrder
          (handlerStepsF sqrt mode weeks role).down)
        (fadd (handlerStepsF sqrt mode weeks role).prevOrder
          (handlerStepsF sqrt mode weeks role).up) := rfl

theorem stepsF_up (sqrt : F64 → F64) (mode : String) (weeks : History) (role : Role) :
    (handlerStepsF sqrt mode weeks role).up =
      iroundF (fadd (fmul (F64.fin (1 / 2)) (handlerStepsF sqrt mode weeks role).forecast)
        (F64.fin 2)) := rfl

theorem stepsF_down (sqrt : F64 → F64) (mode : String) (weeks : History) (role : Role) :
    (handlerStepsF sqrt mode weeks role).down =
      iroundF (fadd (fmul (F64.fin c07) (handlerStepsF sqrt mode weeks role).forecast)
        (F64.fin 2)) := rfl

theorem stepsF_up_nat (sqrt : F64 → F64) (mode : String) (weeks : History) (role : Role) :
    ∃ u : ℕ, (handlerStepsF sqrt mode weeks role).up = F64.fin (u : ℚ) := by
  rw [stepsF_up]
  exact iroundF_nat (isOut_fadd _ _)

theorem stepsF_down_nat (sqrt : F64 → F64) (mode : String) (weeks : History) (role : Role) :
    ∃ d : ℕ, (handlerStepsF sqrt mode weeks role).down = F64.fin (d : ℚ) := by
  rw [stepsF_down]
  exact iroundF_nat (isOut_fadd _ _)

theorem stepsF_prevOrder (sqrt : F64 → F64) (mode : String) (weeks : History) (role : Role) :
    (handlerStepsF sqrt mode weeks role).prevOrder =
      F64.fin (if 1 ≤ (seriesFor weeks role).o.length then
        (seriesFor weeks role).o.getD ((seriesFor weeks role).o.length - 1) 0 else 0) := by
  unfold handlerStepsF computeOrderStepsF
  simp only []
  split_ifs <;> rfl

theorem stepsF_band (sqrt : F64 → F64) (mode : String) (weeks : History) (role : Role)
    (k u : ℕ)
    (hk : (handlerStepsF sqrt mode weeks role).prevOrder = F64.fin (k : ℚ))
    (hu : (handlerStepsF sqrt mode weeks role).up = F64.fin (u : ℚ))
    (hb : k + u < 2 ^ (52 : ℕ))
    (hs : (handlerStepsF sqrt mode weeks role).smoothed ≠ F64.nan) :
    ∃ o d : ℕ, handlerF sqrt mode weeks role = F64.fin (o : ℚ) ∧
      (handlerStepsF sqrt mode weeks role).down = F64.fin (d : ℚ) ∧
      (k : ℤ) - (d : ℤ) ≤ (o : ℤ) ∧ o ≤ k + u := by
  obtain ⟨d, hd⟩ := stepsF_down_nat sqrt mode weeks role
  obtain ⟨o, ho, h1, h2⟩ := iroundF_clampF_band _ k u d hs hb
  refine ⟨o, d, ?_, hd, h1, h2⟩
  unfold handlerF
  rw [stepsF_result, hk, hu, hd]
  exact ho

theorem stepsF_result_nat (sqrt : F64 → F64) (mode : String) (weeks : History) (role : Role) :
    ∃ o : ℕ, handlerF sqrt mode weeks role = F64.fin (o : ℚ) := by
  unfold handlerF
  rw [stepsF_result]
  apply iroundF_nat
  apply isOut_clampF
  · exact isOut_fadd _ _
  · exact isOut_fsub _ _
  · exact isOut_fadd _ _

/-! ## Monotonicity of the binary64 operations -/

theorem fle_pinf {x : F64} (hx : x ≠ F64.nan) : fle x F64.pinf := by
  cases x with
  | fin a => exact True.intro
  | pinf => exact True.intro
  | ninf => exact True.intro
  | nan => exact absurd rfl hx

theorem ninf_fle {x : F64} (hx : x ≠ F64.nan) : fle F64.ninf x := by
  cases x with
  | fin a => exact True.intro
  | pinf => exact True.intro
  | ninf => exact True.intro
  | nan => exact absurd rfl hx

theorem fle_ne_nan {x y : F64} (h : fle x y) : x ≠ F64.nan ∧ y ≠ F64.nan := by
  cases x <;> cases y <;> first | exact False.elim h | exact ⟨by simp, by simp⟩

theorem fadd_ne_nan {x y : F64} (h : fadd x y ≠ F64.nan) : x ≠ F64.nan ∧ y ≠ F64.nan := by
  cases x <;> cases y <;> first | exact absurd rfl h | exact ⟨by simp, by simp⟩

theorem fsub_ne_nan {x y : F64} (h : fsub x y ≠ F64.nan) : x ≠ F64.nan ∧ y ≠ F64.nan := by
  cases x <;> cases y <;> first | exact absurd rfl h | exact ⟨by simp, by simp⟩

theorem fmul_ne_nan {x y : F64} (h : fmul x y ≠ F64.nan) : x ≠ F64.nan ∧ y ≠ F64.nan := by
  cases x <;> cases y <;> first | exact absurd rfl h | exact ⟨by simp, by simp⟩

theorem fadd_mono_left {x x' : F64} (y : F64) (h : fle x x') (h1 : fadd x y ≠ F64.nan)
    (h2 : fadd x' y ≠ F64.nan) : fle (fadd x y) (fadd x' y) := by
  cases x <;> cases x' <;> cases y <;>
    first
    | exact False.elim h
    | exact absurd rfl h1
    | exact absurd rfl h2
    | exact rnd_mono (add_le_add_right h _)
    | exact fle_pinf (rnd_ne_nan _)
    | exact ninf_fle (rnd_ne_nan _)
    | exact True.intro

theorem fsub_anti_right (x : F64) {y y' : F64} (h : fle y y') (h1 : fsub x y ≠ F64.nan)
    (h2 : fsub x y' ≠ F64.nan) : fle (fsub x y') (fsub x y) := by
  cases x <;> cases y <;> cases y' <;>
    first
    | exact False.elim h
    | exact absurd rfl h1
    | exact absurd rfl h2
    | exact rnd_mono (sub_le_sub_left h _)
    | exact fle_pinf (rnd_ne_nan _)
    | exact ninf_fle (rnd_ne_nan _)
    | exact True.intro

theorem fmul_half_mono {x x' : F64} (h : fle x x') :
    fle (fmul (F64.fin (1 / 2)) x) (fmul (F64.fin (1 / 2)) x') := by
  have hpos : ¬ ((1 : ℚ) / 2 = 0) := by norm_num
  have hp : (0 : ℚ) < 1 / 2 := by norm_num
  cases x <;> cases x' <;>
    first
    | exact False.elim h
    | exact rnd_mono (mul_le_mul_of_nonneg_left h (le_of_lt hp))
    | (simp only [fmul, mulInf, if_neg hpos, hp, decide_True, if_true]
       first
       | exact fle_pinf (rnd_ne_nan _)
       | exact True.intro)
    | (simp only [fmul, mulInf, if_neg hpos, hp, decide_True, Bool.true_eq_false, if_false]
       exact ninf_fle (rnd_ne_nan _))

theorem fmin_mono_right {h x x' : F64} (hh : h ≠ F64.nan) (hx : fle x x') :
    fle (fmin h x) (fmin h x') := by
  cases h with
  | nan => exact absurd rfl hh
  | fin c =>
    cases x <;> cases x' <;>
      first
      | exact False.elim hx
      | (rw [fmin_fin_fin, fmin_fin_fin]
         exact min_le_min (le_refl c) hx)
      | (rw [fmin_fin_fin]
         simp only [fmin, flt]
         simp only [fle]
         first
         | exact min_le_left _ _
         | trivial)
      | (simp [fmin, flt, fle])
  | pinf =>
    cases x <;> cases x' <;>
      first
      | exact False.elim hx
      | (simp [fmin, flt, fle]
         try exact hx)
  | ninf =>
    cases x <;> cases x' <;>
      first
      | exact False.elim hx
      | (simp [fmin, flt, fle])

theorem fmax_mono_right {l x x' : F64} (hl : l ≠ F64.nan) (hx : fle x x') :
    fle (fmax l x) (fmax l x') := by
  cases l with
  | nan => exact absurd rfl hl
  | fin c =>
    cases x <;> cases x' <;>
      first
      | exact False.elim hx
      | (rw [fmax_fin_fin, fmax_fin_fin]
         exact max_le_max (le_refl c) hx)
      | (rw [fmax_fin_fin]
         simp [fmax, flt, fle])
      | (simp [fmax, flt, fle])
  | pinf =>
    cases x <;> cases x' <;>
      first
      | exact False.elim hx
      | (simp [fmax, flt, fle])
  | ninf =>
    cases x <;> cases x' <;>
      first
      | exact False.elim hx
      | (simp [fmax, flt, fle]
         try exact hx)

theorem ffloor_mono {x y : F64} (h : fle x y) : fle (ffloor x) (ffloor y) := by
  cases x <;> cases y <;>
    first
    | exact False.elim h
    | exact True.intro
    | (simp only [ffloor, fle]
       exact_mod_cast Int.floor_mono h)

theorem iroundF_nonneg (x : F64) : fle (F64.fin 0) (iroundF x) := by
  cases x with
  | fin a =>
    rw [iroundF_fin]
    rcases rnd_cases (a + 1 / 2) with h | h | h
    · rw [h]
      simp [ffloor, fmax, flt, fle]
    · rw [h]
      simp [ffloor, fmax, flt, fle]
    · rw [h]
      simp only [ffloor]
      rw [fmax_fin_fin]
      exact le_max_left _ _
  | pinf => exact le_refl (0 : ℚ)
  | ninf => exact le_refl (0 : ℚ)
  | nan => exact le_refl (0 : ℚ)

theorem iroundF_mono {x y : F64} (h : fle x y) (hy : y ≠ F64.pinf) :
    fle (iroundF x) (iroundF y) := by
  cases y with
  | pinf => exact absurd rfl hy
  | nan => exact absurd rfl (fle_ne_nan h).2
  | ninf =>
    cases x with
    | ninf => exact le_refl (0 : ℚ)
    | fin a => exact False.elim h
    | pinf => exact False.elim h
    | nan => exact False.elim h
  | fin b =>
    cases x with
    | ninf => exact iroundF_nonneg _
    | pinf => exact False.elim h
    | nan => exact False.elim h
    | fin a =>
      rw [iroundF_fin, iroundF_fin]
      apply fmax_mono_right (by simp)
      apply ffloor_mono
      apply rnd_mono
      have : a ≤ b := h
      linarith

/-! ## The trace of a one-week history -/

theorem oneWeek_forecast (sqrt : F64 → F64) (d inv back o : ℚ) :
    (handlerStepsF sqrt "blackbox" [retailerWeek d inv back o] Role.retailer).forecast =
      F64.fin d := rfl

theorem oneWeek_L (sqrt : F64 → F64) (d inv back o : ℚ) :
    (handlerStepsF sqrt "blackbox" [retailerWeek d inv back o] Role.retailer).L = 2 := rfl

theorem oneWeek_mad (sqrt : F64 → F64) (d inv back o : ℚ) :
    (handlerStepsF sqrt "blackbox" [retailerWeek d inv back o] Role.retailer).mad =
      fabs (fsub (F64.fin d) (F64.fin d)) := rfl

/-! ## The local variables of `computeOrder` in binary64 -/

theorem stepsF_net (sqrt : F64 → F64) (mode : String) (weeks : History) (role : Role) :
    (handlerStepsF sqrt mode weeks role).net =
      fsub (handlerStepsF sqrt mode weeks role).inventory
        (handlerStepsF sqrt mode weeks role).backlog := rfl

theorem stepsF_inventory (sqrt : F64 → F64) (mode : String) (weeks : History) (role : Role) :
    (handlerStepsF sqrt mode weeks role).inventory =
      F64.fin (finiteOr0 (inventoryOf (roleEntry (lastWeek weeks) role))) := rfl

theorem stepsF_backlog (sqrt : F64 → F64) (mode : String) (weeks : History) (role : Role) :
    (handlerStepsF sqrt mode weeks role).backlog =
      F64.fin (finiteOr0 (backlogOf (roleEntry (lastWeek weeks) role))) := rfl

theorem stepsF_IP (sqrt : F64 → F64) (mode : String) (weeks : History) (role : Role) :
    (handlerStepsF sqrt mode weeks role).IP =
      fadd (handlerStepsF sqrt mode weeks role).net
        (handlerStepsF sqrt mode weeks role).outstanding := rfl

theorem stepsF_safety (sqrt : F64 → F64) (mode : String) (weeks : History) (role : Role) :
    (handlerStepsF sqrt mode weeks role).safety =
      iroundF (fmul (fmul (F64.fin 1) (handlerStepsF sqrt mode weeks role).mad)
        (sqrt (F64.fin (((handlerStepsF sqrt mode weeks role).L : ℚ) + 1)))) := rfl

theorem stepsF_S (sqrt : F64 → F64) (mode : String) (weeks : History) (role : Role) :
    (handlerStepsF sqrt mode weeks role).S =
      fadd (fmul (handlerStepsF sqrt mode weeks role).forecast
          (F64.fin (((handlerStepsF sqrt mode weeks role).L : ℚ) + 1)))
        (handlerStepsF sqrt mode weeks role).safety := rfl

theorem stepsF_desired (sqrt : F64 → F64) (mode : String) (weeks : History) (role : Role) :
    (handlerStepsF sqrt mode weeks role).desired =
      fsub (handlerStepsF sqrt mode weeks role).S (handlerStepsF sqrt mode weeks role).IP := rfl

theorem stepsF_smoothed (sqrt : F64 → F64) (mode : String) (weeks : History) (role : Role) :
    (handlerStepsF sqrt mode weeks role).smoothed =
      fadd (fmul (F64.fin (1 / 2)) (handlerStepsF sqrt mode weeks role).desired)
        (fmul (fsub (F64.fin 1) (F64.fin (1 / 2)))
          (handlerStepsF sqrt mode weeks role).prevOrder) := rfl

theorem stepsF_outstanding (sqrt : F64 → F64) (mode : String) (weeks : History) (role : Role) :
    (handlerStepsF sqrt mode weeks role).outstanding =
      outstandingF (seriesFor weeks role).o (handlerStepsF sqrt mode weeks role).L := rfl

theorem stepsF_L (sqrt : F64 → F64) (mode : String) (weeks : History) (role : Role) :
    (handlerStepsF sqrt mode weeks role).L =
      estimateLeadTimeF (seriesFor weeks role).a (seriesFor weeks role).o := rfl

theorem fmin_nan_right (x : F64) : fmin x F64.nan = F64.nan := by
  simp [fmin]

theorem fmax_nan_right (x : F64) : fmax x F64.nan = F64.nan := by
  simp [fmax]

theorem handlerF_of_smoothed_nan (sqrt : F64 → F64) (mode : String) (weeks : History)
    (role : Role) (h : (handlerStepsF sqrt mode weeks role).smoothed = F64.nan) :
    handlerF sqrt mode weeks role = F64.fin 0 := by
  unfold handlerF
  rw [stepsF_result, h]
  unfold clampF
  rw [fmin_nan_right, fmax_nan_right]
  rfl

/-! ## The order against the net position in binary64 -/

theorem stepsF_eq_of_eraseStock (sqrt : F64 → F64) (mode : String) (pre : History)
    (w1 w2 : Option WeekRecord) (role : Role)
    (h : eraseStock role w1 = eraseStock role w2) :
    (handlerStepsF sqrt mode (pre ++ [w1]) role).S =
      (handlerStepsF sqrt mode (pre ++ [w2]) role).S ∧
    (handlerStepsF sqrt mode (pre ++ [w1]) role).outstanding =
      (handlerStepsF sqrt mode (pre ++ [w2]) role).outstanding ∧
    (handlerStepsF sqrt mode (pre ++ [w1]) role).prevOrder =
      (handlerStepsF sqrt mode (pre ++ [w2]) role).prevOrder ∧
    (handlerStepsF sqrt mode (pre ++ [w1]) role).up =
      (handlerStepsF sqrt mode (pre ++ [w2]) role).up ∧
    (handlerStepsF sqrt mode (pre ++ [w1]) role).down =
      (handlerStepsF sqrt mode (pre ++ [w2]) role).down := by
  have hs := seriesFor_append_of_eraseStock role pre w1 w2 h
  simp only [handlerStepsF, computeOrderStepsF, globalStatsF, hs]
  exact ⟨trivial, trivial, trivial, trivial, trivial⟩

theorem stepsF_antitone (sqrt : F64 → F64) (mode : String) (pre : History)
    (w1 w2 : Option WeekRecord) (role : Role)
    (h : eraseStock role w1 = eraseStock role w2)
    (hnet : finiteOr0 (inventoryOf (roleEntry w1 role)) -
        finiteOr0 (backlogOf (roleEntry w1 role)) ≤
      finiteOr0 (inventoryOf (roleEntry w2 role)) -
        finiteOr0 (backlogOf (roleEntry w2 role)))
    (hs1 : (handlerStepsF sqrt mode (pre ++ [w1]) role).smoothed ≠ F64.nan)
    (hs2 : (handlerStepsF sqrt mode (pre ++ [w2]) role).smoothed ≠ F64.nan)
    (hl : (handlerStepsF sqrt mode (pre ++ [w1]) role).limited ≠ F64.pinf) :
    fle (handlerF sqrt mode (pre ++ [w2]) role) (handlerF sqrt mode (pre ++ [w1]) role) := by
  obtain ⟨eS, eO, eP, eU, eD⟩ := stepsF_eq_of_eraseStock sqrt mode pre w1 w2 role h
  -- the net positions
  have hn : fle (handlerStepsF sqrt mode (pre ++ [w1]) role).net
      (handlerStepsF sqrt mode (pre ++ [w2]) role).net := by
    rw [stepsF_net, stepsF_net, stepsF_inventory, stepsF_inventory, stepsF_backlog,
      stepsF_backlog, lastWeek_append_singleton, lastWeek_append_singleton, fsub_fin, fsub_fin]
    exact rnd_mono hnet
  -- no intermediate value is NaN
  have hd1 : (handlerStepsF sqrt mode (pre ++ [w1]) role).desired ≠ F64.nan := by
    rw [stepsF_smoothed] at hs1
    exact (fmul_ne_nan (fadd_ne_nan hs1).1).2
  have hd2 : (handlerStepsF sqrt mode (pre ++ [w2]) role).desired ≠ F64.nan := by
    rw [stepsF_smoothed] at hs2
    exact (fmul_ne_nan (fadd_ne_nan hs2).1).2
  have hi1 : (handlerStepsF sqrt mode (pre ++ [w1]) role).IP ≠ F64.nan := by
    rw [stepsF_desired] at hd1
    exact (fsub_ne_nan hd1).2
  have hi2 : (handlerStepsF sqrt mode (pre ++ [w2]) role).IP ≠ F64.nan := by
    rw [stepsF_desired] at hd2
    exact (fsub_ne_nan hd2).2
  -- the chain of monotone steps
  have hIP : fle (handlerStepsF sqrt mode (pre ++ [w1]) role).IP
      (handlerStepsF sqrt mode (pre ++ [w2]) role).IP := by
    rw [stepsF_IP] at hi1 hi2 ⊢
    rw [stepsF_IP]
    rw [eO] at hi1 ⊢
    exact fadd_mono_left _ hn hi1 hi2
  have hdes : fle (handlerStepsF sqrt mode (pre ++ [w2]) role).desired
      (handlerStepsF sqrt mode (pre ++ [w1]) role).desired := by
    rw [stepsF_desired] at hd1 hd2 ⊢
    rw [stepsF_desired]
    rw [eS] at hd1 ⊢
    exact fsub_anti_right _ hIP hd1 hd2
  have hsm : fle (handlerStepsF sqrt mode (pre ++ [w2]) role).smoothed
      (handlerStepsF sqrt mode (pre ++ [w1]) role).smoothed := by
    rw [stepsF_smoothed] at hs1 hs2 ⊢
    rw [stepsF_smoothed]
    rw [eP] at hs1 ⊢
    exact fadd_mono_left _ (fmul_half_mono hdes) hs2 hs1
  obtain ⟨u, hu⟩ := stepsF_up_nat sqrt mode (pre ++ [w2]) role
  obtain ⟨d, hd⟩ := stepsF_down_nat sqrt mode (pre ++ [w2]) role
  have hp := stepsF_prevOrder sqrt mode (pre ++ [w2]) role
  have hlim : fle (handlerStepsF sqrt mode (pre ++ [w2]) role).limited
      (handlerStepsF sqrt mode (pre ++ [w1]) role).limited := by
    rw [stepsF_limited, stepsF_limited, eP, eU, eD, hp, hu, hd, fsub_fin, fadd_fin]
    unfold clampF
    exact fmax_mono_right (rnd_ne_nan _) (fmin_mono_right (rnd_ne_nan _) hsm)
  unfold handlerF
  exact iroundF_mono hlim hl

/-! ## Evaluating the order policy in binary64 -/

/-- A number `m / 2^k` with `|m| < 2^53` and `k ≤ 1074` is a binary64 number. -/
theorem rnd_dyadic (q : ℚ) (m : ℤ) (k : ℕ) (hq : q * (2 : ℚ) ^ k = (m : ℚ))
    (hm : |m| < (2 : ℤ) ^ (53 : ℕ)) (hk : k ≤ 1074) : rnd q = F64.fin q := by
  have hpos : (0 : ℚ) < (2 : ℚ) ^ k := by positivity
  have hq2 : q = (m : ℚ) * (2 : ℚ) ^ (-(k : ℤ)) := by
    rw [zpow_neg, zpow_natCast, ← hq]
    field_simp
  have hone : (1 : ℚ) ≤ (2 : ℚ) ^ k := one_le_pow₀ (by norm_num)
  have habs : |q| ≤ |(m : ℚ)| := by
    have h1 : |q| * (2 : ℚ) ^ k = |(m : ℚ)| := by
      rw [← hq, abs_mul, abs_of_pos hpos]
    have h2 : 0 ≤ |q| := abs_nonneg q
    nlinarith
  have hmq : |(m : ℚ)| < (2 : ℚ) ^ (53 : ℕ) := by
    have : ((|m| : ℤ) : ℚ) < (((2 : ℤ) ^ (53 : ℕ) : ℤ) : ℚ) := by exact_mod_cast hm
    rw [Int.cast_abs] at this
    push_cast at this
    exact this
  have hb := big_gt_two_pow_53
  have hlt : |q| < big := by linarith
  rw [abs_lt] at hlt
  exact rnd_exact q m (-(k : ℤ)) hq2 hm (by omega) hlt.1 hlt.2

theorem iroundF_eval (x r v : ℚ) (h : rnd (x + 1 / 2) = F64.fin r) (h0 : 0 ≤ v)
    (hz : ∃ z : ℤ, (z : ℚ) = v) (h1 : v ≤ r) (h2 : r < v + 1) :
    iroundF (F64.fin x) = F64.fin v := by
  obtain ⟨z, hz⟩ := hz
  have hf : ⌊r⌋ = z := by
    rw [Int.floor_eq_iff, hz]
    exact ⟨h1, h2⟩
  rw [iroundF_fin, h]
  simp only [ffloor]
  rw [hf, fmax_fin_fin, hz]
  congr 1
  exact max_eq_right h0

theorem iroundF_rnd_nonpos {q : ℚ} (hq : q ≤ 0) : iroundF (rnd q) = F64.fin 0 := by
  rcases rnd_le_fin hq rndQ_zero big_pos with h | ⟨r, hr, h⟩
  · rw [h]
    rfl
  · rw [h]
    obtain ⟨o, ho, hom, _⟩ := iroundF_fin_bounds r 0 (by norm_num) (by exact_mod_cast hr)
    rw [ho]
    have : o = 0 := by
      have h0 : max (0 : ℤ) 0 = 0 := max_self 0
      rw [h0] at hom
      omega
    rw [this]
    simp

/-- The rate limit computed from a forecast `f ≤ -4` with a factor `c ≥ 1/2` is `0`. -/
theorem iroundF_limit_nonpos {c f : ℚ} (hc : 1 / 2 ≤ c) (hf : f ≤ -4) :
    iroundF (fadd (fmul (F64.fin c) (F64.fin f)) (F64.fin 2)) = F64.fin 0 := by
  have hcf : c * f ≤ ((-2 : ℤ) : ℚ) := by
    push_cast
    nlinarith
  have hb : ((-2 : ℤ) : ℚ) < big := by
    have := big_pos
    push_cast
    linarith
  rw [fmul_fin]
  rcases rnd_le_fin hcf (rndQ_int (-2) (by norm_num)) hb with h | ⟨r, hr, h⟩
  · rw [h]
    rfl
  · rw [h, fadd_fin]
    apply iroundF_rnd_nonpos
    push_cast at hr
    linarith

theorem sqrtApprox_bounds (q : ℚ) (hq : 0 ≤ q) :
    0 ≤ sqrtApprox q ∧ sqrtApprox q ≤ q * 1000000 := by
  unfold sqrtApprox
  constructor
  · positivity
  · have h1 : ((Nat.sqrt (⌊q * 1000000000000⌋.toNat) : ℕ) : ℚ) ≤
        ((⌊q * 1000000000000⌋.toNat : ℕ) : ℚ) := by
      exact_mod_cast Nat.sqrt_le_self _
    have hfl : (0 : ℤ) ≤ ⌊q * 1000000000000⌋ := Int.floor_nonneg.mpr (by positivity)
    have h2 : ((⌊q * 1000000000000⌋.toNat : ℕ) : ℚ) = ((⌊q * 1000000000000⌋ : ℤ) : ℚ) := by
      have := Int.toNat_of_nonneg hfl
      exact_mod_cast this
    have h3 : ((⌊q * 1000000000000⌋ : ℤ) : ℚ) ≤ q * 1000000000000 := Int.floor_le _
    rw [div_le_iff₀ (by norm_num)]
    linarith

theorem sqrtApproxF_fin (a : ℚ) (h0 : 0 ≤ a) (h1 : a ≤ 1000) :
    ∃ r, sqrtApproxF (F64.fin a) = F64.fin r := by
  obtain ⟨hs0, hs1⟩ := sqrtApprox_bounds a h0
  have hle : sqrtApprox a ≤ ((1000000000 : ℤ) : ℚ) := by
    push_cast
    linarith
  have hb : ((1000000000 : ℤ) : ℚ) < big := by
    have := big_gt_two_pow_53
    push_cast
    have h2 : (1000000000 : ℚ) < (2 : ℚ) ^ (53 : ℕ) := by norm_num
    linarith
  simp only [sqrtApproxF, if_neg (not_lt.mpr h0)]
  rcases rnd_le_fin hle (rndQ_int 1000000000 (by norm_num)) hb with h | ⟨r, _, h⟩
  · rcases rnd_nonneg hs0 with h' | ⟨r, _, h'⟩
    · rw [h] at h'
      cases h'
    · exact ⟨r, h'⟩
  · exact ⟨r, h⟩

theorem iroundF_zero : iroundF (F64.fin 0) = F64.fin 0 := by
  exact iroundF_eval 0 (1 / 2) 0
    (by
      rw [zero_add]
      exact rnd_dyadic (1 / 2) 1 1 (by norm_num) (by norm_num) (by norm_num))
    (le_refl 0) ⟨0, by norm_num⟩ (by norm_num) (by norm_num)

theorem oneWeek_mad_zero (sqrt : F64 → F64) (d inv back o : ℚ) :
    (handlerStepsF sqrt "blackbox" [retailerWeek d inv back o] Role.retailer).mad =
      F64.fin 0 := by
  rw [oneWeek_mad, fsub_fin, sub_self, rnd_zero, fabs_fin, abs_zero]

theorem oneWeek_safety_zero (sqrt : F64 → F64) (d inv back o : ℚ)
    (hsq : ∃ r, sqrt (F64.fin 3) = F64.fin r) :
    (handlerStepsF sqrt "blackbox" [retailerWeek d inv back o] Role.retailer).safety =
      F64.fin 0 := by
  obtain ⟨r, hr⟩ := hsq
  have h3 : (((2 : ℕ) : ℚ) + 1) = 3 := by norm_num
  rw [stepsF_safety, oneWeek_mad_zero, oneWeek_L, h3, hr, fmul_fin, mul_zero, rnd_zero,
    fmul_fin, zero_mul, rnd_zero, iroundF_zero]

theorem oneWeek_S (sqrt : F64 → F64) (d inv back o : ℚ)
    (hsq : ∃ r, sqrt (F64.fin 3) = F64.fin r) :
    (handlerStepsF sqrt "blackbox" [retailerWeek d inv back o] Role.retailer).S =
      fadd (fmul (F64.fin d) (F64.fin 3)) (F64.fin 0) := by
  have h3 : (((2 : ℕ) : ℚ) + 1) = 3 := by norm_num
  rw [stepsF_S, oneWeek_safety_zero sqrt d inv back o hsq, oneWeek_forecast, oneWeek_L, h3]

theorem sqrtApproxF_three : ∃ r, sqrtApproxF (F64.fin 3) = F64.fin r :=
  sqrtApproxF_fin 3 (by norm_num) (by norm_num)

/-! ## The overflow example -/

theorem halfBig_double : halfBig + halfBig = big := by
  unfold halfBig big
  norm_num

theorem halfBig_ge : (4 : ℚ) ≤ halfBig := by
  unfold halfBig
  norm_num

theorem fadd_nan_left (y : F64) : fadd F64.nan y = F64.nan := by
  cases y <;> rfl

theorem rnd_five : rnd (0 + 5) = F64.fin 5 := by
  rw [zero_add]
  exact rnd_dyadic 5 5 0 (by norm_num) (by norm_num) (by norm_num)

theorem overflow_limits (sqrt : F64 → F64) (inv back o : ℚ) :
    (handlerStepsF sqrt "blackbox" [retailerWeek (-halfBig) inv back o] Role.retailer).up =
      F64.fin 0 ∧
    (handlerStepsF sqrt "blackbox" [retailerWeek (-halfBig) inv back o] Role.retailer).down =
      F64.fin 0 := by
  have h4 := halfBig_ge
  constructor
  · rw [stepsF_up, oneWeek_forecast]
    exact iroundF_limit_nonpos (le_refl _) (by linarith)
  · rw [stepsF_down, oneWeek_forecast]
    exact iroundF_limit_nonpos (by unfold c07; norm_num) (by linarith)

theorem overflow_S (inv back o : ℚ) :
    (handlerStepsF sqrtApproxF "blackbox" [retailerWeek (-halfBig) inv back o]
      Role.retailer).S = F64.ninf := by
  have h4 := halfBig_ge
  have h2 := halfBig_double
  rw [oneWeek_S sqrtApproxF _ _ _ _ sqrtApproxF_three, fmul_fin,
    rnd_ninf_of_le (show -halfBig * 3 ≤ -big by linarith)]
  rfl

theorem overflowWeek_desired :
    (handlerStepsF sqrtApproxF "blackbox" [overflowWeek] Role.retailer).desired = F64.nan := by
  have h2 := halfBig_double
  have hNet : (handlerStepsF sqrtApproxF "blackbox" [overflowWeek] Role.retailer).net =
      F64.ninf := by
    show fsub (F64.fin (-halfBig)) (F64.fin halfBig) = _
    rw [fsub_fin]
    exact rnd_ninf_of_le (by linarith)
  have hOut : (handlerStepsF sqrtApproxF "blackbox" [overflowWeek] Role.retailer).outstanding =
      F64.fin 5 := by
    show fadd (F64.fin 0) (F64.fin 5) = _
    rw [fadd_fin, rnd_five]
  have hS : (handlerStepsF sqrtApproxF "blackbox" [overflowWeek] Role.retailer).S =
      F64.ninf := overflow_S _ _ _
  rw [stepsF_desired, hS, stepsF_IP, hNet, hOut]
  rfl

theorem overflowWeek_order :
    handlerF sqrtApproxF "blackbox" [overflowWeek] Role.retailer = F64.fin 0 := by
  apply handlerF_of_smoothed_nan
  rw [stepsF_smoothed, overflowWeek_desired]
  have : fmul (F64.fin (1 / 2)) F64.nan = F64.nan := rfl
  rw [this, fadd_nan_left]

theorem overflowWeekFlat_order :
    handlerF sqrtApproxF "blackbox" [overflowWeekFlat] Role.retailer = F64.fin 5 := by
  have hNet : (handlerStepsF sqrtApproxF "blackbox" [overflowWeekFlat] Role.retailer).net =
      F64.fin 0 := by
    show fsub (F64.fin 0) (F64.fin 0) = _
    rw [fsub_fin, sub_self, rnd_zero]
  have hOut : (handlerStepsF sqrtApproxF "blackbox" [overflowWeekFlat]
      Role.retailer).outstanding = F64.fin 5 := by
    show fadd (F64.fin 0) (F64.fin 5) = _
    rw [fadd_fin, rnd_five]
  have hS : (handlerStepsF sqrtApproxF "blackbox" [overflowWeekFlat] Role.retailer).S =
      F64.ninf := overflow_S _ _ _
  have hPrev : (handlerStepsF sqrtApproxF "blackbox" [overflowWeekFlat]
      Role.retailer).prevOrder = F64.fin 5 := rfl
  have hDes : (handlerStepsF sqrtApproxF "blackbox" [overflowWeekFlat]
      Role.retailer).desired = F64.ninf := by
    rw [stepsF_desired, hS, stepsF_IP, hNet, hOut, fadd_fin, rnd_five]
    rfl
  have e_half : rnd (1 - 1 / 2) = F64.fin (1 / 2) := by
    have hv : (1 - 1 / 2 : ℚ) = 1 / 2 := by norm_num
    rw [hv]
    exact rnd_dyadic (1 / 2) 1 1 (by norm_num) (by norm_num) (by norm_num)
  have e_m2 : rnd (1 / 2 * 5) = F64.fin (5 / 2) := by
    have hv : (1 / 2 * 5 : ℚ) = 5 / 2 := by norm_num
    rw [hv]
    exact rnd_dyadic (5 / 2) 5 1 (by norm_num) (by norm_num) (by norm_num)
  have hSm : (handlerStepsF sqrtApproxF "blackbox" [overflowWeekFlat]
      Role.retailer).smoothed = F64.ninf := by
    rw [stepsF_smoothed, hDes, hPrev, fsub_fin, e_half, fmul_fin, e_m2]
    have : fmul (F64.fin (1 / 2)) F64.ninf = F64.ninf := by
      simp only [fmul, mulInf]
      norm_num
    rw [this]
    rfl
  obtain ⟨hUp, hDown⟩ := overflow_limits sqrtApproxF 0 0 5
  have e_lo : rnd (5 - 0) = F64.fin 5 := by
    rw [sub_zero]
    exact rnd_dyadic 5 5 0 (by norm_num) (by norm_num) (by norm_num)
  have e_hi : rnd (5 + 0) = F64.fin 5 := by
    rw [add_zero]
    exact rnd_dyadic 5 5 0 (by norm_num) (by norm_num) (by norm_num)
  have e_r : rnd (5 + 1 / 2) = F64.fin (11 / 2) := by
    have hv : (5 + 1 / 2 : ℚ) = 11 / 2 := by norm_num
    rw [hv]
    exact rnd_dyadic (11 / 2) 11 1 (by norm_num) (by norm_num) (by norm_num)
  unfold handlerF
  rw [stepsF_result, hSm, hPrev]
  show iroundF (clampF F64.ninf
    (fsub (F64.fin 5) (handlerStepsF sqrtApproxF "blackbox"
      [retailerWeek (-halfBig) 0 0 5] Role.retailer).down)
    (fadd (F64.fin 5) (handlerStepsF sqrtApproxF "blackbox"
      [retailerWeek (-halfBig) 0 0 5] Role.retailer).up)) = _
  rw [hUp, hDown, fsub_fin, e_lo, fadd_fin, e_hi]
  have hc : clampF F64.ninf (F64.fin 5) (F64.fin 5) = F64.fin 5 := by
    simp [clampF, fmin, fmax, flt]
  rw [hc]
  exact iroundF_eval 5 (11 / 2) 5 e_r (by norm_num) ⟨5, by norm_num⟩ (by norm_num)
    (by norm_num)

theorem overflowWeek_eraseStock :
    eraseStock Role.retailer overflowWeek = eraseStock Role.retailer overflowWeekFlat := by
  simp only [overflowWeek, overflowWeekFlat, retailerWeek, eraseStock, Option.map]
  congr 3
  funext r
  cases r <;> simp

/-! ## The steady example -/

theorem steady_trace_ten :
    (handlerStepsF sqrtApproxF "blackbox" [retailerWeek 4 10 0 5] Role.retailer).prevOrder = F64.fin 5 ∧
    (handlerStepsF sqrtApproxF "blackbox" [retailerWeek 4 10 0 5] Role.retailer).up = F64.fin 4 ∧
    (handlerStepsF sqrtApproxF "blackbox" [retailerWeek 4 10 0 5] Role.retailer).down = F64.fin 5 ∧
    (handlerStepsF sqrtApproxF "blackbox" [retailerWeek 4 10 0 5] Role.retailer).smoothed = F64.fin 1 := by
  have hb : big = (2 : ℚ) ^ (1024 : ℕ) := by unfold big; rfl
  have e_s1 : rnd (4 * 3) = F64.fin 12 := by
    have hv : (4 * 3 : ℚ) = 12 := by
      norm_num
    rw [hv]
    exact rnd_dyadic 12 12 0 (by norm_num) (by norm_num) (by norm_num)
  have e_s2 : rnd (12 + 0) = F64.fin 12 := by
    have hv : (12 + 0 : ℚ) = 12 := by
      norm_num
    rw [hv]
    exact rnd_dyadic 12 12 0 (by norm_num) (by norm_num) (by norm_num)
  have e_half : rnd (1 - 1 / 2) = F64.fin (1 / 2) := by
    have hv : (1 - 1 / 2 : ℚ) = (1 / 2) := by
      norm_num
    rw [hv]
    exact rnd_dyadic (1 / 2) 1 1 (by norm_num) (by norm_num) (by norm_num)
  have e_u1 : rnd (1 / 2 * 4) = F64.fin 2 := by
    have hv : (1 / 2 * 4 : ℚ) = 2 := by
      norm_num
    rw [hv]
    exact rnd_dyadic 2 2 0 (by norm_num) (by norm_num) (by norm_num)
  have e_u2 : rnd (2 + 2) = F64.fin 4 := by
    have hv : (2 + 2 : ℚ) = 4 := by
      norm_num
    rw [hv]
    exact rnd_dyadic 4 4 0 (by norm_num) (by norm_num) (by norm_num)
  have e_u3 : rnd (4 + 1 / 2) = F64.fin (9 / 2) := by
    have hv : (4 + 1 / 2 : ℚ) = (9 / 2) := by
      norm_num
    rw [hv]
    exact rnd_dyadic (9 / 2) 9 1 (by norm_num) (by norm_num) (by norm_num)
  have e_d1 : rnd (c07 * 4) = F64.fin (3152519739159347 / 1125899906842624) := by
    have hv : (c07 * 4 : ℚ) = (3152519739159347 / 1125899906842624) := by
      unfold c07
      norm_num
    rw [hv]
    exact rnd_dyadic (3152519739159347 / 1125899906842624) 3152519739159347 50 (by norm_num) (by norm_num) (by norm_num)
  have e_d2 : rnd ((3152519739159347 / 1125899906842624) + 2) = F64.fin (5404319552844595 / 1125899906842624) := by
    have hv : ((3152519739159347 / 1125899906842624) + 2 : ℚ) = (5404319552844595 / 1125899906842624) := by
      norm_num
    rw [hv]
    exact rnd_dyadic (5404319552844595 / 1125899906842624) 5404319552844595 50 (by norm_num) (by norm_num) (by norm_num)
  have e_d3 : rnd ((5404319552844595 / 1125899906842624) + 1 / 2) = F64.fin (5967269506265907 / 1125899906842624) := by
    have hv : ((5404319552844595 / 1125899906842624) + 1 / 2 : ℚ) = (5967269506265907 / 1125899906842624) := by
      norm_num
    rw [hv]
    exact rnd_dyadic (5967269506265907 / 1125899906842624) 5967269506265907 50 (by norm_num) (by norm_num) (by norm_num)
  have e_out : rnd (0 + 5) = F64.fin 5 := by
    have hv : (0 + 5 : ℚ) = 5 := by
      norm_num
    rw [hv]
    exact rnd_dyadic 5 5 0 (by norm_num) (by norm_num) (by norm_num)
  have e_m2 : rnd ((1 / 2) * 5) = F64.fin (5 / 2) := by
    have hv : ((1 / 2) * 5 : ℚ) = (5 / 2) := by
      norm_num
    rw [hv]
    exact rnd_dyadic (5 / 2) 5 1 (by norm_num) (by norm_num) (by norm_num)
  have e_net : rnd (10 - 0) = F64.fin 10 := by
    have hv : (10 - 0 : ℚ) = 10 := by
      norm_num
    rw [hv]
    exact rnd_dyadic 10 10 0 (by norm_num) (by norm_num) (by norm_num)
  have e_ip : rnd (10 + 5) = F64.fin 15 := by
    have hv : (10 + 5 : ℚ) = 15 := by
      norm_num
    rw [hv]
    exact rnd_dyadic 15 15 0 (by norm_num) (by norm_num) (by norm_num)
  have e_des : rnd (12 - 15) = F64.fin (-3) := by
    have hv : (12 - 15 : ℚ) = (-3) := by
      norm_num
    rw [hv]
    exact rnd_dyadic (-3) (-3) 0 (by norm_num) (by norm_num) (by norm_num)
  have e_m1 : rnd (1 / 2 * (-3)) = F64.fin (-(3 / 2)) := by
    have hv : (1 / 2 * (-3) : ℚ) = (-(3 / 2)) := by
      norm_num
    rw [hv]
    exact rnd_dyadic (-(3 / 2)) (-3) 1 (by norm_num) (by norm_num) (by norm_num)
  have e_sm : rnd ((-(3 / 2)) + (5 / 2)) = F64.fin 1 := by
    have hv : ((-(3 / 2)) + (5 / 2) : ℚ) = 1 := by
      norm_num
    rw [hv]
    exact rnd_dyadic 1 1 0 (by norm_num) (by norm_num) (by norm_num)
  have hF : (handlerStepsF sqrtApproxF "blackbox" [retailerWeek 4 10 0 5] Role.retailer).forecast = F64.fin 4 := rfl
  have hPrev : (handlerStepsF sqrtApproxF "blackbox" [retailerWeek 4 10 0 5] Role.retailer).prevOrder = F64.fin 5 := rfl
  have hNet : (handlerStepsF sqrtApproxF "blackbox" [retailerWeek 4 10 0 5] Role.retailer).net = F64.fin 10 := by
    show fsub (F64.fin 10) (F64.fin 0) = _
    rw [fsub_fin, e_net]
  have hOut : (handlerStepsF sqrtApproxF "blackbox" [retailerWeek 4 10 0 5] Role.retailer).outstanding = F64.fin 5 := by
    show fadd (F64.fin 0) (F64.fin 5) = _
    rw [fadd_fin, e_out]
  have hIP : (handlerStepsF sqrtApproxF "blackbox" [retailerWeek 4 10 0 5] Role.retailer).IP = F64.fin 15 := by
    rw [stepsF_IP, hNet, hOut, fadd_fin, e_ip]
  have hS : (handlerStepsF sqrtApproxF "blackbox" [retailerWeek 4 10 0 5] Role.retailer).S = F64.fin 12 := by
    have h := oneWeek_S sqrtApproxF 4 10 0 5 sqrtApproxF_three
    rw [fmul_fin, e_s1, fadd_fin, e_s2] at h
    exact h
  have hDes : (handlerStepsF sqrtApproxF "blackbox" [retailerWeek 4 10 0 5] Role.retailer).desired = F64.fin (-3) := by
    rw [stepsF_desired, hS, hIP, fsub_fin, e_des]
  have hSm : (handlerStepsF sqrtApproxF "blackbox" [retailerWeek 4 10 0 5] Role.retailer).smoothed = F64.fin 1 := by
    rw [stepsF_smoothed, hDes, hPrev, fmul_fin, e_m1, fsub_fin, e_half, fmul_fin, e_m2,
      fadd_fin, e_sm]
  have hUp : (handlerStepsF sqrtApproxF "blackbox" [retailerWeek 4 10 0 5] Role.retailer).up = F64.fin 4 := by
    rw [stepsF_up, hF, fmul_fin, e_u1, fadd_fin, e_u2]
    exact iroundF_eval _ _ 4 e_u3 (by norm_num) ⟨4, by norm_num⟩ (by norm_num) (by norm_num)
  have hDown : (handlerStepsF sqrtApproxF "blackbox" [retailerWeek 4 10 0 5] Role.retailer).down = F64.fin 5 := by
    rw [stepsF_down, hF, fmul_fin, e_d1, fadd_fin, e_d2]
    exact iroundF_eval _ _ 5 e_d3 (by norm_num) ⟨5, by norm_num⟩ (by norm_num) (by norm_num)
  exact ⟨hPrev, hUp, hDown, hSm⟩

theorem steady_trace_twenty :
    (handlerStepsF sqrtApproxF "blackbox" [retailerWeek 4 10 0 20] Role.retailer).prevOrder = F64.fin 20 ∧
    (handlerStepsF sqrtApproxF "blackbox" [retailerWeek 4 10 0 20] Role.retailer).up = F64.fin 4 ∧
    (handlerStepsF sqrtApproxF "blackbox" [retailerWeek 4 10 0 20] Role.retailer).down = F64.fin 5 ∧
    (handlerStepsF sqrtApproxF "blackbox" [retailerWeek 4 10 0 20] Role.retailer).smoothed = F64.fin 1 := by
  have hb : big = (2 : ℚ) ^ (1024 : ℕ) := by unfold big; rfl
  have e_s1 : rnd (4 * 3) = F64.fin 12 := by
    have hv : (4 * 3 : ℚ) = 12 := by
      norm_num
    rw [hv]
    exact rnd_dyadic 12 12 0 (by norm_num) (by norm_num) (by norm_num)
  have e_s2 : rnd (12 + 0) = F64.fin 12 := by
    have hv : (12 + 0 : ℚ) = 12 := by
      norm_num
    rw [hv]
    exact rnd_dyadic 12 12 0 (by norm_num) (by norm_num) (by norm_num)
  have e_half : rnd (1 - 1 / 2) = F64.fin (1 / 2) := by
    have hv : (1 - 1 / 2 : ℚ) = (1 / 2) := by
      norm_num
    rw [hv]
    exact rnd_dyadic (1 / 2) 1 1 (by norm_num) (by norm_num) (by norm_num)
  have e_u1 : rnd (1 / 2 * 4) = F64.fin 2 := by
    have hv : (1 / 2 * 4 : ℚ) = 2 := by
      norm_num
    rw [hv]
    exact rnd_dyadic 2 2 0 (by norm_num) (by norm_num) (by norm_num)
  have e_u2 : rnd (2 + 2) = F64.fin 4 := by
    have hv : (2 + 2 : ℚ) = 4 := by
      norm_num
    rw [hv]
    exact rnd_dyadic 4 4 0 (by norm_num) (by norm_num) (by norm_num)
  have e_u3 : rnd (4 + 1 / 2) = F64.fin (9 / 2) := by
    have hv : (4 + 1 / 2 : ℚ) = (9 / 2) := by
      norm_num
    rw [hv]
    exact rnd_dyadic (9 / 2) 9 1 (by norm_num) (by norm_num) (by norm_num)
  have e_d1 : rnd (c07 * 4) = F64.fin (3152519739159347 / 1125899906842624) := by
    have hv : (c07 * 4 : ℚ) = (3152519739159347 / 1125899906842624) := by
      unfold c07
      norm_num
    rw [hv]
    exact rnd_dyadic (3152519739159347 / 1125899906842624) 3152519739159347 50 (by norm_num) (by norm_num) (by norm_num)
  have e_d2 : rnd ((3152519739159347 / 1125899906842624) + 2) = F64.fin (5404319552844595 / 1125899906842624) := by
    have hv : ((3152519739159347 / 1125899906842624) + 2 : ℚ) = (5404319552844595 / 1125899906842624) := by
      norm_num
    rw [hv]
    exact rnd_dyadic (5404319552844595 / 1125899906842624) 5404319552844595 50 (by norm_num) (by norm_num) (by norm_num)
  have e_d3 : rnd ((5404319552844595 / 1125899906842624) + 1 / 2) = F64.fin (5967269506265907 / 1125899906842624) := by
    have hv : ((5404319552844595 / 1125899906842624) + 1 / 2 : ℚ) = (5967269506265907 / 1125899906842624) := by
      norm_num
    rw [hv]
    exact rnd_dyadic (5967269506265907 / 1125899906842624) 5967269506265907 50 (by norm_num) (by norm_num) (by norm_num)
  have e_out : rnd (0 + 20) = F64.fin 20 := by
    have hv : (0 + 20 : ℚ) = 20 := by
      norm_num
    rw [hv]
    exact rnd_dyadic 20 20 0 (by norm_num) (by norm_num) (by norm_num)
  have e_m2 : rnd ((1 / 2) * 20) = F64.fin 10 := by
    have hv : ((1 / 2) * 20 : ℚ) = 10 := by
      norm_num
    rw [hv]
    exact rnd_dyadic 10 10 0 (by norm_num) (by norm_num) (by norm_num)
  have e_net : rnd (10 - 0) = F64.fin 10 := by
    have hv : (10 - 0 : ℚ) = 10 := by
      norm_num
    rw [hv]
    exact rnd_dyadic 10 10 0 (by norm_num) (by norm_num) (by norm_num)
  have e_ip : rnd (10 + 20) = F64.fin 30 := by
    have hv : (10 + 20 : ℚ) = 30 := by
      norm_num
    rw [hv]
    exact rnd_dyadic 30 30 0 (by norm_num) (by norm_num) (by norm_num)
  have e_des : rnd (12 - 30) = F64.fin (-18) := by
    have hv : (12 - 30 : ℚ) = (-18) := by
      norm_num
    rw [hv]
    exact rnd_dyadic (-18) (-18) 0 (by norm_num) (by norm_num) (by norm_num)
  have e_m1 : rnd (1 / 2 * (-18)) = F64.fin (-9) := by
    have hv : (1 / 2 * (-18) : ℚ) = (-9) := by
      norm_num
    rw [hv]
    exact rnd_dyadic (-9) (-9) 0 (by norm_num) (by norm_num) (by norm_num)
  have e_sm : rnd ((-9) + 10) = F64.fin 1 := by
    have hv : ((-9) + 10 : ℚ) = 1 := by
      norm_num
    rw [hv]
    exact rnd_dyadic 1 1 0 (by norm_num) (by norm_num) (by norm_num)
  have hF : (handlerStepsF sqrtApproxF "blackbox" [retailerWeek 4 10 0 20] Role.retailer).forecast = F64.fin 4 := rfl
  have hPrev : (handlerStepsF sqrtApproxF "blackbox" [retailerWeek 4 10 0 20] Role.retailer).prevOrder = F64.fin 20 := rfl
  have hNet : (handlerStepsF sqrtApproxF "blackbox" [retailerWeek 4 10 0 20] Role.retailer).net = F64.fin 10 := by
    show fsub (F64.fin 10) (F64.fin 0) = _
    rw [fsub_fin, e_net]
  have hOut : (handlerStepsF sqrtApproxF "blackbox" [retailerWeek 4 10 0 20] Role.retailer).outstanding = F64.fin 20 := by
    show fadd (F64.fin 0) (F64.fin 20) = _
    rw [fadd_fin, e_out]
  have hIP : (handlerStepsF sqrtApproxF "blackbox" [retailerWeek 4 10 0 20] Role.retailer).IP = F64.fin 30 := by
    rw [stepsF_IP, hNet, hOut, fadd_fin, e_ip]
  have hS : (handlerStepsF sqrtApproxF "blackbox" [retailerWeek 4 10 0 20] Role.retailer).S = F64.fin 12 := by
    have h := oneWeek_S sqrtApproxF 4 10 0 20 sqrtApproxF_three
    rw [fmul_fin, e_s1, fadd_fin, e_s2] at h
    exact h
  have hDes : (handlerStepsF sqrtApproxF "blackbox" [retailerWeek 4 10 0 20] Role.retailer).desired = F64.fin (-18) := by
    rw [stepsF_desired, hS, hIP, fsub_fin, e_des]
  have hSm : (handlerStepsF sqrtApproxF "blackbox" [retailerWeek 4 10 0 20] Role.retailer).smoothed = F64.fin 1 := by
    rw [stepsF_smoothed, hDes, hPrev, fmul_fin, e_m1, fsub_fin, e_half, fmul_fin, e_m2,
      fadd_fin, e_sm]
  have hUp : (handlerStepsF sqrtApproxF "blackbox" [retailerWeek 4 10 0 20] Role.retailer).up = F64.fin 4 := by
    rw [stepsF_up, hF, fmul_fin, e_u1, fadd_fin, e_u2]
    exact iroundF_eval _ _ 4 e_u3 (by norm_num) ⟨4, by norm_num⟩ (by norm_num) (by norm_num)
  have hDown : (handlerStepsF sqrtApproxF "blackbox" [retailerWeek 4 10 0 20] Role.retailer).down = F64.fin 5 := by
    rw [stepsF_down, hF, fmul_fin, e_d1, fadd_fin, e_d2]
    exact iroundF_eval _ _ 5 e_d3 (by norm_num) ⟨5, by norm_num⟩ (by norm_num) (by norm_num)
  exact ⟨hPrev, hUp, hDown, hSm⟩

theorem steady_trace_five :
    (handlerStepsF sqrtApproxF "blackbox" [retailerWeek 4 5 0 5] Role.retailer).smoothed = F64.fin (7 / 2) ∧
    (handlerStepsF sqrtApproxF "blackbox" [retailerWeek 4 5 0 5] Role.retailer).limited = F64.fin (7 / 2) := by
  have hb : big = (2 : ℚ) ^ (1024 : ℕ) := by unfold big; rfl
  have e_s1 : rnd (4 * 3) = F64.fin 12 := by
    have hv : (4 * 3 : ℚ) = 12 := by
      norm_num
    rw [hv]
    exact rnd_dyadic 12 12 0 (by norm_num) (by norm_num) (by norm_num)
  have e_s2 : rnd (12 + 0) = F64.fin 12 := by
    have hv : (12 + 0 : ℚ) = 12 := by
      norm_num
    rw [hv]
    exact rnd_dyadic 12 12 0 (by norm_num) (by norm_num) (by norm_num)
  have e_half : rnd (1 - 1 / 2) = F64.fin (1 / 2) := by
    have hv : (1 - 1 / 2 : ℚ) = (1 / 2) := by
      norm_num
    rw [hv]
    exact rnd_dyadic (1 / 2) 1 1 (by norm_num) (by norm_num) (by norm_num)
  have e_u1 : rnd (1 / 2 * 4) = F64.fin 2 := by
    have hv : (1 / 2 * 4 : ℚ) = 2 := by
      norm_num
    rw [hv]
    exact rnd_dyadic 2 2 0 (by norm_num) (by norm_num) (by norm_num)
  have e_u2 : rnd (2 + 2) = F64.fin 4 := by
    have hv : (2 + 2 : ℚ) = 4 := by
      norm_num
    rw [hv]
    exact rnd_dyadic 4 4 0 (by norm_num) (by norm_num) (by norm_num)
  have e_u3 : rnd (4 + 1 / 2) = F64.fin (9 / 2) := by
    have hv : (4 + 1 / 2 : ℚ) = (9 / 2) := by
      norm_num
    rw [hv]
    exact rnd_dyadic (9 / 2) 9 1 (by norm_num) (by norm_num) (by norm_num)
  have e_d1 : rnd (c07 * 4) = F64.fin (3152519739159347 / 1125899906842624) := by
    have hv : (c07 * 4 : ℚ) = (3152519739159347 / 1125899906842624) := by
      unfold c07
      norm_num
    rw [hv]
    exact rnd_dyadic (3152519739159347 / 1125899906842624) 3152519739159347 50 (by norm_num) (by norm_num) (by norm_num)
  have e_d2 : rnd ((3152519739159347 / 1125899906842624) + 2) = F64.fin (5404319552844595 / 1125899906842624) := by
    have hv : ((3152519739159347 / 1125899906842624) + 2 : ℚ) = (5404319552844595 / 1125899906842624) := by
      norm_num
    rw [hv]
    exact rnd_dyadic (5404319552844595 / 1125899906842624) 5404319552844595 50 (by norm_num) (by norm_num) (by norm_num)
  have e_d3 : rnd ((5404319552844595 / 1125899906842624) + 1 / 2) = F64.fin (5967269506265907 / 1125899906842624) := by
    have hv : ((5404319552844595 / 1125899906842624) + 1 / 2 : ℚ) = (5967269506265907 / 1125899906842624) := by
      norm_num
    rw [hv]
    exact rnd_dyadic (5967269506265907 / 1125899906842624) 5967269506265907 50 (by norm_num) (by norm_num) (by norm_num)
  have e_out : rnd (0 + 5) = F64.fin 5 := by
    have hv : (0 + 5 : ℚ) = 5 := by
      norm_num
    rw [hv]
    exact rnd_dyadic 5 5 0 (by norm_num) (by norm_num) (by norm_num)
  have e_m2 : rnd ((1 / 2) * 5) = F64.fin (5 / 2) := by
    have hv : ((1 / 2) * 5 : ℚ) = (5 / 2) := by
      norm_num
    rw [hv]
    exact rnd_dyadic (5 / 2) 5 1 (by norm_num) (by norm_num) (by norm_num)
  have e_net : rnd (5 - 0) = F64.fin 5 := by
    have hv : (5 - 0 : ℚ) = 5 := by
      norm_num
    rw [hv]
    exact rnd_dyadic 5 5 0 (by norm_num) (by norm_num) (by norm_num)
  have e_ip : rnd (5 + 5) = F64.fin 10 := by
    have hv : (5 + 5 : ℚ) = 10 := by
      norm_num
    rw [hv]
    exact rnd_dyadic 10 10 0 (by norm_num) (by norm_num) (by norm_num)
  have e_des : rnd (12 - 10) = F64.fin 2 := by
    have hv : (12 - 10 : ℚ) = 2 := by
      norm_num
    rw [hv]
    exact rnd_dyadic 2 2 0 (by norm_num) (by norm_num) (by norm_num)
  have e_m1 : rnd (1 / 2 * 2) = F64.fin 1 := by
    have hv : (1 / 2 * 2 : ℚ) = 1 := by
      norm_num
    rw [hv]
    exact rnd_dyadic 1 1 0 (by norm_num) (by norm_num) (by norm_num)
  have e_sm : rnd (1 + (5 / 2)) = F64.fin (7 / 2) := by
    have hv : (1 + (5 / 2) : ℚ) = (7 / 2) := by
      norm_num
    rw [hv]
    exact rnd_dyadic (7 / 2) 7 1 (by norm_num) (by norm_num) (by norm_num)
  have hF : (handlerStepsF sqrtApproxF "blackbox" [retailerWeek 4 5 0 5] Role.retailer).forecast = F64.fin 4 := rfl
  have hPrev : (handlerStepsF sqrtApproxF "blackbox" [retailerWeek 4 5 0 5] Role.retailer).prevOrder = F64.fin 5 := rfl
  have hNet : (handlerStepsF sqrtApproxF "blackbox" [retailerWeek 4 5 0 5] Role.retailer).net = F64.fin 5 := by
    show fsub (F64.fin 5) (F64.fin 0) = _
    rw [fsub_fin, e_net]
  have hOut : (handlerStepsF sqrtApproxF "blackbox" [retailerWeek 4 5 0 5] Role.retailer).outstanding = F64.fin 5 := by
    show fadd (F64.fin 0) (F64.fin 5) = _
    rw [fadd_fin, e_out]
  have hIP : (handlerStepsF sqrtApproxF "blackbox" [retailerWeek 4 5 0 5] Role.retailer).IP = F64.fin 10 := by
    rw [stepsF_IP, hNet, hOut, fadd_fin, e_ip]
  have hS : (handlerStepsF sqrtApproxF "blackbox" [retailerWeek 4 5 0 5] Role.retailer).S = F64.fin 12 := by
    have h := oneWeek_S sqrtApproxF 4 5 0 5 sqrtApproxF_three
    rw [fmul_fin, e_s1, fadd_fin, e_s2] at h
    exact h
  have hDes : (handlerStepsF sqrtApproxF "blackbox" [retailerWeek 4 5 0 5] Role.retailer).desired = F64.fin 2 := by
    rw [stepsF_desired, hS, hIP, fsub_fin, e_des]
  have hSm : (handlerStepsF sqrtApproxF "blackbox" [retailerWeek 4 5 0 5] Role.retailer).smoothed = F64.fin (7 / 2) := by
    rw [stepsF_smoothed, hDes, hPrev, fmul_fin, e_m1, fsub_fin, e_half, fmul_fin, e_m2,
      fadd_fin, e_sm]
  have hUp : (handlerStepsF sqrtApproxF "blackbox" [retailerWeek 4 5 0 5] Role.retailer).up = F64.fin 4 := by
    rw [stepsF_up, hF, fmul_fin, e_u1, fadd_fin, e_u2]
    exact iroundF_eval _ _ 4 e_u3 (by norm_num) ⟨4, by norm_num⟩ (by norm_num) (by norm_num)
  have hDown : (handlerStepsF sqrtApproxF "blackbox" [retailerWeek 4 5 0 5] Role.retailer).down = F64.fin 5 := by
    rw [stepsF_down, hF, fmul_fin, e_d1, fadd_fin, e_d2]
    exact iroundF_eval _ _ 5 e_d3 (by norm_num) ⟨5, by norm_num⟩ (by norm_num) (by norm_num)
  have e_lo : rnd (5 - 5) = F64.fin 0 := by
    rw [sub_self, rnd_zero]
  have e_hi : rnd (5 + 4) = F64.fin 9 := by
    have hv : (5 + 4 : ℚ) = 9 := by norm_num
    rw [hv]
    exact rnd_dyadic 9 9 0 (by norm_num) (by norm_num) (by norm_num)
  refine ⟨hSm, ?_⟩
  rw [stepsF_limited, hSm, hPrev, hUp, hDown, fsub_fin, e_lo, fadd_fin, e_hi]
  unfold clampF
  rw [fmin_fin_fin, fmax_fin_fin]
  congr 1
  norm_num

/-! ## Short histories in binary64 -/

theorem stepsF_L_short (sqrt : F64 → F64) (mode : String) (weeks : History) (role : Role)
    (h5 : weeks.length ≤ 5) : (handlerStepsF sqrt mode weeks role).L = 2 := by
  have hla : (seriesFor weeks role).a.length = weeks.length := by simp [seriesFor]
  have hlo : (seriesFor weeks role).o.length = weeks.length := by simp [seriesFor]
  have hlt : min (seriesFor weeks role).a.length (seriesFor weeks role).o.length < 6 := by
    rw [hla, hlo, min_self]
    omega
  rw [stepsF_L]
  simp only [estimateLeadTimeF, if_pos hlt]

theorem stepsF_outstanding_short (sqrt : F64 → F64) (mode : String) (weeks : History)
    (role : Role) (h1 : 1 ≤ weeks.length) (h5 : weeks.length ≤ 5) :
    (handlerStepsF sqrt mode weeks role).outstanding =
      fadd (F64.fin 0) (handlerStepsF sqrt mode weeks role).prevOrder := by
  have hlo : (seriesFor weeks role).o.length = weeks.length := by simp [seriesFor]
  have h1o : 1 ≤ (seriesFor weeks role).o.length := by
    rw [hlo]
    exact h1
  rw [stepsF_outstanding, stepsF_L_short sqrt mode weeks role h5, stepsF_prevOrder, if_pos h1o]
  simp [outstandingF, List.range', h1o]

theorem onGrid_rnd (v : ℚ) (m : ℤ) (hv : v * (2 : ℚ) ^ (21 : ℕ) = (m : ℚ))
    (h1 : -(2 : ℤ) ^ (52 : ℕ) ≤ m) (h2 : m ≤ (2 : ℤ) ^ (52 : ℕ)) : rnd v = F64.fin v :=
  rnd_dyadic v m 21 hv (by
    rw [abs_lt]
    constructor <;> omega) (by norm_num)

theorem stepsF_smoothed_exact (sqrt : F64 → F64) (mode : String) (weeks : History)
    (role : Role) (h1 : 1 ≤ weeks.length) (h5 : weeks.length ≤ 5) (f s i b p : ℚ)
    (hf : (handlerStepsF sqrt mode weeks role).forecast = F64.fin f)
    (hs : (handlerStepsF sqrt mode weeks role).safety = F64.fin s)
    (hi : (handlerStepsF sqrt mode weeks role).inventory = F64.fin i)
    (hb : (handlerStepsF sqrt mode weeks role).backlog = F64.fin b)
    (hp : (handlerStepsF sqrt mode weeks role).prevOrder = F64.fin p)
    (gf : OnGrid f) (gs : OnGrid s) (gi : OnGrid i) (gb : OnGrid b) (gp : OnGrid p) :
    (handlerStepsF sqrt mode weeks role).outstanding = F64.fin p ∧
    (handlerStepsF sqrt mode weeks role).smoothed = F64.fin ((3 * f + s - i + b) / 2) := by
  obtain ⟨mf, hmf, hf1, hf2⟩ := gf
  obtain ⟨ms, hms, hs1, hs2⟩ := gs
  obtain ⟨mi, hmi, hi1, hi2⟩ := gi
  obtain ⟨mb, hmb, hb1, hb2⟩ := gb
  obtain ⟨mp, hmp, hp1, hp2⟩ := gp
  have hL := stepsF_L_short sqrt mode weeks role h5
  have h3 : (((2 : ℕ) : ℚ) + 1) = 3 := by norm_num
  have e0 : rnd (0 + p) = F64.fin p := by
    rw [zero_add]
    exact onGrid_rnd p (2 * mp) (by push_cast; linear_combination 2 * hmp) (by omega) (by omega)
  have hout : (handlerStepsF sqrt mode weeks role).outstanding = F64.fin p := by
    rw [stepsF_outstanding_short sqrt mode weeks role h1 h5, hp, fadd_fin, e0]
  have e1 : rnd (f * 3) = F64.fin (f * 3) :=
    onGrid_rnd _ (6 * mf) (by push_cast; linear_combination 6 * hmf) (by omega) (by omega)
  have e2 : rnd (f * 3 + s) = F64.fin (f * 3 + s) :=
    onGrid_rnd _ (6 * mf + 2 * ms) (by push_cast; linear_combination 6 * hmf + 2 * hms)
      (by omega) (by omega)
  have e3 : rnd (i - b) = F64.fin (i - b) :=
    onGrid_rnd _ (2 * mi - 2 * mb) (by push_cast; linear_combination 2 * hmi - 2 * hmb)
      (by omega) (by omega)
  have e4 : rnd (i - b + p) = F64.fin (i - b + p) :=
    onGrid_rnd _ (2 * mi - 2 * mb + 2 * mp)
      (by push_cast; linear_combination 2 * hmi - 2 * hmb + 2 * hmp) (by omega) (by omega)
  have e5 : rnd (f * 3 + s - (i - b + p)) = F64.fin (f * 3 + s - (i - b + p)) :=
    onGrid_rnd _ (6 * mf + 2 * ms - (2 * mi - 2 * mb + 2 * mp))
      (by push_cast; linear_combination 6 * hmf + 2 * hms - 2 * hmi + 2 * hmb - 2 * hmp)
      (by omega) (by omega)
  have e6 : rnd (1 / 2 * (f * 3 + s - (i - b + p))) =
      F64.fin (1 / 2 * (f * 3 + s - (i - b + p))) :=
    onGrid_rnd _ (3 * mf + ms - (mi - mb + mp))
      (by push_cast; linear_combination 3 * hmf + hms - hmi + hmb - hmp)
      (by omega) (by omega)
  have e7 : rnd (1 - 1 / 2) = F64.fin (1 / 2) := by
    have hv : (1 - 1 / 2 : ℚ) = 1 / 2 := by norm_num
    rw [hv]
    exact rnd_dyadic (1 / 2) 1 1 (by norm_num) (by norm_num) (by norm_num)
  have e8 : rnd (1 / 2 * p) = F64.fin (1 / 2 * p) :=
    onGrid_rnd _ mp (by linear_combination hmp) (by omega) (by omega)
  have e9 : rnd (1 / 2 * (f * 3 + s - (i - b + p)) + 1 / 2 * p) =
      F64.fin (1 / 2 * (f * 3 + s - (i - b + p)) + 1 / 2 * p) :=
    onGrid_rnd _ (3 * mf + ms - (mi - mb + mp) + mp)
      (by push_cast; linear_combination 3 * hmf + hms - hmi + hmb)
      (by omega) (by omega)
  refine ⟨hout, ?_⟩
  rw [stepsF_smoothed, stepsF_desired, stepsF_S, stepsF_IP, stepsF_net, hf, hs, hi, hb, hout,
    hp, hL, h3, fmul_fin, e1, fadd_fin, e2, fsub_fin, e3, fadd_fin, e4, fsub_fin, e5, fmul_fin,
    e6, fsub_fin, e7, fmul_fin, e8, fadd_fin, e9]
  congr 1
  ring

/-- One update of the mean at an integer `z` of magnitude at most `2^50` with alpha `1/4`
is exact in binary64: `0.25*z + (1 - 0.25)*z` is `z`. -/
theorem quarter_update_int (z : ℤ) (hz : |z| ≤ (2 : ℤ) ^ (50 : ℕ)) :
    fadd (fmul (F64.fin (1 / 4)) (F64.fin (z : ℚ)))
      (fmul (fsub (F64.fin 1) (F64.fin (1 / 4))) (F64.fin (z : ℚ))) = F64.fin (z : ℚ) := by
  rw [abs_le] at hz
  have e1 : rnd (1 / 4 * (z : ℚ)) = F64.fin (1 / 4 * (z : ℚ)) :=
    rnd_dyadic _ z 2 (by ring) (by rw [abs_lt]; constructor <;> omega) (by norm_num)
  have e2 : rnd (1 - 1 / 4) = F64.fin (3 / 4) := by
    have hv : (1 - 1 / 4 : ℚ) = 3 / 4 := by norm_num
    rw [hv]
    exact rnd_dyadic (3 / 4) 3 2 (by norm_num) (by norm_num) (by norm_num)
  have e3 : rnd (3 / 4 * (z : ℚ)) = F64.fin (3 / 4 * (z : ℚ)) :=
    rnd_dyadic _ (3 * z) 2 (by push_cast; ring) (by rw [abs_lt]; constructor <;> omega)
      (by norm_num)
  have e4 : rnd (1 / 4 * (z : ℚ) + 3 / 4 * (z : ℚ)) = F64.fin (z : ℚ) := by
    have hv : (1 / 4 * (z : ℚ) + 3 / 4 * (z : ℚ)) = (z : ℚ) := by ring
    rw [hv]
    exact rnd_dyadic _ z 0 (by ring) (by rw [abs_lt]; constructor <;> omega) (by norm_num)
  rw [fmul_fin, e1, fsub_fin, e2, fmul_fin, e3, fadd_fin, e4]

/-! ## Facts used by the claims on concrete inputs -/

theorem windowMSE_const (a o : List ℚ) (n L : ℕ) (c : ℚ) (hv : 0 < (window n L).card)
    (hc : ∀ t ∈ window n L, (a.getD t 0 - o.getD (t - L) 0) ^ 2 = c) :
    windowMSE a o n L = c := by
  have hne : ((window n L).card : ℚ) ≠ 0 := by
    have : (window n L).card ≠ 0 := by omega
    exact_mod_cast this
  unfold windowMSE
  rw [Finset.sum_congr rfl hc, Finset.sum_const, nsmul_eq_mul]
  field_simp

theorem windowMSE_huge (L : ℕ) (hv : 0 < (window 6 L).card) :
    windowMSE hugeArrivals zeros6 6 L = huge ^ 2 := by
  apply windowMSE_const _ _ _ _ _ hv
  intro t ht
  simp only [window, Finset.mem_Ico] at ht
  rw [hugeArrivals_getD t ht.2, zeros6_getD, sub_zero]

/-- In the search with at least one candidate whose computed error is below `Infinity`, the
result is the first candidate of least computed error. -/
theorem searchF_argmin (a o : List ℚ) (n : ℕ)
    (hex : ∃ L, 1 ≤ L ∧ L ≤ 6 ∧ 0 < (window n L).card ∧ mseF a o n L ≠ F64.pinf) :
    1 ≤ (searchF a o n).bestL ∧ (searchF a o n).bestL ≤ 6 ∧
    0 < (window n (searchF a o n).bestL).card ∧
    (searchF a o n).bestErr = mseF a o n (searchF a o n).bestL ∧
    (searchF a o n).bestErr ≠ F64.pinf ∧
    (∀ L, 1 ≤ L → L ≤ 6 → 0 < (window n L).card →
      flt (mseF a o n L) (mseF a o n (searchF a o n).bestL) = false) ∧
    (∀ L, 1 ≤ L → L < (searchF a o n).bestL → 0 < (window n L).card →
      flt (mseF a o n (searchF a o n).bestL) (mseF a o n L) = true) := by
  rcases bestInvF_search a o n with ⟨_, _, hall⟩ | ⟨hb1, hbk, hbv, hbe, hbne, hmin, hfirst⟩
  · obtain ⟨L, hL1, hL6, hLv, hLne⟩ := hex
    exact absurd (hall L hL1 (Nat.lt_succ_of_le hL6) hLv) hLne
  · refine ⟨hb1, Nat.lt_succ_iff.mp hbk, hbv, hbe, hbne, ?_, ?_⟩
    · intro L hL1 hL6 hLv
      rw [← hbe]
      exact hmin L hL1 (Nat.lt_succ_of_le hL6) hLv
    · intro L hL1 hLr hLv
      rw [← hbe]
      exact hfirst L hL1 hLr hLv

/-- In the search where every candidate with a non-empty window has the computed error
`Infinity`, `bestL` and `bestErr` keep their initial values. -/
theorem searchF_default (a o : List ℚ) (n : ℕ)
    (hall : ∀ L, 1 ≤ L → L ≤ 6 → 0 < (window n L).card → mseF a o n L = F64.pinf) :
    (searchF a o n).bestL = 2 ∧ (searchF a o n).bestErr = F64.pinf := by
  rcases bestInvF_search a o n with ⟨h2, htop, _⟩ | ⟨hb1, hbk, hbv, hbe, hbne, _, _⟩
  · exact ⟨h2, htop⟩
  · rw [hbe, hall _ hb1 (Nat.lt_succ_iff.mp hbk) hbv] at hbne
    exact absurd rfl hbne

/-- A lag with computed error `0` bounds the result of the search from above, and the
result has computed error `0` too. -/
theorem searchF_le_of_zero (a o : List ℚ) (n L0 : ℕ) (h1 : 1 ≤ L0) (h6 : L0 ≤ 6)
    (hv : 0 < (window n L0).card) (h0 : mseF a o n L0 = F64.fin 0) :
    1 ≤ (searchF a o n).bestL ∧ (searchF a o n).bestL ≤ L0 ∧
    mseF a o n (searchF a o n).bestL = F64.fin 0 ∧
    (∀ L, 1 ≤ L → L < (searchF a o n).bestL → 0 < (window n L).card →
      mseF a o n L ≠ F64.fin 0) := by
  obtain ⟨hb1, _, _, _, _, hmin, hfirst⟩ := searchF_argmin a o n
    ⟨L0, h1, h6, hv, by rw [h0]; simp⟩
  have hz : mseF a o n (searchF a o n).bestL = F64.fin 0 := by
    have hm := hmin L0 h1 h6 hv
    rw [h0] at hm
    rcases mseF_nonNeg a o n (searchF a o n).bestL with hp | ⟨r, hr, hfin⟩
    · rw [hp] at hm
      simp [flt] at hm
    · rw [hfin] at hm ⊢
      simp only [flt, decide_eq_false_iff_not, not_lt] at hm
      have : r = 0 := le_antisymm hm hr
      rw [this]
  refine ⟨hb1, ?_, hz, ?_⟩
  · by_contra hgt
    have := hfirst L0 h1 (by omega) hv
    rw [hz, h0, flt_irrefl] at this
    exact absurd this (by simp)
  · intro L hL1 hLr hLv hcon
    have := hfirst L hL1 hLr hLv
    rw [hz, hcon, flt_irrefl] at this
    exact absurd this (by simp)

theorem sixArrivals2_fit : ∀ t ∈ window (min sixArrivals2.length sixOrders.length) 2,
    sixArrivals2.getD t 0 = sixOrders.getD (t - 2) 0 := by
  intro t ht
  have hmin : min sixArrivals2.length sixOrders.length = 6 := by decide
  rw [hmin] at ht
  simp only [window, Finset.mem_Ico] at ht
  obtain ⟨h1, h2⟩ := ht
  have h3 : 2 ≤ t := le_trans (le_max_left _ _) h1
  interval_cases t <;> rfl

theorem zeros12_getD (t : ℕ) : zeros12.getD t 0 = 0 := by
  by_cases ht : t < 12
  · interval_cases t <;> rfl
  · have hlen : zeros12.length ≤ t := by
      have : zeros12.length = 12 := rfl
      omega
    simp [List.getD_eq_getElem?_getD, List.getElem?_eq_none hlen]

theorem rampArrivals3_int (t : ℕ) : ∃ z : ℤ, rampArrivals3.getD t 0 = (z : ℚ) := by
  refine ⟨⌊rampArrivals3.getD t 0⌋, ?_⟩
  by_cases ht : t < 12
  · interval_cases t <;> simp [rampArrivals3]
  · have hlen : rampArrivals3.length ≤ t := by
      have : rampArrivals3.length = 12 := rfl
      omega
    simp [List.getD_eq_getElem?_getD, List.getElem?_eq_none hlen]

theorem rampOrders_int (t : ℕ) : ∃ z : ℤ, rampOrders.getD t 0 = (z : ℚ) := by
  refine ⟨⌊rampOrders.getD t 0⌋, ?_⟩
  by_cases ht : t < 12
  · interval_cases t <;> simp [rampOrders]
  · have hlen : rampOrders.length ≤ t := by
      have : rampOrders.length = 12 := rfl
      omega
    simp [List.getD_eq_getElem?_getD, List.getElem?_eq_none hlen]

theorem ramp_lag3 : ∀ t, 3 ≤ t → t < 12 →
    rampArrivals3.getD t 0 = rampOrders.getD (t - 3) 0 := by
  intro t h1 h2
  interval_cases t <;> rfl

theorem ramp_misfit : (∃ t ∈ window 12 1, rampArrivals3.getD t 0 ≠ rampOrders.getD (t - 1) 0) ∧
    (∃ t ∈ window 12 2, rampArrivals3.getD t 0 ≠ rampOrders.getD (t - 2) 0) := by
  constructor
  · refine ⟨1, by simp [window], ?_⟩
    simp [rampArrivals3, rampOrders]
  · refine ⟨2, by simp [window], ?_⟩
    simp [rampArrivals3, rampOrders]

theorem emaF_tenthDemand : emaF tenthDemand (F64.fin threeTenths) =
    F64.fin (7205759403792793 / 72057594037927936) := by
  have h : emaF tenthDemand (F64.fin threeTenths) =
      fadd (fmul (F64.fin threeTenths) (F64.fin tenth))
        (fmul (fsub (F64.fin 1) (F64.fin threeTenths)) (F64.fin tenth)) := by
    simp only [emaF, tenthDemand, emaFromF, if_true, Nat.zero_add, Nat.one_ne_zero, if_false,
      OfNat.ofNat_ne_zero]
  rw [h]
  exact tenth_update

/-! ## Claims -/

/-- C1: for every history and every mode, the order that the reply gives to each
of the four roles is a non-negative integer. -/
theorem handler_order_nonneg_integer (sqrt : ℚ → ℚ) (mode : String) (weeks : History)
    (role : Role) : ∃ k : ℕ, handler sqrt mode weeks role = (k : ℚ) := by
  rw [handler_eq_steps]
  exact iround_eq_natCast (JSVal.num (handlerSteps sqrt mode weeks role).limited)

/-- C2: for the empty history, in every mode, each role gets the order 0, with lead
time 2, forecast 0, mad 0, safety 0, S = IP = 0, desired 0 and smoothed 0. -/
theorem handler_empty_history (sqrt : ℚ → ℚ) (mode : String) (role : Role) :
    (handlerSteps sqrt mode [] role).L = 2 ∧
    (handlerSteps sqrt mode [] role).forecast = 0 ∧
    (handlerSteps sqrt mode [] role).mad = 0 ∧
    (handlerSteps sqrt mode [] role).safety = 0 ∧
    (handlerSteps sqrt mode [] role).S = 0 ∧
    (handlerSteps sqrt mode [] role).IP = 0 ∧
    (handlerSteps sqrt mode [] role).desired = 0 ∧
    (handlerSteps sqrt mode [] role).smoothed = 0 ∧
    handler sqrt mode [] role = 0 := by
  have hfl : ⌊(2⁻¹ : ℚ)⌋ = 0 := by
    rw [Int.floor_eq_iff]
    norm_num
  by_cases hm : mode = "glassbox" <;>
    simp [handler, computeOrder, handlerSteps, computeOrderSteps, globalStats, seriesFor, emaMad,
      emaMadFrom, estimateLeadTime, outstandingOf, lastWeek, roleEntry, inventoryOf, backlogOf,
      finiteOr0, iround, clamp, hm, hfl]

/-- C3: the concrete one-week scenario (retailer, own forecast): lead time 2,
forecast 4, mad 0, outstanding 4, IP 16, S 12, desired -4, prevOrder 4, smoothed 0,
up 4, down 5, clamp interval [-1, 8], clamped value 0 and final order 0. -/
theorem computeOrder_scenario (sqrt : ℚ → ℚ) (gf gm : ℚ) :
    (computeOrderSteps sqrt scenarioWeeks Role.retailer false gf gm).L = 2 ∧
    (computeOrderSteps sqrt scenarioWeeks Role.retailer false gf gm).forecast = 4 ∧
    (computeOrderSteps sqrt scenarioWeeks Role.retailer false gf gm).mad = 0 ∧
    (computeOrderSteps sqrt scenarioWeeks Role.retailer false gf gm).outstanding = 4 ∧
    (computeOrderSteps sqrt scenarioWeeks Role.retailer false gf gm).IP = 16 ∧
    (computeOrderSteps sqrt scenarioWeeks Role.retailer false gf gm).S = 12 ∧
    (computeOrderSteps sqrt scenarioWeeks Role.retailer false gf gm).desired = -4 ∧
    (computeOrderSteps sqrt scenarioWeeks Role.retailer false gf gm).prevOrder = 4 ∧
    (computeOrderSteps sqrt scenarioWeeks Role.retailer false gf gm).smoothed = 0 ∧
    (computeOrderSteps sqrt scenarioWeeks Role.retailer false gf gm).up = 4 ∧
    (computeOrderSteps sqrt scenarioWeeks Role.retailer false gf gm).down = 5 ∧
    (computeOrderSteps sqrt scenarioWeeks Role.retailer false gf gm).prevOrder -
      (computeOrderSteps sqrt scenarioWeeks Role.retailer false gf gm).down = -1 ∧
    (computeOrderSteps sqrt scenarioWeeks Role.retailer false gf gm).prevOrder +
      (computeOrderSteps sqrt scenarioWeeks Role.retailer false gf gm).up = 8 ∧
    (computeOrderSteps sqrt scenarioWeeks Role.retailer false gf gm).limited = 0 ∧
    computeOrder sqrt scenarioWeeks Role.retailer false gf gm = 0 := by
  have hfl0 : ⌊(2⁻¹ : ℚ)⌋ = 0 := by
    rw [Int.floor_eq_iff]
    norm_num
  have hfl4 : ⌊(1 / 2 * 4 + 2 + 1 / 2 : ℚ)⌋ = 4 := by
    rw [Int.floor_eq_iff]
    norm_num
  have hfl5 : ⌊(7 / 10 * 4 + 2 + 1 / 2 : ℚ)⌋ = 5 := by
    rw [Int.floor_eq_iff]
    norm_num
  simp [computeOrder, computeOrderSteps, scenarioWeeks, scenarioObs, seriesFor, emaMad,
    emaMadFrom, estimateLeadTime, outstandingOf, lastWeek, roleEntry, orderEntry, incomingOf,
    arrivingOf, inventoryOf, backlogOf, finiteOr0, iround, clamp, hfl0, hfl4, hfl5]
  norm_num

/-- C4, as stated, fails: in the one-week history where the retailer's previous order
is -100, the forecast is 0, so up = down = 2, the clamped value is -98 and the floor at 0
makes the order 0, which is 100 away from the previous order. -/
theorem rate_limit_fails_negative_prevOrder :
    (handlerSteps sqrtApprox "blackbox" negativeOrderWeeks Role.retailer).prevOrder = -100 ∧
    (handlerSteps sqrtApprox "blackbox" negativeOrderWeeks Role.retailer).up = 2 ∧
    (handlerSteps sqrtApprox "blackbox" negativeOrderWeeks Role.retailer).down = 2 ∧
    (handlerSteps sqrtApprox "blackbox" negativeOrderWeeks Role.retailer).limited = -98 ∧
    handler sqrtApprox "blackbox" negativeOrderWeeks Role.retailer = 0 ∧
    ¬ (|handler sqrtApprox "blackbox" negativeOrderWeeks Role.retailer -
          (handlerSteps sqrtApprox "blackbox" negativeOrderWeeks Role.retailer).prevOrder| ≤
        max (handlerSteps sqrtApprox "blackbox" negativeOrderWeeks Role.retailer).up
          (handlerSteps sqrtApprox "blackbox" negativeOrderWeeks Role.retailer).down) := by
  have hfl0 : ⌊(2⁻¹ : ℚ)⌋ = 0 := by
    rw [Int.floor_eq_iff]
    norm_num
  have hfl2 : ⌊((2 : ℚ) + 2⁻¹)⌋ = 2 := by
    rw [Int.floor_eq_iff]
    norm_num
  have hfl98 : ⌊(-98 + 2⁻¹ : ℚ)⌋ = -98 := by
    rw [Int.floor_eq_iff]
    norm_num
  simp [handler, computeOrder, handlerSteps, computeOrderSteps, globalStats, negativeOrderWeeks,
    seriesFor, emaMad, emaMadFrom, estimateLeadTime, outstandingOf, lastWeek, roleEntry,
    orderEntry, incomingOf, arrivingOf, inventoryOf, backlogOf, finiteOr0, iround, clamp,
    hfl0, hfl2, hfl98]
  norm_num [hfl98]

/-- C4, amended: in binary64, when the role's most recent own order is a natural number `k`,
the smoothed value is not `NaN` and `k + up < 2^52`, the order and the two limits are
natural numbers and `|order - prevOrder| ≤ max(up, down)`, with
up = iround(0.5*forecast + 2) and down = iround(0.7*forecast + 2). -/
theorem rate_limit_binary64 (sqrt : F64 → F64) (mode : String) (weeks : History) (role : Role)
    (k u : ℕ)
    (hk : (handlerStepsF sqrt mode weeks role).prevOrder = F64.fin (k : ℚ))
    (hu : (handlerStepsF sqrt mode weeks role).up = F64.fin (u : ℚ))
    (hb : k + u < 2 ^ (52 : ℕ))
    (hs : (handlerStepsF sqrt mode weeks role).smoothed ≠ F64.nan) :
    (handlerStepsF sqrt mode weeks role).up =
      iroundF (fadd (fmul (F64.fin (1 / 2)) (handlerStepsF sqrt mode weeks role).forecast)
        (F64.fin 2)) ∧
    (handlerStepsF sqrt mode weeks role).down =
      iroundF (fadd (fmul (F64.fin c07) (handlerStepsF sqrt mode weeks role).forecast)
        (F64.fin 2)) ∧
    ∃ o d : ℕ, handlerF sqrt mode weeks role = F64.fin (o : ℚ) ∧
      (handlerStepsF sqrt mode weeks role).down = F64.fin (d : ℚ) ∧
      |(o : ℤ) - (k : ℤ)| ≤ max (u : ℤ) (d : ℤ) := by
  obtain ⟨o, d, ho, hd, h1, h2⟩ := stepsF_band sqrt mode weeks role k u hk hu hb hs
  refine ⟨rfl, rfl, o, d, ho, hd, ?_⟩
  rw [abs_le]
  have h3 : (o : ℤ) ≤ (k : ℤ) + (u : ℤ) := by exact_mod_cast h2
  constructor
  · have := le_max_right (u : ℤ) (d : ℤ)
    omega
  · have := le_max_left (u : ℤ) (d : ℤ)
    omega

/-- Witness of C4 (amended): the retailer of the one-week history with demand 4, inventory 10,
backlog 0 and previous order 20, in blackbox mode (up = 4). -/
theorem rate_limit_binary64_witness :
    ((handlerStepsF sqrtApproxF "blackbox" [retailerWeek 4 10 0 20] Role.retailer).prevOrder =
        F64.fin ((20 : ℕ) : ℚ) ∧
      (handlerStepsF sqrtApproxF "blackbox" [retailerWeek 4 10 0 20] Role.retailer).up =
        F64.fin ((4 : ℕ) : ℚ) ∧
      20 + 4 < 2 ^ (52 : ℕ) ∧
      (handlerStepsF sqrtApproxF "blackbox" [retailerWeek 4 10 0 20] Role.retailer).smoothed ≠
        F64.nan) ∧
    ∃ o d : ℕ, handlerF sqrtApproxF "blackbox" [retailerWeek 4 10 0 20] Role.retailer =
        F64.fin (o : ℚ) ∧
      (handlerStepsF sqrtApproxF "blackbox" [retailerWeek 4 10 0 20] Role.retailer).down =
        F64.fin (d : ℚ) ∧
      |(o : ℤ) - ((20 : ℕ) : ℤ)| ≤ max (((4 : ℕ) : ℤ)) (d : ℤ) :=
  have hk : (handlerStepsF sqrtApproxF "blackbox" [retailerWeek 4 10 0 20]
      Role.retailer).prevOrder = F64.fin ((20 : ℕ) : ℚ) := by
    rw [steady_trace_twenty.1]
    norm_num
  have hu : (handlerStepsF sqrtApproxF "blackbox" [retailerWeek 4 10 0 20]
      Role.retailer).up = F64.fin ((4 : ℕ) : ℚ) := by
    rw [steady_trace_twenty.2.1]
    norm_num
  have hs : (handlerStepsF sqrtApproxF "blackbox" [retailerWeek 4 10 0 20]
      Role.retailer).smoothed ≠ F64.nan := by
    rw [steady_trace_twenty.2.2.2]
    simp
  ⟨⟨hk, hu, by norm_num, hs⟩,
    (rate_limit_binary64 sqrtApproxF "blackbox" [retailerWeek 4 10 0 20] Role.retailer 20 4
      hk hu (by norm_num) hs).2.2⟩

/-- C5, as stated, fails: with six weeks of arrivals 2^600 against orders 0 every squared
error overflows, no computed error is below Infinity and estimateLeadTime returns the
initial 2, although the smaller candidate 1 has the same mean squared error. -/
theorem estimateLeadTimeF_overflow_not_first :
    6 ≤ min hugeArrivals.length zeros6.length ∧
    estimateLeadTimeF hugeArrivals zeros6 = 2 ∧
    windowMSE hugeArrivals zeros6 6 1 = windowMSE hugeArrivals zeros6 6 2 ∧
    ¬ (windowMSE hugeArrivals zeros6 6 2 < windowMSE hugeArrivals zeros6 6 1) := by
  have h1 := windowMSE_huge 1 (by rw [card_window]; decide)
  have h2 := windowMSE_huge 2 (by rw [card_window]; decide)
  have hr : estimateLeadTimeF hugeArrivals zeros6 = 2 := by
    rw [estimateLeadTimeF_eq_search _ _ (by decide)]
    exact search_huge.1
  refine ⟨by decide, hr, by rw [h1, h2], ?_⟩
  rw [h1, h2]
  exact lt_irrefl _

/-- C5, amended: with n = min(length) >= 6, when some candidate with a non-empty window has
a binary64 mean squared error below Infinity, estimateLeadTime returns the first candidate
of least binary64 mean squared error among the candidates 1..6 with a non-empty window;
when every such error is Infinity it returns 2. -/
theorem estimateLeadTimeF_first_argmin (arrivals orders : List ℚ)
    (hn : 6 ≤ min arrivals.length orders.length) :
    ((∀ L, 1 ≤ L → L ≤ 6 → (window (min arrivals.length orders.length) L).Nonempty →
        mseF arrivals orders (min arrivals.length orders.length) L = F64.pinf) →
      estimateLeadTimeF arrivals orders = 2) ∧
    ((∃ L, 1 ≤ L ∧ L ≤ 6 ∧ (window (min arrivals.length orders.length) L).Nonempty ∧
        mseF arrivals orders (min arrivals.length orders.length) L ≠ F64.pinf) →
      1 ≤ estimateLeadTimeF arrivals orders ∧ estimateLeadTimeF arrivals orders ≤ 6 ∧
      (window (min arrivals.length orders.length)
        (estimateLeadTimeF arrivals orders)).Nonempty ∧
      mseF arrivals orders (min arrivals.length orders.length)
        (estimateLeadTimeF arrivals orders) ≠ F64.pinf ∧
      (∀ L, 1 ≤ L → L ≤ 6 → (window (min arrivals.length orders.length) L).Nonempty →
        flt (mseF arrivals orders (min arrivals.length orders.length) L)
          (mseF arrivals orders (min arrivals.length orders.length)
            (estimateLeadTimeF arrivals orders)) = false) ∧
      (∀ L, 1 ≤ L → L < estimateLeadTimeF arrivals orders →
        flt (mseF arrivals orders (min arrivals.length orders.length)
            (estimateLeadTimeF arrivals orders))
          (mseF arrivals orders (min arrivals.length orders.length) L) = true)) := by
  rw [estimateLeadTimeF_eq_search arrivals orders hn]
  constructor
  · intro hall
    exact (searchF_default arrivals orders _
      (fun L h1 h6 hv => hall L h1 h6 (Finset.card_pos.mp hv))).1
  · rintro ⟨L0, h1, h6, hv, hne⟩
    obtain ⟨hb1, hb6, hbv, hbe, hbne, hmin, hfirst⟩ := searchF_argmin arrivals orders _
      ⟨L0, h1, h6, Finset.card_pos.mpr hv, hne⟩
    refine ⟨hb1, hb6, Finset.card_pos.mp hbv, by rw [← hbe]; exact hbne, ?_, ?_⟩
    · intro L hL1 hL6 hLv
      exact hmin L hL1 hL6 (Finset.card_pos.mpr hLv)
    · intro L hL1 hLr
      have hLv : 0 < (window (min arrivals.length orders.length) L).card := by
        rw [card_window] at hbv ⊢
        omega
      exact hfirst L hL1 hLr hLv

/-- Witness of C5 (amended): six weeks whose arrivals follow the orders two weeks later, so
that candidate 2 has the computed error 0. -/
theorem estimateLeadTimeF_first_argmin_witness :
    6 ≤ min sixArrivals2.length sixOrders.length ∧
    (∃ L, 1 ≤ L ∧ L ≤ 6 ∧ (window (min sixArrivals2.length sixOrders.length) L).Nonempty ∧
      mseF sixArrivals2 sixOrders (min sixArrivals2.length sixOrders.length) L ≠ F64.pinf) ∧
    (1 ≤ estimateLeadTimeF sixArrivals2 sixOrders ∧
      estimateLeadTimeF sixArrivals2 sixOrders ≤ 6 ∧
      (window (min sixArrivals2.length sixOrders.length)
        (estimateLeadTimeF sixArrivals2 sixOrders)).Nonempty ∧
      mseF sixArrivals2 sixOrders (min sixArrivals2.length sixOrders.length)
        (estimateLeadTimeF sixArrivals2 sixOrders) ≠ F64.pinf ∧
      (∀ L, 1 ≤ L → L ≤ 6 → (window (min sixArrivals2.length sixOrders.length) L).Nonempty →
        flt (mseF sixArrivals2 sixOrders (min sixArrivals2.length sixOrders.length) L)
          (mseF sixArrivals2 sixOrders (min sixArrivals2.length sixOrders.length)
            (estimateLeadTimeF sixArrivals2 sixOrders)) = false) ∧
      (∀ L, 1 ≤ L → L < estimateLeadTimeF sixArrivals2 sixOrders →
        flt (mseF sixArrivals2 sixOrders (min sixArrivals2.length sixOrders.length)
            (estimateLeadTimeF sixArrivals2 sixOrders))
          (mseF sixArrivals2 sixOrders (min sixArrivals2.length sixOrders.length) L) = true)) :=
  have hex : ∃ L, 1 ≤ L ∧ L ≤ 6 ∧
      (window (min sixArrivals2.length sixOrders.length) L).Nonempty ∧
      mseF sixArrivals2 sixOrders (min sixArrivals2.length sixOrders.length) L ≠ F64.pinf :=
    ⟨2, by decide, by decide, Finset.card_pos.mp (by rw [card_window]; decide), by
      rw [mseF_fit _ _ _ _ sixArrivals2_fit]
      simp⟩
  ⟨by decide, hex,
    (estimateLeadTimeF_first_argmin sixArrivals2 sixOrders (by decide)).2 hex⟩

/-- C6: when at least one of the two sequences has fewer than 6 elements,
estimateLeadTime returns 2. -/
theorem estimateLeadTime_short (arrivals orders : List ℚ)
    (h : arrivals.length < 6 ∨ orders.length < 6) : estimateLeadTime arrivals orders = 2 := by
  have hlt : min arrivals.length orders.length < 6 := by
    rcases h with h | h
    · exact lt_of_le_of_lt (min_le_left _ _) h
    · exact lt_of_le_of_lt (min_le_right _ _) h
  simp only [estimateLeadTime, if_pos hlt]

/-- Witness of C6: five weeks of arrivals against twelve weeks of orders. -/
theorem estimateLeadTime_short_witness :
    ((sixArrivals2.take 5).length < 6 ∨ rampOrders.length < 6) ∧
    estimateLeadTime (sixArrivals2.take 5) rampOrders = 2 :=
  ⟨Or.inl (by decide), estimateLeadTime_short (sixArrivals2.take 5) rampOrders
    (Or.inl (by decide))⟩

/-- C7, as stated, fails: on twelve aligned weeks of zeros lag 3 fits exactly, and so does
lag 1, which is tried first; estimateLeadTime returns 1. -/
theorem estimateLeadTimeF_zeros_returns_one :
    zeros12.length = 12 ∧
    (∀ t, 3 ≤ t → t < 12 → zeros12.getD t 0 = zeros12.getD (t - 3) 0) ∧
    estimateLeadTimeF zeros12 zeros12 = 1 ∧ estimateLeadTimeF zeros12 zeros12 ≠ 3 := by
  have hmin : min zeros12.length zeros12.length = 12 := by decide
  have h1 : estimateLeadTimeF zeros12 zeros12 = 1 := by
    rw [estimateLeadTimeF_eq_search _ _ (by decide), hmin]
    have hz : mseF zeros12 zeros12 12 1 = F64.fin 0 :=
      mseF_fit _ _ _ _ (fun t _ => by rw [zeros12_getD, zeros12_getD])
    obtain ⟨hb1, hb2, _, _⟩ := searchF_le_of_zero zeros12 zeros12 12 1 (le_refl 1) (by decide)
      (by rw [card_window]; decide) hz
    omega
  refine ⟨rfl, ?_, h1, ?_⟩
  · intro t _ _
    rw [zeros12_getD, zeros12_getD]
  · rw [h1]
    decide

/-- C7, amended: for aligned sequences of length n >= 12 with arrivals[t] = orders[t-3] for
3 <= t < n, estimateLeadTime returns a lag in 1..3 whose binary64 mean squared error is 0;
it returns 3 exactly when the binary64 errors of lags 1 and 2 are both non-zero, which
requires that neither lag 1 nor lag 2 fits its window exactly and, when all values are
integers, is equivalent to it. -/
theorem estimateLeadTimeF_lag3 (a o : List ℚ) (n : ℕ) (ha : a.length = n) (ho : o.length = n)
    (hn : 12 ≤ n) (h3 : ∀ t, 3 ≤ t → t < n → a.getD t 0 = o.getD (t - 3) 0) :
    1 ≤ estimateLeadTimeF a o ∧ estimateLeadTimeF a o ≤ 3 ∧
    mseF a o n (estimateLeadTimeF a o) = F64.fin 0 ∧
    (estimateLeadTimeF a o = 3 ↔
      mseF a o n 1 ≠ F64.fin 0 ∧ mseF a o n 2 ≠ F64.fin 0) ∧
    (estimateLeadTimeF a o = 3 →
      (∃ t ∈ window n 1, a.getD t 0 ≠ o.getD (t - 1) 0) ∧
      (∃ t ∈ window n 2, a.getD t 0 ≠ o.getD (t - 2) 0)) ∧
    ((∀ t, ∃ z : ℤ, a.getD t 0 = (z : ℚ)) → (∀ t, ∃ z : ℤ, o.getD t 0 = (z : ℚ)) →
      (estimateLeadTimeF a o = 3 ↔
        (∃ t ∈ window n 1, a.getD t 0 ≠ o.getD (t - 1) 0) ∧
        (∃ t ∈ window n 2, a.getD t 0 ≠ o.getD (t - 2) 0))) := by
  have hmin : min a.length o.length = n := by
    rw [ha, ho]
    exact min_self n
  have hv : ∀ L, L ≤ 6 → 0 < (window n L).card := by
    intro L hL
    rw [card_window]
    omega
  have hz3 : mseF a o n 3 = F64.fin 0 := by
    apply mseF_fit
    intro t ht
    simp only [window, Finset.mem_Ico] at ht
    exact h3 t (le_trans (le_max_left _ _) ht.1) ht.2
  have heq : estimateLeadTimeF a o = (searchF a o n).bestL := by
    rw [estimateLeadTimeF_eq_search a o (by omega), hmin]
  obtain ⟨hb1, hb3, hz, hfirst⟩ := searchF_le_of_zero a o n 3 (by decide) (by decide)
    (hv 3 (by decide)) hz3
  rw [← heq] at hb1 hb3 hz hfirst
  have hiff : estimateLeadTimeF a o = 3 ↔
      mseF a o n 1 ≠ F64.fin 0 ∧ mseF a o n 2 ≠ F64.fin 0 := by
    constructor
    · intro h
      rw [h] at hfirst
      exact ⟨hfirst 1 (by decide) (by decide) (hv 1 (by decide)),
        hfirst 2 (by decide) (by decide) (hv 2 (by decide))⟩
    · rintro ⟨hne1, hne2⟩
      have hcases : estimateLeadTimeF a o = 1 ∨ estimateLeadTimeF a o = 2 ∨
          estimateLeadTimeF a o = 3 := by omega
      rcases hcases with h | h | h
      · rw [h] at hz
        exact absurd hz hne1
      · rw [h] at hz
        exact absurd hz hne2
      · exact h
  have hmis : estimateLeadTimeF a o = 3 →
      (∃ t ∈ window n 1, a.getD t 0 ≠ o.getD (t - 1) 0) ∧
      (∃ t ∈ window n 2, a.getD t 0 ≠ o.getD (t - 2) 0) := by
    intro h
    obtain ⟨hne1, hne2⟩ := hiff.mp h
    constructor
    · by_contra hcon
      push_neg at hcon
      exact hne1 (mseF_fit a o n 1 hcon)
    · by_contra hcon
      push_neg at hcon
      exact hne2 (mseF_fit a o n 2 hcon)
  refine ⟨hb1, hb3, hz, hiff, hmis, ?_⟩
  intro hai hoi
  constructor
  · exact hmis
  · rintro ⟨⟨t1, ht1, hne1⟩, ⟨t2, ht2, hne2⟩⟩
    apply hiff.mpr
    exact ⟨mseF_ne_zero_of_apart a o n 1
        ⟨t1, ht1, one_le_abs_sub_of_int (hai t1) (hoi (t1 - 1)) hne1⟩,
      mseF_ne_zero_of_apart a o n 2
        ⟨t2, ht2, one_le_abs_sub_of_int (hai t2) (hoi (t2 - 2)) hne2⟩⟩

/-- Witness of C7 (amended): twelve weeks of orders 1..12 arriving three weeks later; lags 1
and 2 misfit and the result is 3. -/
theorem estimateLeadTimeF_lag3_witness :
    (rampArrivals3.length = 12 ∧ rampOrders.length = 12 ∧ 12 ≤ 12 ∧
      ∀ t, 3 ≤ t → t < 12 → rampArrivals3.getD t 0 = rampOrders.getD (t - 3) 0) ∧
    mseF rampArrivals3 rampOrders 12 (estimateLeadTimeF rampArrivals3 rampOrders) = F64.fin 0 ∧
    estimateLeadTimeF rampArrivals3 rampOrders = 3 :=
  ⟨⟨rfl, rfl, le_refl 12, ramp_lag3⟩,
    (estimateLeadTimeF_lag3 rampArrivals3 rampOrders 12 rfl rfl (le_refl 12) ramp_lag3).2.2.1,
    ((estimateLeadTimeF_lag3 rampArrivals3 rampOrders 12 rfl rfl (le_refl 12)
      ramp_lag3).2.2.2.2.2 rampArrivals3_int rampOrders_int).mpr ramp_misfit⟩

/-- C8: a role whose demand series equals the retailer's gets the same order in
glassbox mode as in blackbox mode; the retailer does so for every history. -/
theorem glassbox_eq_blackbox_of_same_demand (sqrt : ℚ → ℚ) (weeks : History) (role : Role)
    (h : (seriesFor weeks role).d = (seriesFor weeks Role.retailer).d) :
    handler sqrt "glassbox" weeks role = handler sqrt "blackbox" weeks role ∧
    handler sqrt "glassbox" weeks Role.retailer = handler sqrt "blackbox" weeks Role.retailer := by
  constructor
  · simp [handler, computeOrder, computeOrderSteps, globalStats, h]
  · simp [handler, computeOrder, computeOrderSteps, globalStats]

/-- Witness of C8: in `stockedWeeks 1` the distributor's demand series is the retailer's. -/
theorem glassbox_eq_blackbox_of_same_demand_witness :
    (seriesFor (stockedWeeks 1) Role.distributor).d = (seriesFor (stockedWeeks 1) Role.retailer).d ∧
    (handler sqrtApprox "glassbox" (stockedWeeks 1) Role.distributor =
        handler sqrtApprox "blackbox" (stockedWeeks 1) Role.distributor ∧
      handler sqrtApprox "glassbox" (stockedWeeks 1) Role.retailer =
        handler sqrtApprox "blackbox" (stockedWeeks 1) Role.retailer) :=
  have h : (seriesFor (stockedWeeks 1) Role.distributor).d =
      (seriesFor (stockedWeeks 1) Role.retailer).d := by
    simp [seriesFor, stockedWeeks, roleEntry, incomingOf]
  ⟨h, glassbox_eq_blackbox_of_same_demand sqrtApprox (stockedWeeks 1) Role.distributor h⟩

/-- C9, as stated, fails: in `stockedWeeks 1` the two modes give every role the order 0,
although the wholesaler's demand series `[1]` is not the retailer's `[0]`. -/
theorem modes_agree_with_distinct_demand :
    (∀ role, handler sqrtApprox "glassbox" (stockedWeeks 1) role = 0 ∧
      handler sqrtApprox "blackbox" (stockedWeeks 1) role = 0) ∧
    (seriesFor (stockedWeeks 1) Role.wholesaler).d = [1] ∧
    (seriesFor (stockedWeeks 1) Role.retailer).d = [0] ∧
    ¬ ((∀ role, handler sqrtApprox "glassbox" (stockedWeeks 1) role =
          handler sqrtApprox "blackbox" (stockedWeeks 1) role) →
        ∀ role, (seriesFor (stockedWeeks 1) role).d =
          (seriesFor (stockedWeeks 1) Role.retailer).d) := by
  have hfl0 : ⌊(2⁻¹ : ℚ)⌋ = 0 := by
    rw [Int.floor_eq_iff]
    norm_num
  have hfl2 : ⌊((2 : ℚ) + 2⁻¹)⌋ = 2 := by
    rw [Int.floor_eq_iff]
    norm_num
  have hflm2 : ⌊(-2 + 2⁻¹ : ℚ)⌋ = -2 := by
    rw [Int.floor_eq_iff]
    norm_num
  have hflm3 : ⌊(-3 + 2⁻¹ : ℚ)⌋ = -3 := by
    rw [Int.floor_eq_iff]
    norm_num
  have hfl3 : ⌊((2 : ℚ)⁻¹ + 2 + 2⁻¹)⌋ = 3 := by
    rw [Int.floor_eq_iff]
    norm_num
  have hfl3b : ⌊((7 : ℚ) / 10 + 2 + 2⁻¹)⌋ = 3 := by
    rw [Int.floor_eq_iff]
    norm_num
  have hall : ∀ role, handler sqrtApprox "glassbox" (stockedWeeks 1) role = 0 ∧
      handler sqrtApprox "blackbox" (stockedWeeks 1) role = 0 := by
    intro role
    cases role <;>
      simp [handler, computeOrder, computeOrderSteps, globalStats, stockedWeeks,
        seriesFor, emaMad, emaMadFrom, estimateLeadTime, outstandingOf, lastWeek, roleEntry,
        orderEntry, incomingOf, arrivingOf, inventoryOf, backlogOf, finiteOr0, iround, clamp,
        hfl0, hfl2, hflm2, hflm3, hfl3, hfl3b] <;> norm_num [hflm2, hflm3]
  have hw : (seriesFor (stockedWeeks 1) Role.wholesaler).d = [1] := by
    simp [seriesFor, stockedWeeks, roleEntry, incomingOf, finiteOr0]
  have hr : (seriesFor (stockedWeeks 1) Role.retailer).d = [0] := by
    simp [seriesFor, stockedWeeks, roleEntry, incomingOf, finiteOr0]
  refine ⟨hall, hw, hr, ?_⟩
  intro himp
  have := himp (fun role => by rw [(hall role).1, (hall role).2]) Role.wholesaler
  rw [hw, hr] at this
  simp at this

/-- C9, amended: when all four roles' own demand series are identical to the retailer's,
blackbox and glassbox produce identical outputs for all four roles. -/
theorem modes_agree_of_shared_demand (sqrt : ℚ → ℚ) (weeks : History)
    (h : ∀ role, (seriesFor weeks role).d = (seriesFor weeks Role.retailer).d) :
    ∀ role, handler sqrt "glassbox" weeks role = handler sqrt "blackbox" weeks role := by
  intro role
  simp [handler, computeOrder, computeOrderSteps, globalStats, h role]

/-- Witness of C9 (amended): in `uniformWeeks` every role observes the same demand. -/
theorem modes_agree_of_shared_demand_witness :
    (∀ role, (seriesFor uniformWeeks role).d = (seriesFor uniformWeeks Role.retailer).d) ∧
    ∀ role, handler sqrtApprox "glassbox" uniformWeeks role =
      handler sqrtApprox "blackbox" uniformWeeks role :=
  have h : ∀ role, (seriesFor uniformWeeks role).d = (seriesFor uniformWeeks Role.retailer).d :=
    fun _ => rfl
  ⟨h, modes_agree_of_shared_demand sqrtApprox uniformWeeks h⟩

/-- C10: in glassbox mode the forecast and mad of every role are those of the retailer's
demand series, and two histories that differ only in the incoming_orders of the
wholesaler, distributor or factory yield the same order for every role. -/
theorem glassbox_ignores_other_demand (sqrt : ℚ → ℚ) (weeks1 weeks2 : History)
    (h : weeks1.map eraseOtherDemand = weeks2.map eraseOtherDemand) (role : Role) :
    (handlerSteps sqrt "glassbox" weeks1 role).forecast =
      (emaMad (seriesFor weeks1 Role.retailer).d (1 / 4)).m ∧
    (handlerSteps sqrt "glassbox" weeks1 role).mad =
      (emaMad (seriesFor weeks1 Role.retailer).d (1 / 4)).mad ∧
    handler sqrt "glassbox" weeks1 role = handler sqrt "glassbox" weeks2 role := by
  refine ⟨?_, ?_, ?_⟩
  · simp [handlerSteps, computeOrderSteps, globalStats]
  · simp [handlerSteps, computeOrderSteps, globalStats]
  · rw [← handler_glassbox_eraseOtherDemand sqrt weeks1 role, h,
      handler_glassbox_eraseOtherDemand sqrt weeks2 role]

/-- Witness of C10: `stockedWeeks 1` and `stockedWeeks 7` differ only in the wholesaler's
incoming_orders. -/
theorem glassbox_ignores_other_demand_witness :
    (stockedWeeks 1).map eraseOtherDemand = (stockedWeeks 7).map eraseOtherDemand ∧
    ((handlerSteps sqrtApprox "glassbox" (stockedWeeks 1) Role.wholesaler).forecast =
        (emaMad (seriesFor (stockedWeeks 1) Role.retailer).d (1 / 4)).m ∧
      (handlerSteps sqrtApprox "glassbox" (stockedWeeks 1) Role.wholesaler).mad =
        (emaMad (seriesFor (stockedWeeks 1) Role.retailer).d (1 / 4)).mad ∧
      handler sqrtApprox "glassbox" (stockedWeeks 1) Role.wholesaler =
        handler sqrtApprox "glassbox" (stockedWeeks 7) Role.wholesaler) :=
  have h : (stockedWeeks 1).map eraseOtherDemand = (stockedWeeks 7).map eraseOtherDemand := by
    simp only [stockedWeeks, eraseOtherDemand, List.map, Option.map]
    congr 4
    funext r
    cases r <;> simp
  ⟨h, glassbox_ignores_other_demand sqrtApprox (stockedWeeks 1) (stockedWeeks 7) h
    Role.wholesaler⟩

/-- C11: in blackbox mode two histories that agree, week by week, on a role's own
observation and on that role's own placed order give that role the same order, whatever
they say about the other roles. -/
theorem blackbox_reads_own_data_only (sqrt : ℚ → ℚ) (weeks1 weeks2 : History) (role : Role)
    (h : weeks1.map (ownView role) = weeks2.map (ownView role)) :
    handler sqrt "blackbox" weeks1 role = handler sqrt "blackbox" weeks2 role := by
  have hs : seriesFor weeks1 role = seriesFor weeks2 role := by
    rw [seriesFor_eq_ownView, seriesFor_eq_ownView, h]
  have hi : inventoryOf (roleEntry (lastWeek weeks1) role) =
      inventoryOf (roleEntry (lastWeek weeks2) role) := by
    rw [inventory_last_eq_ownView, inventory_last_eq_ownView, h]
  have hb : backlogOf (roleEntry (lastWeek weeks1) role) =
      backlogOf (roleEntry (lastWeek weeks2) role) := by
    rw [backlog_last_eq_ownView, backlog_last_eq_ownView, h]
  simp [handler, computeOrder, computeOrderSteps, globalStats, hs, hi, hb]

/-- Witness of C11: `stockedWeeks 1` and `stockedWeeks 7` say the same about the retailer. -/
theorem blackbox_reads_own_data_only_witness :
    (stockedWeeks 1).map (ownView Role.retailer) = (stockedWeeks 7).map (ownView Role.retailer) ∧
    handler sqrtApprox "blackbox" (stockedWeeks 1) Role.retailer =
      handler sqrtApprox "blackbox" (stockedWeeks 7) Role.retailer :=
  have h : (stockedWeeks 1).map (ownView Role.retailer) =
      (stockedWeeks 7).map (ownView Role.retailer) := by
    simp [stockedWeeks, ownView, roleEntry, orderEntry, incomingOf, arrivingOf, inventoryOf,
      backlogOf]
  ⟨h, blackbox_reads_own_data_only sqrtApprox (stockedWeeks 1) (stockedWeeks 7) Role.retailer h⟩

/-- C12: seriesFor returns three sequences as long as the history, and at every week t
each of d[t], a[t], o[t] is the role's incoming_orders, arriving_shipments, placed order
of that week when it is present and finite, and 0 otherwise. -/
theorem seriesFor_entries (weeks : History) (role : Role) (t : ℕ) (ht : t < weeks.length) :
    (seriesFor weeks role).d.length = weeks.length ∧
    (seriesFor weeks role).a.length = weeks.length ∧
    (seriesFor weeks role).o.length = weeks.length ∧
    (∃ x, (seriesFor weeks role).d[t]? = some x ∧
      DefaultsTo (incomingOf (roleEntry (weeks.getD t none) role)) x) ∧
    (∃ x, (seriesFor weeks role).a[t]? = some x ∧
      DefaultsTo (arrivingOf (roleEntry (weeks.getD t none) role)) x) ∧
    (∃ x, (seriesFor weeks role).o[t]? = some x ∧
      DefaultsTo (orderEntry (weeks.getD t none) role) x) := by
  have hget : weeks[t]? = some (weeks.getD t none) := by
    rw [List.getD_eq_getElem?_getD, List.getElem?_eq_getElem ht]
    rfl
  refine ⟨by simp [seriesFor], by simp [seriesFor], by simp [seriesFor], ?_, ?_, ?_⟩
  · refine ⟨_, ?_, defaultsTo_finiteOr0 _⟩
    unfold seriesFor
    rw [List.getElem?_map, hget]
    rfl
  · refine ⟨_, ?_, defaultsTo_finiteOr0 _⟩
    unfold seriesFor
    rw [List.getElem?_map, hget]
    rfl
  · refine ⟨_, ?_, defaultsTo_finiteOr0 _⟩
    unfold seriesFor
    rw [List.getElem?_map, hget]
    rfl

/-- Witness of C12: week 0 of the one-week scenario, for the wholesaler, who has no entry. -/
theorem seriesFor_entries_witness :
    0 < scenarioWeeks.length ∧
    ((seriesFor scenarioWeeks Role.wholesaler).d.length = scenarioWeeks.length ∧
    (seriesFor scenarioWeeks Role.wholesaler).a.length = scenarioWeeks.length ∧
    (seriesFor scenarioWeeks Role.wholesaler).o.length = scenarioWeeks.length ∧
    (∃ x, (seriesFor scenarioWeeks Role.wholesaler).d[0]? = some x ∧
      DefaultsTo (incomingOf (roleEntry (scenarioWeeks.getD 0 none) Role.wholesaler)) x) ∧
    (∃ x, (seriesFor scenarioWeeks Role.wholesaler).a[0]? = some x ∧
      DefaultsTo (arrivingOf (roleEntry (scenarioWeeks.getD 0 none) Role.wholesaler)) x) ∧
    (∃ x, (seriesFor scenarioWeeks Role.wholesaler).o[0]? = some x ∧
      DefaultsTo (orderEntry (scenarioWeeks.getD 0 none) Role.wholesaler) x)) :=
  ⟨by decide, seriesFor_entries scenarioWeeks Role.wholesaler 0 (by decide)⟩

/-- C13, as stated, fails: on the constant sequence 0.1, 0.1 with alpha = 0.3 the binary64
mean returned by emaMad is 0.09999999999999999, not 0.1. -/
theorem emaMadF_constant_tenth :
    (tenthDemand ≠ [] ∧ ∀ v ∈ tenthDemand, v = tenth) ∧
    (emaMadF tenthDemand (F64.fin threeTenths)).m =
      F64.fin (7205759403792793 / 72057594037927936) ∧
    (emaMadF tenthDemand (F64.fin threeTenths)).m ≠ F64.fin tenth := by
  have hm : (emaMadF tenthDemand (F64.fin threeTenths)).m =
      F64.fin (7205759403792793 / 72057594037927936) := by
    rw [emaMadF_m_eq_emaF]
    exact emaF_tenthDemand
  refine ⟨⟨by simp [tenthDemand], by simp [tenthDemand]⟩, hm, ?_⟩
  rw [hm]
  intro h
  have := F64.fin.inj h
  unfold tenth at this
  norm_num at this

/-- C13, amended: on a non-empty constant sequence with value c, for 0 <= alpha <= 1 such
that the update alpha*c + (1-alpha)*c evaluates to c in binary64, or for the alpha = 0.25
of the order policy and an integer c of magnitude at most 2^50 (where it does), emaMad
returns mean c and mad 0, and ema returns c. -/
theorem emaMadF_constant (x : List ℚ) (c alpha : ℚ) (hne : x ≠ []) (hc : ∀ v ∈ x, v = c)
    (h0 : 0 ≤ alpha) (h1 : alpha ≤ 1)
    (hfix : fadd (fmul (F64.fin alpha) (F64.fin c))
        (fmul (fsub (F64.fin 1) (F64.fin alpha)) (F64.fin c)) = F64.fin c ∨
      (alpha = 1 / 4 ∧ ∃ z : ℤ, c = (z : ℚ) ∧ |z| ≤ (2 : ℤ) ^ (50 : ℕ))) :
    (emaMadF x (F64.fin alpha)).m = F64.fin c ∧ (emaMadF x (F64.fin alpha)).mad = F64.fin 0 ∧
    emaF x (F64.fin alpha) = F64.fin c := by
  have hfix2 : fadd (fmul (F64.fin alpha) (F64.fin c))
      (fmul (fsub (F64.fin 1) (F64.fin alpha)) (F64.fin c)) = F64.fin c := by
    rcases hfix with h | ⟨ha, z, hz, hzb⟩
    · exact h
    · rw [ha, hz]
      exact quarter_update_int z hzb
  have h : emaMadF x (F64.fin alpha) = { m := F64.fin c, mad := F64.fin 0 } :=
    emaMadFromF_const alpha c h0 h1 hfix2 x 0 _ hc (fun h => absurd rfl h) (fun _ => hne)
  refine ⟨?_, ?_, ?_⟩
  · rw [h]
  · rw [h]
  · rw [← emaMadF_m_eq_emaF, h]

/-- Witness of C13 (amended): three weeks of demand 4 smoothed with alpha = 1/4. -/
theorem emaMadF_constant_witness :
    (constantDemand ≠ [] ∧ (∀ v ∈ constantDemand, v = 4) ∧ (0 : ℚ) ≤ 1 / 4 ∧ (1 / 4 : ℚ) ≤ 1 ∧
      ((1 / 4 : ℚ) = 1 / 4 ∧ ∃ z : ℤ, (4 : ℚ) = (z : ℚ) ∧ |z| ≤ (2 : ℤ) ^ (50 : ℕ))) ∧
    ((emaMadF constantDemand (F64.fin (1 / 4))).m = F64.fin 4 ∧
      (emaMadF constantDemand (F64.fin (1 / 4))).mad = F64.fin 0 ∧
      emaF constantDemand (F64.fin (1 / 4)) = F64.fin 4) :=
  have hne : constantDemand ≠ [] := by simp [constantDemand]
  have hc : ∀ v ∈ constantDemand, v = 4 := by simp [constantDemand]
  have hz : (1 / 4 : ℚ) = 1 / 4 ∧ ∃ z : ℤ, (4 : ℚ) = (z : ℚ) ∧ |z| ≤ (2 : ℤ) ^ (50 : ℕ) :=
    ⟨rfl, 4, by norm_num, by norm_num⟩
  ⟨⟨hne, hc, by norm_num, by norm_num, hz⟩,
    emaMadF_constant constantDemand 4 (1 / 4) hne hc (by norm_num) (by norm_num) (Or.inr hz)⟩

/-- C14: ema computes the reference exponential mean (m[0] = x[0],
m[i] = alpha*x[i] + (1-alpha)*m[i-1], result m[n-1], or 0 on the empty sequence), and the
mean returned by emaMad is the value of ema. -/
theorem ema_refines_reference (x : List ℚ) (alpha : ℚ) :
    ema x alpha = emaRef x alpha ∧ (emaMad x alpha).m = ema x alpha :=
  ⟨ema_eq_emaRef x alpha, emaMad_m_eq_ema x alpha⟩

/-- C15: for every sequence, the empty one included, and every alpha with 0 < alpha < 1,
the mad returned by emaMad is >= 0; so it is for alpha = 1/4. -/
theorem emaMad_mad_nonneg (x : List ℚ) (alpha : ℚ) (h0 : 0 < alpha) (h1 : alpha < 1) :
    0 ≤ (emaMad x alpha).mad ∧ 0 ≤ (emaMad [] alpha).mad ∧ 0 ≤ (emaMad x (1 / 4)).mad := by
  refine ⟨?_, ?_, ?_⟩
  · exact emaMadFrom_mad_nonneg alpha (le_of_lt h0) (le_of_lt h1) x 0 _ (le_refl 0)
  · exact le_refl 0
  · exact emaMadFrom_mad_nonneg (1 / 4) (by norm_num) (by norm_num) x 0 _ (le_refl 0)

/-- Witness of C15: the demand 1, 5, 2, 8 smoothed with alpha = 1/4. -/
theorem emaMad_mad_nonneg_witness :
    ((0 : ℚ) < 1 / 4 ∧ (1 / 4 : ℚ) < 1) ∧
    (0 ≤ (emaMad sampleDemand (1 / 4)).mad ∧ 0 ≤ (emaMad [] (1 / 4)).mad ∧
      0 ≤ (emaMad sampleDemand (1 / 4)).mad) :=
  ⟨⟨by norm_num, by norm_num⟩,
    emaMad_mad_nonneg sampleDemand (1 / 4) (by norm_num) (by norm_num)⟩

/-- C16, as stated, fails: with six weeks of arrivals 2^600 against orders 0 every
candidate is evaluated but no computed error is below Infinity, so `bestErr` is still
`Infinity` when the search ends and the value returned is the initial default 2. -/
theorem estimateLeadTimeF_overflow_default :
    6 ≤ min hugeArrivals.length zeros6.length ∧
    (∀ L, 1 ≤ L → L ≤ 5 → 0 < (lagLoopF hugeArrivals zeros6 6 L).cnt) ∧
    (searchF hugeArrivals zeros6 (min hugeArrivals.length zeros6.length)).bestErr = F64.pinf ∧
    estimateLeadTimeF hugeArrivals zeros6 = 2 := by
  have hmin : min hugeArrivals.length zeros6.length = 6 := by decide
  refine ⟨by decide, ?_, ?_, ?_⟩
  · intro L h1 h5
    rw [lagLoopF_cnt, card_window]
    omega
  · rw [hmin]
    exact search_huge.2
  · rw [estimateLeadTimeF_eq_search _ _ (by decide), hmin]
    exact search_huge.1

/-- C16, amended: estimateLeadTime always returns a lag between 1 and 6; with n >= 6
candidate 1 has a non-empty window, the returned lag is the `bestL` of the search and was
evaluated (cnt > 0); `bestErr` stays `Infinity`, and the initial 2 is returned, exactly when
every evaluated candidate has the binary64 error Infinity, and otherwise `bestErr` is the
binary64 error of the returned lag. -/
theorem estimateLeadTimeF_range (arrivals orders : List ℚ) :
    1 ≤ estimateLeadTimeF arrivals orders ∧ estimateLeadTimeF arrivals orders ≤ 6 ∧
    (6 ≤ min arrivals.length orders.length →
      0 < (lagLoopF arrivals orders (min arrivals.length orders.length) 1).cnt ∧
      0 < (lagLoopF arrivals orders (min arrivals.length orders.length)
        (estimateLeadTimeF arrivals orders)).cnt ∧
      estimateLeadTimeF arrivals orders =
        (searchF arrivals orders (min arrivals.length orders.length)).bestL ∧
      ((searchF arrivals orders (min arrivals.length orders.length)).bestErr = F64.pinf ↔
        ∀ L, 1 ≤ L → L ≤ 6 →
          0 < (lagLoopF arrivals orders (min arrivals.length orders.length) L).cnt →
          mseF arrivals orders (min arrivals.length orders.length) L = F64.pinf) ∧
      ((searchF arrivals orders (min arrivals.length orders.length)).bestErr = F64.pinf →
        estimateLeadTimeF arrivals orders = 2) ∧
      ((searchF arrivals orders (min arrivals.length orders.length)).bestErr ≠ F64.pinf →
        (searchF arrivals orders (min arrivals.length orders.length)).bestErr =
          mseF arrivals orders (min arrivals.length orders.length)
            (estimateLeadTimeF arrivals orders))) := by
  by_cases hn : 6 ≤ min arrivals.length orders.length
  · have heq := estimateLeadTimeF_eq_search arrivals orders hn
    have hc1 : 0 < (window (min arrivals.length orders.length) 1).card := by
      rw [card_window]
      omega
    have hinv := bestInvF_search arrivals orders (min arrivals.length orders.length)
    have hrange : 1 ≤ estimateLeadTimeF arrivals orders ∧
        estimateLeadTimeF arrivals orders ≤ 6 ∧
        0 < (window (min arrivals.length orders.length)
          (estimateLeadTimeF arrivals orders)).card := by
      rw [heq]
      rcases hinv with ⟨h2, _, _⟩ | ⟨hb1, hbk, hbv, _, _, _, _⟩
      · rw [h2, card_window]
        omega
      · exact ⟨hb1, Nat.lt_succ_iff.mp hbk, hbv⟩
    refine ⟨hrange.1, hrange.2.1, fun _ => ⟨?_, ?_, heq, ?_, ?_, ?_⟩⟩
    · rw [lagLoopF_cnt]
      exact hc1
    · rw [lagLoopF_cnt]
      exact hrange.2.2
    · constructor
      · intro htop L hL1 hL6 hLv
        rw [lagLoopF_cnt] at hLv
        rcases hinv with ⟨_, _, hall⟩ | ⟨_, _, _, _, hbne, _, _⟩
        · exact hall L hL1 (Nat.lt_succ_of_le hL6) hLv
        · exact absurd htop hbne
      · intro hall
        exact (searchF_default arrivals orders _
          (fun L h1 h6 hv => hall L h1 h6 (by rw [lagLoopF_cnt]; exact hv))).2
    · intro htop
      rw [heq]
      rcases hinv with ⟨h2, _, _⟩ | ⟨_, _, _, _, hbne, _, _⟩
      · exact h2
      · exact absurd htop hbne
    · intro hne
      rw [heq]
      rcases hinv with ⟨_, htop, _⟩ | ⟨_, _, _, hbe, _, _, _⟩
      · exact absurd htop hne
      · exact hbe
  · have hlt : min arrivals.length orders.length < 6 := not_le.mp hn
    have h2 : estimateLeadTimeF arrivals orders = 2 := by
      simp only [estimateLeadTimeF, if_pos hlt]
    rw [h2]
    exact ⟨by decide, by decide, fun h => absurd h hn⟩

/-- Witness of C16 (amended): twelve weeks of orders 1..12 arriving three weeks later. -/
theorem estimateLeadTimeF_range_witness :
    6 ≤ min rampArrivals3.length rampOrders.length ∧
    (0 < (lagLoopF rampArrivals3 rampOrders (min rampArrivals3.length rampOrders.length)
        (estimateLeadTimeF rampArrivals3 rampOrders)).cnt ∧
      estimateLeadTimeF rampArrivals3 rampOrders =
        (searchF rampArrivals3 rampOrders (min rampArrivals3.length rampOrders.length)).bestL) :=
  ⟨by decide,
    ((estimateLeadTimeF_range rampArrivals3 rampOrders).2.2 (by decide)).2.1,
    ((estimateLeadTimeF_range rampArrivals3 rampOrders).2.2 (by decide)).2.2.1⟩

/-- C17, as stated, fails: on the one-week history with demand -2^1023, inventory -2^1023,
backlog 2^1023 and previous order 5 the code computes desired = -Infinity - (-Infinity)
= NaN, up = down = 0 and returns the order 0, outside the band [5 - 0, 5 + 0]. -/
theorem order_outside_band_on_overflow :
    (handlerStepsF sqrtApproxF "blackbox" [overflowWeek] Role.retailer).prevOrder =
      F64.fin 5 ∧
    (handlerStepsF sqrtApproxF "blackbox" [overflowWeek] Role.retailer).up = F64.fin 0 ∧
    (handlerStepsF sqrtApproxF "blackbox" [overflowWeek] Role.retailer).down = F64.fin 0 ∧
    (handlerStepsF sqrtApproxF "blackbox" [overflowWeek] Role.retailer).desired = F64.nan ∧
    handlerF sqrtApproxF "blackbox" [overflowWeek] Role.retailer = F64.fin 0 ∧
    ¬ ((5 : ℚ) - 0 ≤ 0) :=
  ⟨rfl, (overflow_limits sqrtApproxF (-halfBig) halfBig 5).1,
    (overflow_limits sqrtApproxF (-halfBig) halfBig 5).2, overflowWeek_desired,
    overflowWeek_order, by norm_num⟩

/-- C17, amended: in binary64, when the role's most recent own order is a natural number
`k` (0 on the empty history), the smoothed value is not `NaN` and `k + up < 2^52`, the
order and the two limits are natural numbers and prevOrder - down ≤ order ≤ prevOrder + up,
with up = iround(0.5*forecast + 2) and down = iround(0.7*forecast + 2). -/
theorem order_within_band_binary64 (sqrt : F64 → F64) (mode : String) (weeks : History)
    (role : Role) (k u : ℕ)
    (hk : (handlerStepsF sqrt mode weeks role).prevOrder = F64.fin (k : ℚ))
    (hu : (handlerStepsF sqrt mode weeks role).up = F64.fin (u : ℚ))
    (hb : k + u < 2 ^ (52 : ℕ))
    (hs : (handlerStepsF sqrt mode weeks role).smoothed ≠ F64.nan) :
    (handlerStepsF sqrt mode weeks role).up =
      iroundF (fadd (fmul (F64.fin (1 / 2)) (handlerStepsF sqrt mode weeks role).forecast)
        (F64.fin 2)) ∧
    (handlerStepsF sqrt mode weeks role).down =
      iroundF (fadd (fmul (F64.fin c07) (handlerStepsF sqrt mode weeks role).forecast)
        (F64.fin 2)) ∧
    ∃ o d : ℕ, handlerF sqrt mode weeks role = F64.fin (o : ℚ) ∧
      (handlerStepsF sqrt mode weeks role).down = F64.fin (d : ℚ) ∧
      (k : ℤ) - (d : ℤ) ≤ (o : ℤ) ∧ o ≤ k + u :=
  ⟨rfl, rfl, stepsF_band sqrt mode weeks role k u hk hu hb hs⟩

/-- Witness of C17 (amended): the retailer of the one-week history with demand 4, inventory 10,
backlog 0 and previous order 20, in blackbox mode (up = 4). -/
theorem order_within_band_binary64_witness :
    ((handlerStepsF sqrtApproxF "blackbox" [retailerWeek 4 10 0 20] Role.retailer).prevOrder =
        F64.fin ((20 : ℕ) : ℚ) ∧
      (handlerStepsF sqrtApproxF "blackbox" [retailerWeek 4 10 0 20] Role.retailer).up =
        F64.fin ((4 : ℕ) : ℚ) ∧
      20 + 4 < 2 ^ (52 : ℕ) ∧
      (handlerStepsF sqrtApproxF "blackbox" [retailerWeek 4 10 0 20] Role.retailer).smoothed ≠
        F64.nan) ∧
    ∃ o d : ℕ, handlerF sqrtApproxF "blackbox" [retailerWeek 4 10 0 20] Role.retailer =
        F64.fin (o : ℚ) ∧
      (handlerStepsF sqrtApproxF "blackbox" [retailerWeek 4 10 0 20] Role.retailer).down =
        F64.fin (d : ℚ) ∧
      ((20 : ℕ) : ℤ) - (d : ℤ) ≤ (o : ℤ) ∧ o ≤ 20 + 4 :=
  have hk : (handlerStepsF sqrtApproxF "blackbox" [retailerWeek 4 10 0 20]
      Role.retailer).prevOrder = F64.fin ((20 : ℕ) : ℚ) := by
    rw [steady_trace_twenty.1]
    norm_num
  have hu : (handlerStepsF sqrtApproxF "blackbox" [retailerWeek 4 10 0 20]
      Role.retailer).up = F64.fin ((4 : ℕ) : ℚ) := by
    rw [steady_trace_twenty.2.1]
    norm_num
  have hs : (handlerStepsF sqrtApproxF "blackbox" [retailerWeek 4 10 0 20]
      Role.retailer).smoothed ≠ F64.nan := by
    rw [steady_trace_twenty.2.2.2]
    simp
  ⟨⟨hk, hu, by norm_num, hs⟩,
    (order_within_band_binary64 sqrtApproxF "blackbox" [retailerWeek 4 10 0 20] Role.retailer
      20 4 hk hu (by norm_num) hs).2.2⟩

/-- C18, as stated, fails: on the one-week history with demand 3.5, inventory 9.8,
backlog 6.3 and previous order 5 the code computes smoothed = 3.5 and returns the order 4,
while iround(clamp((3*forecast + safety - inventory + backlog)/2, prevOrder - down,
prevOrder + up)) is 3; with the previous order 0 instead of 5 the smoothed value is
3.4999999999999996, so the value being clamped depends on the previous order. -/
theorem short_history_closed_form_fails :
    (1 ≤ (roundingWeeks 5).length ∧ (roundingWeeks 5).length ≤ 5) ∧
    (handlerStepsF sqrtApproxF "blackbox" (roundingWeeks 5) Role.retailer).forecast = F64.fin (7 / 2) ∧
    (handlerStepsF sqrtApproxF "blackbox" (roundingWeeks 5) Role.retailer).safety = F64.fin 0 ∧
    (handlerStepsF sqrtApproxF "blackbox" (roundingWeeks 5) Role.retailer).inventory = F64.fin nineEight ∧
    (handlerStepsF sqrtApproxF "blackbox" (roundingWeeks 5) Role.retailer).backlog = F64.fin sixThree ∧
    (handlerStepsF sqrtApproxF "blackbox" (roundingWeeks 5) Role.retailer).prevOrder = F64.fin 5 ∧
    (handlerStepsF sqrtApproxF "blackbox" (roundingWeeks 5) Role.retailer).up = F64.fin 4 ∧
    (handlerStepsF sqrtApproxF "blackbox" (roundingWeeks 5) Role.retailer).down = F64.fin 4 ∧
    handlerF sqrtApproxF "blackbox" (roundingWeeks 5) Role.retailer = F64.fin 4 ∧
    iround (JSVal.num (clamp ((3 * (7 / 2) + 0 - nineEight + sixThree) / 2) (5 - 4) (5 + 4))) = 3 ∧
    (handlerStepsF sqrtApproxF "blackbox" (roundingWeeks 5) Role.retailer).smoothed = F64.fin (7 / 2) ∧
    (handlerStepsF sqrtApproxF "blackbox" (roundingWeeks 0) Role.retailer).smoothed = F64.fin (7881299347898367 / 2251799813685248) := by
  have hb : big = (2 : ℚ) ^ (1024 : ℕ) := by unfold big; rfl
  have e_net : rnd (nineEight - sixThree) = F64.fin (3940649673949185 / 1125899906842624) := by
    have hv : (nineEight - sixThree : ℚ) = (3940649673949185 / 1125899906842624) := by
      unfold nineEight sixThree
      norm_num
    rw [hv]
    exact rnd_dyadic (3940649673949185 / 1125899906842624) 3940649673949185 50 (by norm_num) (by norm_num) (by norm_num)
  have e_out : rnd (0 + 5) = F64.fin 5 := by
    have hv : (0 + 5 : ℚ) = 5 := by
      norm_num
    rw [hv]
    exact rnd_dyadic 5 5 0 (by norm_num) (by norm_num) (by norm_num)
  have e_ip : rnd ((3940649673949185 / 1125899906842624) + 5) = F64.fin (17 / 2) := by
    apply rnd_eval _ _ 3 4785074604081152
    · rw [abs_of_pos (by norm_num)]
      norm_num
    · rw [abs_of_pos (by norm_num)]
      norm_num
    · norm_num
    · apply rne_of_tie_even
      · norm_num
      · norm_num
    · norm_num
    · rw [hb]
      norm_num
    · rw [hb]
      norm_num
  have e_s1 : rnd (7 / 2 * 3) = F64.fin (21 / 2) := by
    have hv : (7 / 2 * 3 : ℚ) = (21 / 2) := by
      norm_num
    rw [hv]
    exact rnd_dyadic (21 / 2) 21 1 (by norm_num) (by norm_num) (by norm_num)
  have e_s2 : rnd ((21 / 2) + 0) = F64.fin (21 / 2) := by
    have hv : ((21 / 2) + 0 : ℚ) = (21 / 2) := by
      norm_num
    rw [hv]
    exact rnd_dyadic (21 / 2) 21 1 (by norm_num) (by norm_num) (by norm_num)
  have e_des : rnd ((21 / 2) - (17 / 2)) = F64.fin 2 := by
    have hv : ((21 / 2) - (17 / 2) : ℚ) = 2 := by
      norm_num
    rw [hv]
    exact rnd_dyadic 2 2 0 (by norm_num) (by norm_num) (by norm_num)
  have e_m1 : rnd (1 / 2 * 2) = F64.fin 1 := by
    have hv : (1 / 2 * 2 : ℚ) = 1 := by
      norm_num
    rw [hv]
    exact rnd_dyadic 1 1 0 (by norm_num) (by norm_num) (by norm_num)
  have e_half : rnd (1 - 1 / 2) = F64.fin (1 / 2) := by
    have hv : (1 - 1 / 2 : ℚ) = (1 / 2) := by
      norm_num
    rw [hv]
    exact rnd_dyadic (1 / 2) 1 1 (by norm_num) (by norm_num) (by norm_num)
  have e_m2 : rnd ((1 / 2) * 5) = F64.fin (5 / 2) := by
    have hv : ((1 / 2) * 5 : ℚ) = (5 / 2) := by
      norm_num
    rw [hv]
    exact rnd_dyadic (5 / 2) 5 1 (by norm_num) (by norm_num) (by norm_num)
  have e_sm : rnd (1 + (5 / 2)) = F64.fin (7 / 2) := by
    have hv : (1 + (5 / 2) : ℚ) = (7 / 2) := by
      norm_num
    rw [hv]
    exact rnd_dyadic (7 / 2) 7 1 (by norm_num) (by norm_num) (by norm_num)
  have e_u1 : rnd (1 / 2 * (7 / 2)) = F64.fin (7 / 4) := by
    have hv : (1 / 2 * (7 / 2) : ℚ) = (7 / 4) := by
      norm_num
    rw [hv]
    exact rnd_dyadic (7 / 4) 7 2 (by norm_num) (by norm_num) (by norm_num)
  have e_u2 : rnd ((7 / 4) + 2) = F64.fin (15 / 4) := by
    have hv : ((7 / 4) + 2 : ℚ) = (15 / 4) := by
      norm_num
    rw [hv]
    exact rnd_dyadic (15 / 4) 15 2 (by norm_num) (by norm_num) (by norm_num)
  have e_u3 : rnd ((15 / 4) + 1 / 2) = F64.fin (17 / 4) := by
    have hv : ((15 / 4) + 1 / 2 : ℚ) = (17 / 4) := by
      norm_num
    rw [hv]
    exact rnd_dyadic (17 / 4) 17 2 (by norm_num) (by norm_num) (by norm_num)
  have e_d1 : rnd (c07 * (7 / 2)) = F64.fin (5516909543528857 / 2251799813685248) := by
    apply rnd_eval _ _ 1 5516909543528857
    · rw [abs_of_pos (by unfold c07; norm_num)]
      unfold c07
      norm_num
    · rw [abs_of_pos (by unfold c07; norm_num)]
      unfold c07
      norm_num
    · norm_num
    · apply rne_of_near
      unfold c07
      rw [abs_lt]
      constructor <;> norm_num
    · norm_num
    · rw [hb]
      norm_num
    · rw [hb]
      norm_num
  have e_d2 : rnd ((5516909543528857 / 2251799813685248) + 2) = F64.fin (1252563646362419 / 281474976710656) := by
    apply rnd_eval _ _ 2 5010254585449676
    · rw [abs_of_pos (by norm_num)]
      norm_num
    · rw [abs_of_pos (by norm_num)]
      norm_num
    · norm_num
    · apply rne_of_tie_even
      · norm_num
      · norm_num
    · norm_num
    · rw [hb]
      norm_num
    · rw [hb]
      norm_num
  have e_d3 : rnd ((1252563646362419 / 281474976710656) + 1 / 2) = F64.fin (1393301134717747 / 281474976710656) := by
    have hv : ((1252563646362419 / 281474976710656) + 1 / 2 : ℚ) = (1393301134717747 / 281474976710656) := by
      norm_num
    rw [hv]
    exact rnd_dyadic (1393301134717747 / 281474976710656) 1393301134717747 48 (by norm_num) (by norm_num) (by norm_num)
  have e_lo : rnd (5 - 4) = F64.fin 1 := by
    have hv : (5 - 4 : ℚ) = 1 := by
      norm_num
    rw [hv]
    exact rnd_dyadic 1 1 0 (by norm_num) (by norm_num) (by norm_num)
  have e_hi : rnd (5 + 4) = F64.fin 9 := by
    have hv : (5 + 4 : ℚ) = 9 := by
      norm_num
    rw [hv]
    exact rnd_dyadic 9 9 0 (by norm_num) (by norm_num) (by norm_num)
  have e_r : rnd ((7 / 2) + 1 / 2) = F64.fin 4 := by
    have hv : ((7 / 2) + 1 / 2 : ℚ) = 4 := by
      norm_num
    rw [hv]
    exact rnd_dyadic 4 4 0 (by norm_num) (by norm_num) (by norm_num)
  have e_out0 : rnd (0 + 0) = F64.fin 0 := by
    have hv : (0 + 0 : ℚ) = 0 := by
      norm_num
    rw [hv]
    exact rnd_dyadic 0 0 0 (by norm_num) (by norm_num) (by norm_num)
  have e_ip0 : rnd ((3940649673949185 / 1125899906842624) + 0) = F64.fin (3940649673949185 / 1125899906842624) := by
    have hv : ((3940649673949185 / 1125899906842624) + 0 : ℚ) = (3940649673949185 / 1125899906842624) := by
      norm_num
    rw [hv]
    exact rnd_dyadic (3940649673949185 / 1125899906842624) 3940649673949185 50 (by norm_num) (by norm_num) (by norm_num)
  have e_des0 : rnd ((21 / 2) - (3940649673949185 / 1125899906842624)) = F64.fin (7881299347898367 / 1125899906842624) := by
    have hv : ((21 / 2) - (3940649673949185 / 1125899906842624) : ℚ) = (7881299347898367 / 1125899906842624) := by
      norm_num
    rw [hv]
    exact rnd_dyadic (7881299347898367 / 1125899906842624) 7881299347898367 50 (by norm_num) (by norm_num) (by norm_num)
  have e_m10 : rnd (1 / 2 * (7881299347898367 / 1125899906842624)) = F64.fin (7881299347898367 / 2251799813685248) := by
    have hv : (1 / 2 * (7881299347898367 / 1125899906842624) : ℚ) = (7881299347898367 / 2251799813685248) := by
      norm_num
    rw [hv]
    exact rnd_dyadic (7881299347898367 / 2251799813685248) 7881299347898367 51 (by norm_num) (by norm_num) (by norm_num)
  have e_m20 : rnd ((1 / 2) * 0) = F64.fin 0 := by
    have hv : ((1 / 2) * 0 : ℚ) = 0 := by
      norm_num
    rw [hv]
    exact rnd_dyadic 0 0 0 (by norm_num) (by norm_num) (by norm_num)
  have e_sm0 : rnd ((7881299347898367 / 2251799813685248) + 0) = F64.fin (7881299347898367 / 2251799813685248) := by
    have hv : ((7881299347898367 / 2251799813685248) + 0 : ℚ) = (7881299347898367 / 2251799813685248) := by
      norm_num
    rw [hv]
    exact rnd_dyadic (7881299347898367 / 2251799813685248) 7881299347898367 51 (by norm_num) (by norm_num) (by norm_num)
  have hF : (handlerStepsF sqrtApproxF "blackbox" (roundingWeeks 5) Role.retailer).forecast = F64.fin (7 / 2) := rfl
  have hSafe : (handlerStepsF sqrtApproxF "blackbox" (roundingWeeks 5) Role.retailer).safety = F64.fin 0 :=
    oneWeek_safety_zero sqrtApproxF _ _ _ _ sqrtApproxF_three
  have hPrev : (handlerStepsF sqrtApproxF "blackbox" (roundingWeeks 5) Role.retailer).prevOrder = F64.fin 5 := rfl
  have hNet : (handlerStepsF sqrtApproxF "blackbox" (roundingWeeks 5) Role.retailer).net = F64.fin (3940649673949185 / 1125899906842624) := by
    show fsub (F64.fin nineEight) (F64.fin sixThree) = _
    rw [fsub_fin, e_net]
  have hOut : (handlerStepsF sqrtApproxF "blackbox" (roundingWeeks 5) Role.retailer).outstanding = F64.fin 5 := by
    show fadd (F64.fin 0) (F64.fin 5) = _
    rw [fadd_fin, e_out]
  have hIP : (handlerStepsF sqrtApproxF "blackbox" (roundingWeeks 5) Role.retailer).IP = F64.fin (17 / 2) := by
    rw [stepsF_IP, hNet, hOut, fadd_fin, e_ip]
  have hS : (handlerStepsF sqrtApproxF "blackbox" (roundingWeeks 5) Role.retailer).S = F64.fin (21 / 2) := by
    have h := oneWeek_S sqrtApproxF (7 / 2) nineEight sixThree 5 sqrtApproxF_three
    rw [fmul_fin, e_s1, fadd_fin, e_s2] at h
    exact h
  have hDes : (handlerStepsF sqrtApproxF "blackbox" (roundingWeeks 5) Role.retailer).desired = F64.fin 2 := by
    rw [stepsF_desired, hS, hIP, fsub_fin, e_des]
  have hSm : (handlerStepsF sqrtApproxF "blackbox" (roundingWeeks 5) Role.retailer).smoothed = F64.fin (7 / 2) := by
    rw [stepsF_smoothed, hDes, hPrev, fmul_fin, e_m1, fsub_fin, e_half, fmul_fin, e_m2,
      fadd_fin, e_sm]
  have hUp : (handlerStepsF sqrtApproxF "blackbox" (roundingWeeks 5) Role.retailer).up = F64.fin 4 := by
    rw [stepsF_up, hF, fmul_fin, e_u1, fadd_fin, e_u2]
    exact iroundF_eval _ _ 4 e_u3 (by norm_num) ⟨4, by norm_num⟩ (by norm_num) (by norm_num)
  have hDown : (handlerStepsF sqrtApproxF "blackbox" (roundingWeeks 5) Role.retailer).down = F64.fin 4 := by
    rw [stepsF_down, hF, fmul_fin, e_d1, fadd_fin, e_d2]
    exact iroundF_eval _ _ 4 e_d3 (by norm_num) ⟨4, by norm_num⟩ (by norm_num) (by norm_num)
  have hRes : handlerF sqrtApproxF "blackbox" (roundingWeeks 5) Role.retailer = F64.fin 4 := by
    unfold handlerF
    rw [stepsF_result, hSm, hPrev, hUp, hDown, fsub_fin, e_lo, fadd_fin, e_hi]
    unfold clampF
    rw [fmin_fin_fin, fmax_fin_fin]
    have hm : max (1 : ℚ) (min 9 (7 / 2)) = 7 / 2 := by norm_num
    rw [hm]
    exact iroundF_eval _ _ 4 e_r (by norm_num) ⟨4, by norm_num⟩ (by norm_num) (by norm_num)
  have hClosed : iround (JSVal.num (clamp ((3 * (7 / 2) + 0 - nineEight + sixThree) / 2)
      (5 - 4) (5 + 4))) = 3 := by
    have hv : ((3 * (7 / 2) + 0 - nineEight + sixThree) / 2 : ℚ) = (7881299347898367 / 2251799813685248) := by
      unfold nineEight sixThree
      norm_num
    have hc : clamp (7881299347898367 / 2251799813685248) (5 - 4) (5 + 4) = (7881299347898367 / 2251799813685248) := by
      unfold clamp
      norm_num
    have hfl : ⌊((7881299347898367 / 2251799813685248) : ℚ) + 1 / 2⌋ = 3 := by
      rw [Int.floor_eq_iff]
      constructor <;> norm_num
    rw [hv, hc]
    simp only [iround]
    rw [hfl]
    norm_num
  have hPrev0 : (handlerStepsF sqrtApproxF "blackbox" (roundingWeeks 0) Role.retailer).prevOrder = F64.fin 0 := rfl
  have hNet0 : (handlerStepsF sqrtApproxF "blackbox" (roundingWeeks 0) Role.retailer).net = F64.fin (3940649673949185 / 1125899906842624) := by
    show fsub (F64.fin nineEight) (F64.fin sixThree) = _
    rw [fsub_fin, e_net]
  have hOut0 : (handlerStepsF sqrtApproxF "blackbox" (roundingWeeks 0) Role.retailer).outstanding = F64.fin 0 := by
    show fadd (F64.fin 0) (F64.fin 0) = _
    rw [fadd_fin, e_out0]
  have hIP0 : (handlerStepsF sqrtApproxF "blackbox" (roundingWeeks 0) Role.retailer).IP = F64.fin (3940649673949185 / 1125899906842624) := by
    rw [stepsF_IP, hNet0, hOut0, fadd_fin, e_ip0]
  have hS0 : (handlerStepsF sqrtApproxF "blackbox" (roundingWeeks 0) Role.retailer).S = F64.fin (21 / 2) := by
    have h := oneWeek_S sqrtApproxF (7 / 2) nineEight sixThree 0 sqrtApproxF_three
    rw [fmul_fin, e_s1, fadd_fin, e_s2] at h
    exact h
  have hDes0 : (handlerStepsF sqrtApproxF "blackbox" (roundingWeeks 0) Role.retailer).desired = F64.fin (7881299347898367 / 1125899906842624) := by
    rw [stepsF_desired, hS0, hIP0, fsub_fin, e_des0]
  have hSm0 : (handlerStepsF sqrtApproxF "blackbox" (roundingWeeks 0) Role.retailer).smoothed = F64.fin (7881299347898367 / 2251799813685248) := by
    rw [stepsF_smoothed, hDes0, hPrev0, fmul_fin, e_m10, fsub_fin, e_half, fmul_fin, e_m20,
      fadd_fin, e_sm0]
  exact ⟨⟨by decide, by decide⟩, hF, hSafe, rfl, rfl, hPrev, hUp, hDown, hRes, hClosed, hSm,
    hSm0⟩

/-- C18, amended: in binary64, on a history of 1 to 5 weeks whose forecast, safety stock,
inventory, backlog and previous order are multiples of 2^-20 of magnitude at most 2^28
(no operation of the policy rounds on such values), the lead time is 2, the outstanding
orders are the previous order, safety = iround(1*mad*sqrt(3)), the smoothed value is
(3*forecast + safety - inventory + backlog)/2, and the order is iround of that value
clamped to [prevOrder - down, prevOrder + up]. -/
theorem short_history_order_binary64 (sqrt : F64 → F64) (mode : String) (weeks : History)
    (role : Role) (h1 : 1 ≤ weeks.length) (h5 : weeks.length ≤ 5) (f s i b p : ℚ)
    (hf : (handlerStepsF sqrt mode weeks role).forecast = F64.fin f)
    (hs : (handlerStepsF sqrt mode weeks role).safety = F64.fin s)
    (hi : (handlerStepsF sqrt mode weeks role).inventory = F64.fin i)
    (hb : (handlerStepsF sqrt mode weeks role).backlog = F64.fin b)
    (hp : (handlerStepsF sqrt mode weeks role).prevOrder = F64.fin p)
    (gf : OnGrid f) (gs : OnGrid s) (gi : OnGrid i) (gb : OnGrid b) (gp : OnGrid p) :
    (handlerStepsF sqrt mode weeks role).L = 2 ∧
    (handlerStepsF sqrt mode weeks role).outstanding = F64.fin p ∧
    (handlerStepsF sqrt mode weeks role).safety =
      iroundF (fmul (fmul (F64.fin 1) (handlerStepsF sqrt mode weeks role).mad)
        (sqrt (F64.fin 3))) ∧
    (handlerStepsF sqrt mode weeks role).smoothed = F64.fin ((3 * f + s - i + b) / 2) ∧
    handlerF sqrt mode weeks role =
      iroundF (clampF (F64.fin ((3 * f + s - i + b) / 2))
        (fsub (F64.fin p) (handlerStepsF sqrt mode weeks role).down)
        (fadd (F64.fin p) (handlerStepsF sqrt mode weeks role).up)) := by
  have hL := stepsF_L_short sqrt mode weeks role h5
  obtain ⟨hout, hsm⟩ := stepsF_smoothed_exact sqrt mode weeks role h1 h5 f s i b p
    hf hs hi hb hp gf gs gi gb gp
  have h3 : (((2 : ℕ) : ℚ) + 1) = 3 := by norm_num
  refine ⟨hL, hout, ?_, hsm, ?_⟩
  · rw [stepsF_safety, hL, h3]
  · unfold handlerF
    rw [stepsF_result, hsm, hp]

/-- Witness of C18 (amended): the retailer of the one-week history with demand 4, inventory 10,
backlog 0 and previous order 5, in blackbox mode: smoothed = (3*4 + 0 - 10 + 0)/2. -/
theorem short_history_order_binary64_witness :
    (1 ≤ [retailerWeek 4 10 0 5].length ∧ [retailerWeek 4 10 0 5].length ≤ 5 ∧
      OnGrid 4 ∧ OnGrid 0 ∧ OnGrid 10 ∧ OnGrid 5) ∧
    (handlerStepsF sqrtApproxF "blackbox" [retailerWeek 4 10 0 5] Role.retailer).smoothed =
      F64.fin ((3 * 4 + 0 - 10 + 0) / 2) :=
  have g4 : OnGrid 4 := ⟨4194304, by norm_num, by norm_num, by norm_num⟩
  have g0 : OnGrid 0 := ⟨0, by norm_num, by norm_num, by norm_num⟩
  have g10 : OnGrid 10 := ⟨10485760, by norm_num, by norm_num, by norm_num⟩
  have g5 : OnGrid 5 := ⟨5242880, by norm_num, by norm_num, by norm_num⟩
  ⟨⟨by decide, by decide, g4, g0, g10, g5⟩,
    (short_history_order_binary64 sqrtApproxF "blackbox" [retailerWeek 4 10 0 5]
      Role.retailer (by decide) (by decide) 4 0 10 0 5 rfl
      (oneWeek_safety_zero sqrtApproxF 4 10 0 5 sqrtApproxF_three) rfl rfl rfl
      g4 g0 g10 g0 g5).2.2.2.1⟩

/-- C19, as stated, fails: two one-week histories that differ only in the retailer's
inventory and backlog, the first with inventory -2^1023 and backlog 2^1023, the second with
0 and 0: the first has the smaller net position, yet the code returns the order 0 for it
(its net position overflows to -Infinity and desired is NaN) and 5 for the second. -/
theorem order_not_antitone_on_overflow :
    eraseStock Role.retailer overflowWeek = eraseStock Role.retailer overflowWeekFlat ∧
    finiteOr0 (inventoryOf (roleEntry overflowWeek Role.retailer)) -
        finiteOr0 (backlogOf (roleEntry overflowWeek Role.retailer)) ≤
      finiteOr0 (inventoryOf (roleEntry overflowWeekFlat Role.retailer)) -
        finiteOr0 (backlogOf (roleEntry overflowWeekFlat Role.retailer)) ∧
    handlerF sqrtApproxF "blackbox" ([] ++ [overflowWeek]) Role.retailer = F64.fin 0 ∧
    handlerF sqrtApproxF "blackbox" ([] ++ [overflowWeekFlat]) Role.retailer = F64.fin 5 := by
  refine ⟨overflowWeek_eraseStock, ?_, overflowWeek_order, overflowWeekFlat_order⟩
  have h4 := halfBig_ge
  show -halfBig - halfBig ≤ 0 - 0
  linarith

/-- C19, amended: in binary64, for two histories that are identical except for the role's
inventory and backlog in the last week, if inventory1 - backlog1 ≤ inventory2 - backlog2,
neither smoothed value is `NaN` and the limited value of the first history is not
`+Infinity`, then, in the same mode, both orders are natural numbers and
order1 ≥ order2. -/
theorem order_antitone_in_net_binary64 (sqrt : F64 → F64) (mode : String) (pre : History)
    (w1 w2 : Option WeekRecord) (role : Role)
    (h : eraseStock role w1 = eraseStock role w2)
    (hnet : finiteOr0 (inventoryOf (roleEntry w1 role)) -
        finiteOr0 (backlogOf (roleEntry w1 role)) ≤
      finiteOr0 (inventoryOf (roleEntry w2 role)) -
        finiteOr0 (backlogOf (roleEntry w2 role)))
    (hs1 : (handlerStepsF sqrt mode (pre ++ [w1]) role).smoothed ≠ F64.nan)
    (hs2 : (handlerStepsF sqrt mode (pre ++ [w2]) role).smoothed ≠ F64.nan)
    (hl : (handlerStepsF sqrt mode (pre ++ [w1]) role).limited ≠ F64.pinf) :
    ∃ o1 o2 : ℕ, handlerF sqrt mode (pre ++ [w1]) role = F64.fin (o1 : ℚ) ∧
      handlerF sqrt mode (pre ++ [w2]) role = F64.fin (o2 : ℚ) ∧ o2 ≤ o1 := by
  obtain ⟨o1, ho1⟩ := stepsF_result_nat sqrt mode (pre ++ [w1]) role
  obtain ⟨o2, ho2⟩ := stepsF_result_nat sqrt mode (pre ++ [w2]) role
  have hle := stepsF_antitone sqrt mode pre w1 w2 role h hnet hs1 hs2 hl
  rw [ho1, ho2] at hle
  have hq : (o2 : ℚ) ≤ (o1 : ℚ) := hle
  exact ⟨o1, o2, ho1, ho2, by exact_mod_cast hq⟩

/-- Witness of C19 (amended): the one-week history with demand 4, backlog 0 and previous order 5,
with the inventory 5 against the inventory 10. -/
theorem order_antitone_in_net_binary64_witness :
    (eraseStock Role.retailer (retailerWeek 4 5 0 5) =
        eraseStock Role.retailer (retailerWeek 4 10 0 5) ∧
      finiteOr0 (inventoryOf (roleEntry (retailerWeek 4 5 0 5) Role.retailer)) -
          finiteOr0 (backlogOf (roleEntry (retailerWeek 4 5 0 5) Role.retailer)) ≤
        finiteOr0 (inventoryOf (roleEntry (retailerWeek 4 10 0 5) Role.retailer)) -
          finiteOr0 (backlogOf (roleEntry (retailerWeek 4 10 0 5) Role.retailer)) ∧
      (handlerStepsF sqrtApproxF "blackbox" ([] ++ [retailerWeek 4 5 0 5])
        Role.retailer).smoothed ≠ F64.nan ∧
      (handlerStepsF sqrtApproxF "blackbox" ([] ++ [retailerWeek 4 10 0 5])
        Role.retailer).smoothed ≠ F64.nan ∧
      (handlerStepsF sqrtApproxF "blackbox" ([] ++ [retailerWeek 4 5 0 5])
        Role.retailer).limited ≠ F64.pinf) ∧
    ∃ o1 o2 : ℕ,
      handlerF sqrtApproxF "blackbox" ([] ++ [retailerWeek 4 5 0 5]) Role.retailer =
        F64.fin (o1 : ℚ) ∧
      handlerF sqrtApproxF "blackbox" ([] ++ [retailerWeek 4 10 0 5]) Role.retailer =
        F64.fin (o2 : ℚ) ∧ o2 ≤ o1 :=
  have h : eraseStock Role.retailer (retailerWeek 4 5 0 5) =
      eraseStock Role.retailer (retailerWeek 4 10 0 5) := by
    simp only [retailerWeek, eraseStock, Option.map]
    congr 3
    funext r
    cases r <;> simp
  have hnet : finiteOr0 (inventoryOf (roleEntry (retailerWeek 4 5 0 5) Role.retailer)) -
        finiteOr0 (backlogOf (roleEntry (retailerWeek 4 5 0 5) Role.retailer)) ≤
      finiteOr0 (inventoryOf (roleEntry (retailerWeek 4 10 0 5) Role.retailer)) -
        finiteOr0 (backlogOf (roleEntry (retailerWeek 4 10 0 5) Role.retailer)) := by
    show (5 : ℚ) - 0 ≤ 10 - 0
    norm_num
  have hs1 : (handlerStepsF sqrtApproxF "blackbox" ([] ++ [retailerWeek 4 5 0 5])
      Role.retailer).smoothed ≠ F64.nan := by
    show (handlerStepsF sqrtApproxF "blackbox" [retailerWeek 4 5 0 5]
      Role.retailer).smoothed ≠ F64.nan
    rw [steady_trace_five.1]
    simp
  have hs2 : (handlerStepsF sqrtApproxF "blackbox" ([] ++ [retailerWeek 4 10 0 5])
      Role.retailer).smoothed ≠ F64.nan := by
    show (handlerStepsF sqrtApproxF "blackbox" [retailerWeek 4 10 0 5]
      Role.retailer).smoothed ≠ F64.nan
    rw [steady_trace_ten.2.2.2]
    simp
  have hl : (handlerStepsF sqrtApproxF "blackbox" ([] ++ [retailerWeek 4 5 0 5])
      Role.retailer).limited ≠ F64.pinf := by
    show (handlerStepsF sqrtApproxF "blackbox" [retailerWeek 4 5 0 5]
      Role.retailer).limited ≠ F64.pinf
    rw [steady_trace_five.2]
    simp
  ⟨⟨h, hnet, hs1, hs2, hl⟩,
    order_antitone_in_net_binary64 sqrtApproxF "blackbox" [] (retailerWeek 4 5 0 5)
      (retailerWeek 4 10 0 5) Role.retailer h hnet hs1 hs2 hl⟩

/-- C20, as stated, fails: for the sequence 0.1, 0.1 and alpha = 0.3 the binary64 mean
returned by ema is 0.09999999999999999, below the minimum element 0.1. -/
theorem emaF_below_minimum :
    (0 < tenthDemand.length ∧ (0 : ℚ) ≤ threeTenths ∧ threeTenths ≤ 1) ∧
    emaF tenthDemand (F64.fin threeTenths) = F64.fin (7205759403792793 / 72057594037927936) ∧
    (7205759403792793 / 72057594037927936 : ℚ) <
      tenthDemand.minimum_of_length_pos (by decide) := by
  refine ⟨⟨by decide, by unfold threeTenths; norm_num, by unfold threeTenths; norm_num⟩,
    emaF_tenthDemand, ?_⟩
  have hmem := List.minimum_of_length_pos_mem (l := tenthDemand) (by decide)
  have hall : ∀ v ∈ tenthDemand, (7205759403792793 / 72057594037927936 : ℚ) < v := by
    intro v hv
    simp only [tenthDemand, List.mem_cons, List.mem_singleton, List.not_mem_nil, or_false,
      or_self] at hv
    rw [hv]
    unfold tenth
    norm_num
  exact hall _ hmem

/-- C20, amended: for 0 <= alpha <= 1 - 2^-53 (every binary64 alpha of [0, 1)) and a
sequence of values >= 0, the binary64 mean returned by ema and by emaMad is a finite
number >= 0 or +Infinity, never negative and never NaN; hence a role whose demand
observations are all >= 0 has such a forecast from its own demand. -/
theorem emaF_nonneg (x : List ℚ) (alpha : ℚ) (h0 : 0 ≤ alpha)
    (h1 : alpha ≤ 1 - 1 / 2 ^ (53 : ℕ)) (hx : ∀ v ∈ x, 0 ≤ v) :
    NonNegF (emaF x (F64.fin alpha)) ∧ NonNegF (emaMadF x (F64.fin alpha)).m ∧
    (∀ (sqrt : F64 → F64) (weeks : History) (role : Role),
      (∀ v ∈ (seriesFor weeks role).d, 0 ≤ v) →
        NonNegF (handlerStepsF sqrt "blackbox" weeks role).forecast) := by
  have h := emaFromF_nonNeg alpha h0 h1 x 0 (F64.fin 0) hx nonNegF_zero
  refine ⟨h, by rw [emaMadF_m_eq_emaF]; exact h, ?_⟩
  intro sqrt weeks role hd
  have hf : (handlerStepsF sqrt "blackbox" weeks role).forecast =
      emaF (seriesFor weeks role).d (F64.fin (1 / 4)) := by
    rw [← emaMadF_m_eq_emaF]
    simp [handlerStepsF, computeOrderStepsF]
  rw [hf]
  exact emaFromF_nonNeg (1 / 4) (by norm_num) (by norm_num) _ 0 (F64.fin 0) hd nonNegF_zero

/-- Witness of C20 (amended): the demand 1, 5, 2, 8 smoothed with alpha = 1/4. -/
theorem emaF_nonneg_witness :
    ((0 : ℚ) ≤ 1 / 4 ∧ (1 / 4 : ℚ) ≤ 1 - 1 / 2 ^ (53 : ℕ) ∧ ∀ v ∈ sampleDemand, (0 : ℚ) ≤ v) ∧
    NonNegF (emaF sampleDemand (F64.fin (1 / 4))) :=
  have hx : ∀ v ∈ sampleDemand, (0 : ℚ) ≤ v := by
    intro v hv
    simp only [sampleDemand, List.mem_cons, List.mem_singleton, List.not_mem_nil,
      or_false] at hv
    rcases hv with h | h | h | h <;> rw [h] <;> norm_num
  ⟨⟨by norm_num, by norm_num, hx⟩,
    (emaF_nonneg sampleDemand (1 / 4) (by norm_num) (by norm_num) hx).1⟩

end BeerBot
